import Mathlib

/-!
# reticule: signer, request pipeline and shape store

A shallow embedding of the parts of `durp/reticule` that its specification
talks about, with the properties of the specification stated and proved over
that embedding.

Go `string` and `[]byte` values are byte sequences; they are modelled as
`List (Fin 256)`.  Library routines the program calls (`encoding/base64`,
`crypto/sha256`, `crypto/hmac`) are modelled after the standards they
implement (RFC 4648, FIPS 180-4, RFC 2104) and after the Go implementation
where the Go implementation is more lenient than the standard.
-/

namespace Reticule

/-! ## Bytes and strings -/

abbrev Byte := Fin 256

/-- A Go `string` (equally a `[]byte`): a finite sequence of bytes. -/
abbrev GoString := List Byte

/-- The byte with value `n % 256`: Go's conversion `byte(n)`. -/
def byte (n : Nat) : Byte := ⟨n % 256, Nat.mod_lt _ (by decide)⟩

/-- UTF-8 encoding of one code point, as the Go compiler stores a character of
a string literal. -/
def utf8 (c : Char) : GoString :=
  let n := c.toNat
  if n < 0x80 then [byte n]
  else if n < 0x800 then [byte (0xC0 + n / 64), byte (0x80 + n % 64)]
  else if n < 0x10000 then
    [byte (0xE0 + n / 4096), byte (0x80 + n / 64 % 64), byte (0x80 + n % 64)]
  else
    [byte (0xF0 + n / 262144), byte (0x80 + n / 4096 % 64),
     byte (0x80 + n / 64 % 64), byte (0x80 + n % 64)]

/-- The Go string written as the literal `s`. -/
def lit (s : String) : GoString := s.toList.flatMap utf8

/-! ## `encoding/base64`, `StdEncoding` -/

namespace base64

/-- The alphabet of `StdEncoding`:
`ABCDEFGHIJKLMNOPQRSTUVWXYZabcdefghijklmnopqrstuvwxyz0123456789+/`. -/
def encodeStd (v : Nat) : Byte :=
  if v < 26 then byte (65 + v)
  else if v < 52 then byte (97 + (v - 26))
  else if v < 62 then byte (48 + (v - 52))
  else if v = 62 then byte 43
  else byte 47

/-- The table `enc.decodeMap` of `StdEncoding`: the 6-bit value of an alphabet
character, `0xff` for every other byte. -/
def decodeMap (c : Byte) : Nat :=
  let n := c.val
  if 65 ≤ n ∧ n ≤ 90 then n - 65
  else if 97 ≤ n ∧ n ≤ 122 then n - 97 + 26
  else if 48 ≤ n ∧ n ≤ 57 then n - 48 + 52
  else if n = 43 then 62
  else if n = 47 then 63
  else 0xff

/-- The padding character `=` of `StdEncoding`. -/
def padChar : Byte := byte 61

/-- Whether the byte is `\n` or `\r`. -/
def isNewline (c : Byte) : Bool := c.val = 10 || c.val = 13

/-- Embeds `EncodeToString` of `StdEncoding`: three bytes become four characters, a
final group of one or two bytes is padded with `=`. -/
def EncodeToString : GoString → GoString
  | [] => []
  | [a] =>
    let v := a.val * 65536
    [encodeStd (v / 262144 % 64), encodeStd (v / 4096 % 64), padChar, padChar]
  | [a, b] =>
    let v := a.val * 65536 + b.val * 256
    [encodeStd (v / 262144 % 64), encodeStd (v / 4096 % 64), encodeStd (v / 64 % 64), padChar]
  | a :: b :: c :: rest =>
    let v := a.val * 65536 + b.val * 256 + c.val
    encodeStd (v / 262144 % 64) :: encodeStd (v / 4096 % 64) :: encodeStd (v / 64 % 64)
      :: encodeStd (v % 64) :: EncodeToString rest

/-- The loop `for si < len(src) && (src[si] == '\n' || src[si] == '\r') { si++ }`
of `decodeQuantum`, on the unread part of the input. -/
def skipNewlines : List Byte → Nat → List Byte × Nat
  | [], si => ([], si)
  | c :: rest, si => if isNewline c then skipNewlines rest (si + 1) else (c :: rest, si)

/-- What one call of `decodeQuantum` gives back: the unread input, the new
offset `nsi`, the bytes written to `dst` (`n` of them) and `err`
(`CorruptInputError` carries the offset of the offending byte). -/
structure Quantum where
  rest : List Byte
  nsi : Nat
  out : List Byte
  err : Option Nat
deriving DecidableEq, Repr

/-- The tail of `decodeQuantum`: turn the `dlen` collected 6-bit values (`dbuf`,
unread entries zero) into `dlen - 1` bytes.  `StdEncoding` is not strict, so
left-over bits are not examined. -/
def quantumBytes (dbuf : List Nat) (dlen : Nat) : List Byte :=
  let val := dbuf.getD 0 0 * 262144 + dbuf.getD 1 0 * 4096 + dbuf.getD 2 0 * 64 + dbuf.getD 3 0
  ([byte (val / 65536), byte (val / 256), byte val]).take (dlen - 1)

/-- The body of `decodeQuantum`, `StdEncoding` (padded, not strict): `src` is
the unread input at offset `si`, `dbuf` the 6-bit values read so far (`j` of
them). -/
def decodeQuantumFrom : (src : List Byte) → (si : Nat) → (dbuf : List Nat) → Quantum
  | [], si, dbuf =>
    -- len(src) == si
    if dbuf.length = 0 then ⟨[], si, [], none⟩
    else ⟨[], si, [], some (si - dbuf.length)⟩
  | c :: rest, si, dbuf =>
    let j := dbuf.length
    let si1 := si + 1
    if decodeMap c ≠ 0xff then
      if j = 3 then ⟨rest, si1, quantumBytes (dbuf ++ [decodeMap c]) 4, none⟩
      else decodeQuantumFrom rest si1 (dbuf ++ [decodeMap c])
    else if isNewline c then decodeQuantumFrom rest si1 dbuf
    else if c ≠ padChar then ⟨rest, si1, [], some (si1 - 1)⟩
    else if j = 0 ∨ j = 1 then ⟨rest, si1, [], some (si1 - 1)⟩
    else if j = 2 then
      -- "==" is expected, the first "=" is already consumed
      match skipNewlines rest si1 with
      | ([], si2) => ⟨[], si2, [], some si2⟩
      | (d :: rest2, si2) =>
        if d ≠ padChar then ⟨d :: rest2, si2, [], some (si2 - 1)⟩
        else
          match skipNewlines rest2 (si2 + 1) with
          | ([], si3) => ⟨[], si3, quantumBytes dbuf 2, none⟩
          | (r, si3) => ⟨r, si3, quantumBytes dbuf 2, some si3⟩
    else
      match skipNewlines rest si1 with
      | ([], si3) => ⟨[], si3, quantumBytes dbuf 3, none⟩
      | (r, si3) => ⟨r, si3, quantumBytes dbuf 3, some si3⟩

/-- One call `enc.decodeQuantum(dst, src, si)`. -/
def decodeQuantum (src : List Byte) (si : Nat) : Quantum := decodeQuantumFrom src si []

/-- The loop `for si < len(src) { si, ninc, err = enc.decodeQuantum(...) ... }` of
`Decode`; `fuel` bounds the number of quanta (each one reads at least one
byte).  The word-at-a-time fast paths of `Decode` give the same bytes as
`decodeQuantum` on the characters they accept and fall back to it otherwise. -/
def decodeLoop : Nat → List Byte → Nat → List Byte → List Byte × Option Nat
  | 0, _, _, acc => (acc, none)
  | fuel + 1, src, si, acc =>
    match src with
    | [] => (acc, none)
    | _ :: _ =>
      let q := decodeQuantum src si
      match q.err with
      | some e => (acc ++ q.out, some e)
      | none => decodeLoop fuel q.rest q.nsi (acc ++ q.out)

/-- Embeds `StdEncoding.DecodeString(s)`: the decoded bytes and the error, if any. -/
def DecodeString (s : GoString) : List Byte × Option Nat :=
  decodeLoop s.length s 0 []

end base64

/-! ## Standard base64 in the words of RFC 4648 -/

namespace base64

/-- Whether the byte is one of the 64 characters of the standard alphabet of
RFC 4648: `A`-`Z`, `a`-`z`, `0`-`9`, `+`, `/`. -/
def isAlphabet (c : Byte) : Bool :=
  (65 ≤ c.val && c.val ≤ 90) || (97 ≤ c.val && c.val ≤ 122) || (48 ≤ c.val && c.val ≤ 57) ||
  c.val = 43 || c.val = 47

/-- Padded base64 text as RFC 4648 has it: groups of four characters of the
alphabet, of which only the last may end in `=` or `==`. -/
def paddedGroups : List Byte → Bool
  | [] => true
  | a :: b :: c :: d :: rest =>
    isAlphabet a && isAlphabet b &&
      ((isAlphabet c && isAlphabet d && paddedGroups rest) ||
       (rest = [] && ((isAlphabet c && d = padChar) || (c = padChar && d = padChar))))
  | _ => false

/-- A text with its line breaks removed. -/
def strip (s : List Byte) : List Byte := s.filter fun c => !isNewline c

/-- Valid standard base64 in the words of the spec: padded base64 text of the
standard alphabet, line breaks (`\r`, `\n`) set aside. -/
def validStd (s : GoString) : Bool := paddedGroups (strip s)

/-- Whether a text without line breaks completes a valid padded text when `j`
characters of its first group were read already. -/
def tailOK : Nat → List Byte → Bool
  | j, [] => j = 0
  | j, c :: fs =>
    if isAlphabet c then (if j = 3 then paddedGroups fs else tailOK (j + 1) fs)
    else if c = padChar then (j = 2 && fs = [padChar]) || (j = 3 && fs = [])
    else false

end base64

/-! ## `crypto/sha256` (FIPS 180-4) -/

namespace sha256

/-- Addition of 32-bit words. -/
def add32 (a b : Nat) : Nat := (a + b) % 4294967296

/-- Rotate a 32-bit word right by `n` bits (`bits.RotateLeft32(x, -n)`). -/
def rotr (x n : Nat) : Nat := (x >>> n) ||| ((x <<< (32 - n)) % 4294967296)

/-- Bitwise complement of a 32-bit word. -/
def not32 (x : Nat) : Nat := 4294967295 - x

/-- The round constants `_K`. -/
def K : List Nat :=
  [0x428a2f98, 0x71374491, 0xb5c0fbcf, 0xe9b5dba5, 0x3956c25b, 0x59f111f1, 0x923f82a4, 0xab1c5ed5,
   0xd807aa98, 0x12835b01, 0x243185be, 0x550c7dc3, 0x72be5d74, 0x80deb1fe, 0x9bdc06a7, 0xc19bf174,
   0xe49b69c1, 0xefbe4786, 0x0fc19dc6, 0x240ca1cc, 0x2de92c6f, 0x4a7484aa, 0x5cb0a9dc, 0x76f988da,
   0x983e5152, 0xa831c66d, 0xb00327c8, 0xbf597fc7, 0xc6e00bf3, 0xd5a79147, 0x06ca6351, 0x14292967,
   0x27b70a85, 0x2e1b2138, 0x4d2c6dfc, 0x53380d13, 0x650a7354, 0x766a0abb, 0x81c2c92e, 0x92722c85,
   0xa2bfe8a1, 0xa81a664b, 0xc24b8b70, 0xc76c51a3, 0xd192e819, 0xd6990624, 0xf40e3585, 0x106aa070,
   0x19a4c116, 0x1e376c08, 0x2748774c, 0x34b0bcb5, 0x391c0cb3, 0x4ed8aa4a, 0x5b9cca4f, 0x682e6ff3,
   0x748f82ee, 0x78a5636f, 0x84c87814, 0x8cc70208, 0x90befffa, 0xa4506ceb, 0xbef9a3f7, 0xc67178f2]

/-- The initial hash value `init0 .. init7`. -/
def init : List Nat :=
  [0x6a09e667, 0xbb67ae85, 0x3c6ef372, 0xa54ff53a, 0x510e527f, 0x9b05688c, 0x1f83d9ab, 0x5be0cd19]

/-- Big-endian 32-bit words of a byte sequence whose length is a multiple of 4. -/
def words : List Byte → List Nat
  | a :: b :: c :: d :: rest =>
    (a.val * 16777216 + b.val * 65536 + c.val * 256 + d.val) :: words rest
  | _ => []

/-- The four bytes of a 32-bit word, big-endian. -/
def wordBytes (w : Nat) : List Byte :=
  [byte (w / 16777216), byte (w / 65536), byte (w / 256), byte w]

/-- The message schedule: `w` holds `w[0..i)` in reverse order (newest first);
`n` more words are appended by
`w[i] = σ1(w[i-2]) + w[i-7] + σ0(w[i-15]) + w[i-16]`. -/
def schedule : Nat → List Nat → List Nat
  | 0, w => w
  | n + 1, w =>
    let v1 := w.getD 1 0
    let t1 := rotr v1 17 ^^^ rotr v1 19 ^^^ (v1 >>> 10)
    let v2 := w.getD 14 0
    let t2 := rotr v2 7 ^^^ rotr v2 18 ^^^ (v2 >>> 3)
    schedule n (add32 (add32 (add32 t1 (w.getD 6 0)) t2) (w.getD 15 0) :: w)

/-- The eight working variables `a .. h`. -/
structure Vars where
  a : Nat
  b : Nat
  c : Nat
  d : Nat
  e : Nat
  f : Nat
  g : Nat
  h : Nat
deriving DecidableEq, Repr

/-- One round of the compression function with round constant `k` and schedule
word `w`. -/
def round (v : Vars) (k w : Nat) : Vars :=
  let t1 := add32 (add32 (add32 (add32 v.h
      (rotr v.e 6 ^^^ rotr v.e 11 ^^^ rotr v.e 25))
      ((v.e &&& v.f) ^^^ (not32 v.e &&& v.g))) k) w
  let t2 := add32 (rotr v.a 2 ^^^ rotr v.a 13 ^^^ rotr v.a 22)
      ((v.a &&& v.b) ^^^ (v.a &&& v.c) ^^^ (v.b &&& v.c))
  ⟨add32 t1 t2, v.a, v.b, v.c, add32 v.d t1, v.e, v.f, v.g⟩

/-- The 64 rounds over the constants and the schedule. -/
def rounds : Vars → List Nat → List Nat → Vars
  | v, k :: ks, w :: ws => rounds (round v k w) ks ws
  | v, _, _ => v

/-- The function `block` on one 64-byte chunk: the new chaining value. -/
def blockOne (h : Vars) (chunk : List Byte) : Vars :=
  let w := (schedule 48 (words chunk).reverse).reverse
  let v := rounds h K w
  ⟨add32 h.a v.a, add32 h.b v.b, add32 h.c v.c, add32 h.d v.d,
   add32 h.e v.e, add32 h.f v.f, add32 h.g v.g, add32 h.h v.h⟩

/-- The function `block` over `n` consecutive 64-byte chunks. -/
def blocks : Nat → Vars → List Byte → Vars
  | 0, h, _ => h
  | n + 1, h, p => blocks n (blockOne h (p.take 64)) (p.drop 64)

/-- The padding appended by `checkSum`: `0x80`, zeros up to 56 modulo 64, then
the length in bits as a big-endian 64-bit number. -/
def padding (len : Nat) : List Byte :=
  let zeros := if len % 64 < 56 then 55 - len % 64 else 119 - len % 64
  let bits := len * 8 % 18446744073709551616
  byte 0x80 :: List.replicate zeros (byte 0)
    ++ [byte (bits / 72057594037927936), byte (bits / 281474976710656),
        byte (bits / 1099511627776), byte (bits / 4294967296),
        byte (bits / 16777216), byte (bits / 65536), byte (bits / 256), byte bits]

/-- Embeds `sha256.Sum256(data)`: the 32-byte digest. -/
def Sum256 (data : List Byte) : List Byte :=
  let p := data ++ padding data.length
  let h := blocks (p.length / 64) ⟨init.getD 0 0, init.getD 1 0, init.getD 2 0, init.getD 3 0,
    init.getD 4 0, init.getD 5 0, init.getD 6 0, init.getD 7 0⟩ p
  wordBytes h.a ++ wordBytes h.b ++ wordBytes h.c ++ wordBytes h.d
    ++ wordBytes h.e ++ wordBytes h.f ++ wordBytes h.g ++ wordBytes h.h

end sha256

/-! ## `crypto/hmac` (RFC 2104) over SHA-256 -/

namespace hmac

/-- The key as `hmac.New` prepares it: a key longer than the 64-byte block is
replaced by its digest, then it is filled with zeros to 64 bytes. -/
def blockKey (key : List Byte) : List Byte :=
  let k := if key.length > 64 then sha256.Sum256 key else key
  k ++ List.replicate (64 - k.length) (byte 0)

/-- What `hmac.New(sha256.New, key)`, `Write(message)` and `Sum(nil)` compute:
`H((K ⊕ opad) ‖ H((K ⊕ ipad) ‖ message))`. -/
def Sum (key message : List Byte) : List Byte :=
  let k := blockKey key
  let ipad := k.map fun b => byte (b.val ^^^ 0x36)
  let opad := k.map fun b => byte (b.val ^^^ 0x5c)
  sha256.Sum256 (opad ++ sha256.Sum256 (ipad ++ message))

end hmac

/-! ## Errors -/

/-- Modelled from the spec: the type `Error` of `error.go`, which is not among
the sources (the spec's `APIError`: `{statusCode, message}`); the tests show its
fields `StatusCode` and `Message`. -/
structure Error where
  StatusCode : Int
  Message : GoString
deriving DecidableEq, Repr

/-- A non-nil Go `error` value, by the type that produced it. -/
inductive Err
  /-- A `base64.CorruptInputError` with the offset of the offending byte. -/
  | corruptInput (offset : Nat)
  /-- An `Error` of this package. -/
  | api (e : Error)
  /-- An error of a library (`net/url`, `encoding/json`, `net/http`,
  `mapstructure`, `io`) or of this package, by its text. -/
  | other (msg : String)
deriving DecidableEq, Repr

/-- What a Go call ends in: it returns, or it panics. -/
inductive Outcome (α : Type)
  | returns (a : α)
  | panics (msg : String)
deriving DecidableEq

/-! ## `pkg/coinbasepro/authentication.go` -/

/-- The credentials of `authentication.go`. -/
structure Auth where
  Key : GoString
  Passphrase : GoString
  Secret : GoString
deriving DecidableEq, Repr

/-- Embeds `Auth.Sign(message)`: the signature and the error.  `hash.Hash.Write` never
returns an error, so the second `if err != nil` of the source is never taken. -/
def Auth.Sign (a : Auth) (message : GoString) : GoString × Option Err :=
  match base64.DecodeString a.Secret with
  | (_, some offset) => ([], some (.corruptInput offset))
  | (key, none) => (base64.EncodeToString (hmac.Sum key message), none)

/-! ## Pagination parameters -/

/-- Modelled from the spec: `PaginationParams` of `pagination.go`, which is not
among the sources: `{before, after, limit}`; `Limit` is a Go `int`. -/
structure PaginationParams where
  After : GoString
  Before : GoString
  Limit : Int
deriving DecidableEq, Repr

/-- Modelled from the spec: `PaginationParams.Validate` of `pagination.go`, which
is not among the sources: "pagination parameters fail validation if both
cursors are set, or if limit < 0 or limit > 100"; the texts are those the test
`TestPaginationParams` matches. -/
def PaginationParams.Validate (p : PaginationParams) : Option Err :=
  if p.After ≠ [] ∧ p.Before ≠ [] then some (.other "only one of \x27before\x27 or \x27after\x27 allowed")
  else if p.Limit < 0 ∨ p.Limit > 100 then some (.other "\x27limit\x27 outside of allowed range")
  else none

/-! ## `pkg/set/strings.go` -/

namespace set

/-- The type `set.Strings`, a Go `map[string]struct{}`: the keys it holds, each
once.  The order of the list stands for the order in which a `range` over the
map happens to visit the keys, which Go leaves unspecified. -/
structure Strings where
  keys : List GoString
  nodup : keys.Nodup

instance : DecidableEq Strings := fun a b =>
  decidable_of_iff (a.keys = b.keys) (by cases a; cases b; simp)

/-- The empty set, `make(set.Strings)`. -/
def Strings.make : Strings := ⟨[], List.nodup_nil⟩

/-- The assignment `s[v] = struct{}{}`. -/
def Strings.put (s : Strings) (v : GoString) : Strings :=
  if h : v ∈ s.keys then s
  else ⟨s.keys ++ [v], List.Nodup.append s.nodup (List.nodup_singleton v)
    (by intro a ha hb; rw [List.mem_singleton] at hb; exact h (hb ▸ ha))⟩

/-- Embeds `Strings.Add(values...)`. -/
def Strings.Add (s : Strings) (values : List GoString) : Strings :=
  values.foldl Strings.put s

/-- Embeds `Strings.Has(v)`. -/
def Strings.Has (s : Strings) (v : GoString) : Bool := decide (v ∈ s.keys)

/-- Embeds `Strings.Slice()`: the keys collected in iteration order, then sorted by
`sort.Strings` (ascending in Go's string order, which compares byte by byte). -/
def Strings.Slice (s : Strings) : List GoString := s.keys.insertionSort (· ≤ ·)

end set

/-! ## `strings.Join`, `hex.EncodeToString`, `strconv.Itoa` -/

/-- Embeds `strings.Join(elems, sep)`. -/
def Join : List GoString → GoString → GoString
  | [], _ => []
  | [a], _ => a
  | a :: b :: rest, sep => a ++ sep ++ Join (b :: rest) sep

/-- One digit of `hex.EncodeToString`, from the table `0123456789abcdef`. -/
def hexDigit (v : Nat) : Byte := if v < 10 then byte (48 + v) else byte (97 + (v - 10))

/-- Embeds `hex.EncodeToString(src)`: two lowercase digits per byte. -/
def hexEncodeToString (src : List Byte) : GoString :=
  src.flatMap fun b => [hexDigit (b.val / 16), hexDigit (b.val % 16)]

/-- The decimal digits of `n`, most significant first; `fuel` bounds their
number. -/
def digits : Nat → Nat → List Byte → List Byte
  | 0, _, acc => acc
  | fuel + 1, n, acc =>
    if n < 10 then byte (48 + n) :: acc else digits fuel (n / 10) (byte (48 + n % 10) :: acc)

/-- Embeds `strconv.Itoa(i)` for an index `i ≥ 0`. -/
def Itoa (i : Nat) : GoString := digits (i + 1) i []

/-! ## Decoded JSON -/

/-- A JSON value as `encoding/json` decodes it into an `interface{}`: `nil`,
`bool`, `float64` (kept as the text of the number), `string`, `[]interface{}`
and `map[string]interface{}` (the members in the order a `range` visits
them). -/
inductive JSON
  | null
  | bool (b : Bool)
  | number (text : GoString)
  | string (s : GoString)
  | array (items : List JSON)
  | object (members : List (GoString × JSON))
deriving Repr

/-- A Go `map[string]V` as the list of its entries. -/
abbrev GoMap (V : Type) := List (GoString × V)

/-- The lookup `v, ok := m[k]`. -/
def GoMap.get {V : Type} : GoMap V → GoString → Option V
  | [], _ => none
  | (k', v) :: rest, k => if k' = k then some v else GoMap.get rest k

/-- The assignment `m[k] = v`. -/
def GoMap.set {V : Type} : GoMap V → GoString → V → GoMap V
  | [], k, v => [(k, v)]
  | (k', v') :: rest, k, v => if k' = k then (k, v) :: rest else (k', v') :: GoMap.set rest k v

/-! ## `github.com/jeremywohl/flatten`, `DotStyle` -/

namespace flatten

/-- The function `enkey` with `DotStyle`: at the top the sub-key itself, below
it `prefix + "." + subkey`. -/
def enkey (top : Bool) (pfx subkey : GoString) : GoString :=
  if top then pfx ++ subkey else pfx ++ lit "." ++ subkey

mutual
/-- The closure `assign` of `flatten`: a map or a slice is flattened under
`newKey`, any other value is stored under it. -/
def assign (flatMap : GoMap JSON) (newKey : GoString) : JSON → GoMap JSON
  | .object members => flattenMembers false flatMap newKey members
  | .array items => flattenItems flatMap newKey 0 items
  | .null => flatMap.set newKey .null
  | .bool b => flatMap.set newKey (.bool b)
  | .number t => flatMap.set newKey (.number t)
  | .string s => flatMap.set newKey (.string s)
/-- The branch `case map[string]interface{}` of `flatten`: the loop over the
members. -/
def flattenMembers (top : Bool) (flatMap : GoMap JSON) (pfx : GoString) :
    List (GoString × JSON) → GoMap JSON
  | [] => flatMap
  | (k, v) :: rest => flattenMembers top (assign flatMap (enkey top pfx k) v) pfx rest
/-- The branch `case []interface{}` of `flatten`: the loop over the elements,
`i` the index of the next one. -/
def flattenItems (flatMap : GoMap JSON) (pfx : GoString) (i : Nat) :
    List JSON → GoMap JSON
  | [] => flatMap
  | v :: rest => flattenItems (assign flatMap (enkey false pfx (Itoa i)) v) pfx (i + 1) rest
end

/-- Embeds `flatten.Flatten(nested, prefix, flatten.DotStyle)`: for a map it never
returns an error. -/
def Flatten (nested : List (GoString × JSON)) (pfx : GoString) : GoMap JSON × Option Err :=
  (flattenMembers true [] pfx nested, none)

end flatten

/-! ## `pkg/phizog/shape.go` -/

namespace phizog

/-- The type `Shape`. -/
structure Shape where
  Name : GoString
  Keys : set.Strings
deriving DecidableEq

/-- The type `Occurrence`; `Count` is a Go `int` (a count of observations: it
does not reach the 63 bits of the machine integer). -/
structure Occurrence where
  Shape : Shape
  Count : Int
deriving DecidableEq

/-- The type `Store`: the map from fingerprint to `Occurrence`.  The map is an
allocated one, as after `NewStore()` or after a `Load` of a map that is not
nil; an assignment to a nil map, which panics in Go, is not embedded. -/
structure Store where
  shapes : GoMap Occurrence
deriving DecidableEq

/-- Embeds `NewStore()`. -/
def NewStore : Store := ⟨[]⟩

/-- Embeds `Shape.ID()`. -/
def Shape.ID (s : Shape) : GoString :=
  hexEncodeToString (sha256.Sum256 (Join s.Keys.Slice (lit ",")))

/-- Embeds `Store.Add(shape)`. -/
def Store.Add (s : Store) (shape : Shape) : Store :=
  match s.shapes.get shape.ID with
  | none => ⟨s.shapes.set shape.ID ⟨shape, 1⟩⟩
  | some v => ⟨s.shapes.set shape.ID { v with Count := v.Count + 1 }⟩

/-- The key set `AddShape` builds from a flat map: `keys.Add(k)` for each key
of `flat`. -/
def keysOf (flat : GoMap JSON) : set.Strings :=
  flat.foldl (fun keys kv => keys.Add [kv.1]) set.Strings.make

mutual
/-- The flattened keys of a value in the words of the spec (section 4.3:
"flatten nested structure into a single level of dotted paths (arrays count
as leaves at the path they occur)"): a nested object is flattened under the
path to it, and an array, like a scalar, is a leaf at its path. -/
def specPaths (path : GoString) : JSON → List GoString
  | .object members => specMemberPaths false path members
  | .array _ => [path]
  | .null => [path]
  | .bool _ => [path]
  | .number _ => [path]
  | .string _ => [path]
/-- The flattened keys of the members of an object in the words of the spec,
see `specPaths`: the paths are joined with dots. -/
def specMemberPaths (top : Bool) (pfx : GoString) : List (GoString × JSON) → List GoString
  | [] => []
  | (k, v) :: rest => specPaths (flatten.enkey top pfx k) v ++ specMemberPaths top pfx rest
end

/-- The flattened key set of an object in the words of the spec, see
`specPaths`. -/
def specKeys (o : List (GoString × JSON)) : List GoString := specMemberPaths true [] o

mutual
/-- Embeds `Store.AddShape(name, raw)`: the store afterwards and the error. -/
def Store.AddShape (s : Store) (name : GoString) : JSON → Store × Option Err
  | .array items => Store.AddShapes s name items
  | .object members =>
    match flatten.Flatten members [] with
    | (_, some err) => (s, some err)
    | (flat, none) => (s.Add ⟨name, keysOf flat⟩, none)
  | .null => (s, none)
  | .bool _ => (s, none)
  | .number _ => (s, none)
  | .string _ => (s, none)
/-- The loop `for _, item := range v` of `AddShape`. -/
def Store.AddShapes (s : Store) (name : GoString) : List JSON → Store × Option Err
  | [] => (s, none)
  | item :: rest =>
    match Store.AddShape s name item with
    | (s', some err) => (s', some err)
    | (s', none) => Store.AddShapes s' name rest
end

end phizog

/-! ## `net/http`: headers, requests, responses -/

/-- The function `validHeaderFieldByte`: the bytes of an HTTP token. -/
def validHeaderFieldByte (c : Byte) : Bool :=
  let n := c.val
  (48 ≤ n && n ≤ 57) || (65 ≤ n && n ≤ 90) || (97 ≤ n && n ≤ 122) ||
  n = 33 || n = 35 || n = 36 || n = 37 || n = 38 || n = 39 || n = 42 || n = 43 ||
  n = 45 || n = 46 || n = 94 || n = 95 || n = 96 || n = 124 || n = 126

/-- The case mapping of `canonicalMIMEHeaderKey`: a letter is made upper case
at the start and after `-`, lower case elsewhere. -/
def canonicalCase : Bool → List Byte → List Byte
  | _, [] => []
  | upper, c :: rest =>
    let c' :=
      if upper && (97 ≤ c.val && c.val ≤ 122) then byte (c.val - 32)
      else if !upper && (65 ≤ c.val && c.val ≤ 90) then byte (c.val + 32)
      else c
    c' :: canonicalCase (c' = byte 45) rest

/-- Embeds `textproto.CanonicalMIMEHeaderKey(s)`: a key with a byte that is not a token
byte is returned unchanged. -/
def CanonicalMIMEHeaderKey (s : GoString) : GoString :=
  if s.all validHeaderFieldByte then canonicalCase true s else s

/-- Embeds `http.Header`, a `map[string][]string`. -/
abbrev Header := GoMap (List GoString)

/-- Embeds `Header.Get(key)`: the first value under the canonical key, `""` if there
is none. -/
def Header.Get (h : Header) (key : GoString) : GoString :=
  match GoMap.get h (CanonicalMIMEHeaderKey key) with
  | some (v :: _) => v
  | _ => []

/-- Embeds `Header.Add(key, value)`: the value is appended to those under the canonical
key. -/
def Header.Add (h : Header) (key value : GoString) : Header :=
  GoMap.set h (CanonicalMIMEHeaderKey key)
    ((GoMap.get h (CanonicalMIMEHeaderKey key)).getD [] ++ [value])

/-- An `*http.Request` as far as the client builds it. -/
structure Request where
  Method : GoString
  URL : GoString
  Header : Header
  Body : GoString
deriving DecidableEq

/-- The next JSON value of a stream: its text and the value it denotes. -/
structure Doc where
  raw : GoString
  value : JSON

/-- A response body, an `io.ReadCloser`, by what the program does with it:
`next` is what a `json.Decoder` finds when it reads the next value (an error
for a read error, an empty stream or a text that is not JSON), `Close` is what
`Close()` returns. -/
structure Body where
  next : Except Err Doc
  Close : Option Err

/-- An `*http.Response` as far as the client looks at it. -/
structure Response where
  StatusCode : Int
  Header : Header
  Body : Body

/-! ## `encoding/json` and `mapstructure` on the targets of a call -/

/-- Modelled from the spec: the type `Pagination` of `pagination.go`, which is
not among the sources: the `Page` value read back from the two response
headers; the sources use its fields `Before` and `After`. -/
structure Pagination where
  Before : GoString
  After : GoString
deriving DecidableEq, Repr

/-- The argument `result interface{}` of a call, by what it points to; `T` is
the type of the Go values of the targets.
* `nil`: the nil interface;
* `rawMessage`: a `*json.RawMessage`;
* `paged`: a pointer to a struct with a field `Page *Pagination` (`Ledger`,
  `Holds`, `Fills`, ...), the rest of the struct and the field;
* `plain`: a pointer to a struct without a field `Page`;
* `slice`: a pointer to a slice (`*[]Account`). -/
inductive Result (T : Type)
  | nil
  | rawMessage (m : GoString)
  | paged (v : T) (Page : Option Pagination)
  | plain (v : T)
  | slice (v : T)
deriving DecidableEq

/-- What the embedding does not compute: how `encoding/json` decodes a JSON
value into a target of a given Go type (the value afterwards and the error),
and which requests `http.NewRequestWithContext` refuses. -/
structure Env (T : Type) where
  /-- Decoding into a struct without `Page`, or into a slice. -/
  value : JSON → T → T × Option Err
  /-- Decoding into a struct with a field `Page *Pagination`. -/
  paged : JSON → T → Option Pagination → T × Option Pagination × Option Err
  /-- The error of `http.NewRequestWithContext(ctx, method, url, body)`. -/
  NewRequest : GoString → GoString → Option Err

/-- Embeds `json.NewDecoder(body).Decode(result)`: the target afterwards and the
error.  Nothing is stored when no JSON value can be read. -/
def Decode {T : Type} (env : Env T) (body : Body) (result : Result T) :
    Result T × Option Err :=
  match body.next with
  | .error err => (result, some err)
  | .ok doc =>
    match result with
    | .nil => (.nil, some (.other "json: Unmarshal(nil)"))
    | .rawMessage _ => (.rawMessage doc.raw, none)
    | .paged v page =>
      match env.paged doc.value v page with
      | (v', page', err) => (.paged v' page', err)
    | .plain v => ((.plain (env.value doc.value v).1), (env.value doc.value v).2)
    | .slice v => ((.slice (env.value doc.value v).1), (env.value doc.value v).2)

/-- The case folding under which `encoding/json` matches a member name with a
field name made of ASCII letters: ASCII letters without regard to case, and
the two runes U+017F and U+212A as `s` and `k`. -/
def foldName : List Byte → List Byte
  | [] => []
  | [c] => [if 97 ≤ c.val ∧ c.val ≤ 122 then byte (c.val - 32) else c]
  | [c, d] =>
    if c.val = 0xC5 ∧ d.val = 0xBF then [byte 83]
    else (if 97 ≤ c.val ∧ c.val ≤ 122 then byte (c.val - 32) else c) :: foldName [d]
  | c :: d :: e :: rest =>
    if c.val = 0xE2 ∧ d.val = 0x84 ∧ e.val = 0xAA then byte 75 :: foldName rest
    else if c.val = 0xC5 ∧ d.val = 0xBF then byte 83 :: foldName (e :: rest)
    else (if 97 ≤ c.val ∧ c.val ≤ 122 then byte (c.val - 32) else c) :: foldName (d :: e :: rest)

/-- Whether a member name selects the field `Message` (JSON name `message`). -/
def isMessage (name : GoString) : Bool := foldName name = lit "MESSAGE"

/-- Modelled from the spec: how a JSON value is stored into the field `Message`
of an `Error` (the declaration of `Error`, with its field tags, is in
`error.go`, which is not among the sources): a string as it is, `null` not at
all, any other value is an `UnmarshalTypeError`, of which `encoding/json`
keeps the first while it goes on decoding. -/
def storeMessage : JSON → Error → Option Err → Error × Option Err
  | .string s, e, saved => ({ e with Message := s }, saved)
  | .null, e, saved => (e, saved)
  | _, e, saved => (e, saved.orElse fun _ =>
      some (.other "json: cannot unmarshal into Go struct field Error.message of type string"))

/-- Modelled from the spec: how a JSON object is stored into an `Error` (see
`storeMessage`).  The spec has the body carry the message and the status come
from the HTTP status: the member `message` is stored in `Message`, the other
members are skipped. -/
def decodeMembers : List (GoString × JSON) → Error → Option Err → Error × Option Err
  | [], e, saved => (e, saved)
  | (k, v) :: rest, e, saved =>
    if isMessage k then decodeMembers rest (storeMessage v e saved).1 (storeMessage v e saved).2
    else decodeMembers rest e saved

/-- Modelled from the spec: `json.NewDecoder(body).Decode(&coinbaseErr)` for the
type `Error` of `error.go`, which is not among the sources. -/
def DecodeError (body : Body) (e : Error) : Error × Option Err :=
  match body.next with
  | .error err => (e, some err)
  | .ok doc =>
    match doc.value with
    | .object members => decodeMembers members e none
    | .null => (e, none)
    | _ => (e, some (.other "json: cannot unmarshal into Go value of type coinbasepro.Error"))

/-- Embeds `mapstructure.Decode(paginated, result)` for `paginated` of the type
`struct{ Page *Pagination }`: a nil result is refused by `NewDecoder`, a struct
receives the fields it has by name, a slice cannot be decoded from a
struct. -/
def mapstructureDecode {T : Type} (page : Pagination) : Result T → Result T × Option Err
  | .nil => (.nil, some (.other "result must be a pointer"))
  | .rawMessage m =>
    (.rawMessage m, some (.other "\x27\x27: source data must be an array or slice, got struct"))
  | .paged v _ => (.paged v (some page), none)
  | .plain v => (.plain v, none)
  | .slice v =>
    (.slice v, some (.other "\x27\x27: source data must be an array or slice, got struct"))

/-! ## `pkg/coinbasepro/client.go`: the request pipeline -/

/-- Modelled from the spec: the function `Capture` of `error.go`, which is not
among the sources; its test `TestCapture` fixes it: the deferred error is
stored when no error is there yet, and does not replace one that is. -/
def Capture (capture deferred : Option Err) : Option Err :=
  match capture with
  | none => deferred
  | some e => some e

/-- The argument `content interface{}` when it is not nil, by what
`json.NewEncoder(&b).Encode(content)` does with it: the bytes written to the
buffer (the JSON text and a newline), or the error. -/
structure Content where
  Encode : Except Err GoString

/-- The type `APIClient`.  `baseURL` is `a.baseURL.Parse(relativePath)` followed
by `uri.String()`, `httpClient` is `a.httpClient.Do(req)`, and `timestamp n` is
what the `n`-th call of `a.timestamp()` returns. -/
structure APIClient where
  auth : Auth
  baseURL : GoString → Except Err GoString
  httpClient : Request → Except Err Response
  timestamp : Nat → GoString

/-- What a call leaves behind outside the client: how often the clock was read,
and the requests handed to the HTTP client, oldest first. -/
structure World where
  reads : Nat
  sent : List Request
deriving DecidableEq

/-- Embeds `isPaged(resp)`. -/
def isPaged (resp : Response) : Bool :=
  resp.Header.Get (lit "CB-BEFORE") ≠ [] && resp.Header.Get (lit "CB-AFTER") ≠ []

/-- Embeds `paginate(resp, result)`: the target afterwards and the error. -/
def paginate {T : Type} (resp : Response) (result : Result T) : Result T × Option Err :=
  let paginated : Pagination :=
    { Before := resp.Header.Get (lit "CB-BEFORE"), After := resp.Header.Get (lit "CB-AFTER") }
  match result with
  | .rawMessage m =>
    -- pagination is never present in raw result, just skip
    (.rawMessage m, none)
  | r => mapstructureDecode paginated r

/-- Embeds `APIClient.addHeaders(req, timestamp, signature)`. -/
def APIClient.addHeaders (a : APIClient) (req : Request) (timestamp signature : GoString) :
    Request :=
  let h := req.Header.Add (lit "Accept") (lit "application/json")
  let h := h.Add (lit "Content-Type") (lit "application/json")
  let h := h.Add (lit "User-Agent") (lit "Golang Reticule v0.1")
  let h := h.Add (lit "CB-ACCESS-KEY") a.auth.Key
  let h := h.Add (lit "CB-ACCESS-PASSPHRASE") a.auth.Passphrase
  let h := h.Add (lit "CB-ACCESS-TIMESTAMP") timestamp
  let h := h.Add (lit "CB-ACCESS-SIGN") signature
  { req with Header := h }

/-- The first half of `APIClient.do`, up to and with `a.httpClient.Do(req)`: the
world afterwards, and the response or the error with which `do` returns. -/
def APIClient.send {T : Type} (a : APIClient) (env : Env T) (w : World)
    (method relativePath : GoString) (content : Option Content) : World × Except Err Response :=
  match a.baseURL relativePath with
  | .error err => (w, .error err)
  | .ok uri =>
    -- var b bytes.Buffer; if content != nil { err = json.NewEncoder(&b).Encode(content) }
    match (match content with | none => Except.ok [] | some c => c.Encode) with
    | .error err => (w, .error err)
    | .ok b =>
      let timestamp := a.timestamp w.reads
      let w := { w with reads := w.reads + 1 }
      let msg := timestamp ++ method ++ relativePath ++ b
      match a.auth.Sign msg with
      | (_, some err) => (w, .error err)
      | (signature, none) =>
        match env.NewRequest method uri with
        | some err => (w, .error err)
        | none =>
          let req : Request :=
            { Method := if method = [] then lit "GET" else method, URL := uri, Header := [],
              Body := b }
          let req := a.addHeaders req timestamp signature
          let w := { w with sent := w.sent ++ [req] }
          match a.httpClient req with
          | .error err => (w, .error err)
          | .ok resp => (w, .ok resp)

/-- Embeds `APIClient.do(ctx, method, relativePath, content, result)`: the world
afterwards, and how the call ends: it returns, with the target afterwards and
the two results `resp` and `capture`, or it panics.  `resp` and `capture` are
named results and the deferred function reads `resp` when `do` returns: after
`return nil, err` for an error of the decoder `resp` is nil, and
`resp.Body.Close()` dereferences it. -/
def APIClient.do {T : Type} (a : APIClient) (env : Env T) (w : World)
    (method relativePath : GoString) (content : Option Content) (result : Result T) :
    World × Outcome (Result T × Option Response × Option Err) :=
  match a.send env w method relativePath content with
  | (w, .error err) => (w, .returns (result, none, some err))
  | (w, .ok resp) =>
    if resp.StatusCode ≥ 300 then
      match DecodeError resp.Body { StatusCode := resp.StatusCode, Message := [] } with
      | (_, some err) => (w, .returns (result, none, some err))
      | (coinbaseErr, none) => (w, .returns (result, none, some (.api coinbaseErr)))
    else
      -- defer func() { Capture(&capture, resp.Body.Close()) }()
      match result with
      | .nil => (w, .returns (.nil, some resp, Capture none resp.Body.Close))
      | result =>
        match Decode env resp.Body result with
        | (_, some _) =>
          -- return nil, err; the deferred function then calls resp.Body.Close() on the nil resp
          (w, .panics "invalid memory address or nil pointer dereference")
        | (result, none) => (w, .returns (result, some resp, Capture none resp.Body.Close))

/-- Embeds `APIClient.Do(ctx, method, relativePath, content, result)`: the world
afterwards, and how the call ends: it returns, with the target afterwards and
the error, or it panics. -/
def APIClient.Do {T : Type} (a : APIClient) (env : Env T) (w : World)
    (method relativePath : GoString) (content : Option Content) (result : Result T) :
    World × Outcome (Result T × Option Err) :=
  match a.do env w method relativePath content result with
  | (w, .panics msg) => (w, .panics msg)
  | (w, .returns (result, _, some err)) => (w, .returns (result, some err))
  | (w, .returns (_, none, none)) =>
    -- isPaged(resp) reads resp.Header
    (w, .panics "invalid memory address or nil pointer dereference")
  | (w, .returns (result, some resp, none)) =>
    if isPaged resp then
      match paginate resp result with
      | (result, some err) => (w, .returns (result, some err))
      | (result, none) => (w, .returns (result, none))
    else (w, .returns (result, none))

/-- Embeds `APIClient.Get(ctx, relativePath, result)`. -/
def APIClient.Get {T : Type} (a : APIClient) (env : Env T) (w : World)
    (relativePath : GoString) (result : Result T) : World × Outcome (Result T × Option Err) :=
  a.Do env w (lit "GET") relativePath none result

/-! ## The client of the tests -/

/-- The client of `TestAPIClient` (key `k`, passphrase `p`, secret `zZ==`, a
clock that always shows `1`) in front of a server that answers every request
with `resp`. -/
def testClient (resp : Response) : APIClient :=
  { auth := ⟨lit "k", lit "p", lit "zZ=="⟩
    baseURL := fun relativePath => .ok (lit "http://127.0.0.1" ++ relativePath)
    httpClient := fun _ => .ok resp
    timestamp := fun _ => lit "1" }

/-- Targets without content (`T` is `Unit`): decoding succeeds and stores
nothing, and every request is accepted. -/
def testEnv : Env Unit :=
  { value := fun _ v => (v, none)
    paged := fun _ v page => (v, page, none)
    NewRequest := fun _ _ => none }

/-- A response with the given status and body that carries the pagination
headers `CB-BEFORE: b` and `CB-AFTER: a`. -/
def pagedResponse (status : Int) (body : Body) : Response :=
  { StatusCode := status
    Header := Header.Add (Header.Add [] (lit "CB-BEFORE") (lit "b")) (lit "CB-AFTER") (lit "a")
    Body := body }

/-- The request `TestAPIClient` expects its server to receive. -/
def testRequest : Request :=
  { Method := lit "GET"
    URL := lit "http://127.0.0.1/test"
    Header :=
      [(lit "Accept", [lit "application/json"]),
       (lit "Content-Type", [lit "application/json"]),
       (lit "User-Agent", [lit "Golang Reticule v0.1"]),
       (lit "Cb-Access-Key", [lit "k"]),
       (lit "Cb-Access-Passphrase", [lit "p"]),
       (lit "Cb-Access-Timestamp", [lit "1"]),
       (lit "Cb-Access-Sign", [lit "2A+P3UPYN+cYs7ehkTJOLK/mkIHgHk1cahG1BCGDHRs="])]
    Body := [] }

/-- The body `{}` of the answer in `TestAPIClient`, closed without error. -/
def emptyObject : Body := ⟨.ok ⟨lit "\x7b\x7d", .object []⟩, none⟩

/-- The body `[]`, closed without error. -/
def emptyArray : Body := ⟨.ok ⟨lit "[]", .array []⟩, none⟩

/-- A body from which no JSON value can be read (the decoder returns
`io.EOF`), closed without error. -/
def emptyBody : Body := ⟨.error (.other "EOF"), none⟩

/-! ## `pkg/phizog/shape.go`: loading, and the count of observations -/

namespace phizog

/-- Embeds `Store.Load(shapes)`: the store afterwards and the error. -/
def Store.Load (_s : Store) (shapes : GoMap Occurrence) : Store × Option Err :=
  (⟨shapes⟩, none)

/-- The number of observations a store holds: the sum of the `Count`s of its
Occurrences. -/
def Store.observations (s : Store) : Int := (s.shapes.map fun e => e.2.Count).sum

/-- The words of the spec for a sequence: `AddShape(name, v)` is called for every
element in order, and the first error stops the calls and is returned. -/
def addEach (s : Store) (name : GoString) (items : List JSON) : Store × Option Err :=
  items.foldl
    (fun acc item =>
      match acc.2 with
      | some err => (acc.1, some err)
      | none => acc.1.AddShape name item)
    (s, none)

end phizog

/-! ## `pkg/coinbasepro/time.go`, `pkg/coinbasepro/report.go` -/

/-- The type `Time` of `time.go`, a `time.Time`, as far as `IsZero` and `Format` look
at it: the seconds since January 1 of year 1, 00:00:00 UTC, the nanoseconds
within the second, and the offset of its location at that instant, in seconds
east of UTC (0 for UTC and for the zero `Time`).  The seconds are an `int64`
in Go. -/
structure Time where
  sec : Int
  nsec : Nat
  offset : Int
deriving DecidableEq, Repr

/-- Embeds `time.Time.IsZero()`: the instant January 1, year 1, 00:00:00 UTC. -/
def Time.IsZero (t : Time) : Bool := t.sec = 0 && t.nsec = 0

/-- The type `ReportSpec`; `Format`, `ProductID` and `Type` are strings, and the
field `Type` is written `Type'` here. -/
structure ReportSpec where
  AccountID : GoString
  EndDate : Time
  Email : GoString
  Format : GoString
  ProductID : GoString
  StartDate : Time
  Type' : GoString
deriving DecidableEq, Repr

/-- The constant `ReportFormatCSV`. -/
def ReportFormatCSV : GoString := lit "csv"

/-- The constant `ReportFormatPDF`. -/
def ReportFormatPDF : GoString := lit "pdf"

/-- The constant `ReportTypeAccount`. -/
def ReportTypeAccount : GoString := lit "account"

/-- The constant `ReportTypeFills`. -/
def ReportTypeFills : GoString := lit "fills"

/-- Embeds `ReportSpec.Validate()`. -/
def ReportSpec.Validate (c : ReportSpec) : Option Err :=
  if c.Type' ≠ ReportTypeAccount ∧ c.Type' ≠ ReportTypeFills then
    some (.other "report \x27type\x27 must be one of \x27account\x27 or \x27fills")
  else if c.Type' = ReportTypeFills ∧ c.ProductID = [] then
    some (.other "\x27product_id\x27 required for report type \x27fills\x27")
  else if c.Type' = ReportTypeAccount ∧ c.AccountID = [] then
    some (.other "\x27account_id\x27 required for report type \x27account\x27")
  else if c.Format ≠ ReportFormatPDF ∧ c.Format ≠ ReportFormatCSV then
    some (.other "\x27format\x27 must be one of \x27pdf\x27 or \x27csv\x27")
  else if c.EndDate.IsZero then some (.other "\x27end_date\x27 is required")
  else if c.StartDate.IsZero then some (.other "\x27start_date\x27 is required")
  else none

/-! ## `pkg/coinbasepro/client.go`: the operations with pagination -/

/-- Embeds `strconv.Itoa(i)` for a Go `int`. -/
def itoa : Int → GoString
  | .ofNat n => Itoa n
  | .negSucc n => lit "-" ++ Itoa (n + 1)

/-- Modelled from the spec: `PaginationParams.Params` of `pagination.go`, which is
not among the sources: "pagination contributes `before=`, `after=`, or
`limit=`", a fragment for each field that is not empty (the tests
`TestPaginationParams` and `TestClient_Accounts` show `after=after`,
`limit=2`, `before=before`). -/
def PaginationParams.Params (p : PaginationParams) : List GoString :=
  (if p.Before ≠ [] then [lit "before=" ++ p.Before] else []) ++
  (if p.After ≠ [] then [lit "after=" ++ p.After] else []) ++
  (if p.Limit ≠ 0 then [lit "limit=" ++ itoa p.Limit] else [])

/-- Embeds `query(params)`. -/
def query (params : List GoString) : GoString :=
  if params.length = 0 then [] else lit "?" ++ Join params (lit "&")

/-- A transfer (`Deposit`, `Withdrawal`) as far as the client looks at it: its
`Type`, written `Type'` here; `ID` stands for the fields the client does not
look at. -/
structure Transfer where
  ID : GoString
  Type' : GoString
deriving DecidableEq, Repr

/-- The constant `DepositTypeDeposit`. -/
def DepositTypeDeposit : GoString := lit "deposit"

/-- The constant `DepositTypeInternal`. -/
def DepositTypeInternal : GoString := lit "internal_deposit"

/-- The constant `WithdrawalTypeWithdraw`. -/
def WithdrawalTypeWithdraw : GoString := lit "withdraw"

/-- The constant `WithdrawalTypeInternal`. -/
def WithdrawalTypeInternal : GoString := lit "internal_withdraw"

/-- The type `Client` as far as the operations below use it: `Get` is
`c.api.Get(ctx, relativePath, result)` (the target afterwards and the error; the
target keeps its Go type), `zero` is the zero value of the content of the
results (`Ledger{}`, `Holds{}`, ...). -/
structure Client (T : Type) where
  Get : GoString → Result T → Result T × Option Err
  zero : T

/-- What an operation of the client gives: the relative paths it asked the API
for, oldest first, the value it returns and the error it returns. -/
structure Answer (T : Type) where
  calls : List GoString
  value : Result T
  err : Option Err
deriving DecidableEq

/-- Embeds `Client.GetLedger(ctx, accountID, pagination)`. -/
def Client.GetLedger {T : Type} (c : Client T) (accountID : GoString)
    (pagination : PaginationParams) : Answer T :=
  match pagination.Validate with
  | some err => ⟨[], .paged c.zero none, some err⟩
  | none =>
    let path := lit "/accounts/" ++ accountID ++ lit "/ledger/" ++ query pagination.Params
    ⟨[path], (c.Get path (.paged c.zero none)).1, (c.Get path (.paged c.zero none)).2⟩

/-- Embeds `Client.GetHolds(ctx, accountID, pagination)`. -/
def Client.GetHolds {T : Type} (c : Client T) (accountID : GoString)
    (pagination : PaginationParams) : Answer T :=
  match pagination.Validate with
  | some err => ⟨[], .paged c.zero none, some err⟩
  | none =>
    let path := lit "/accounts/" ++ accountID ++ lit "/holds/" ++ query pagination.Params
    ⟨[path], (c.Get path (.paged c.zero none)).1, (c.Get path (.paged c.zero none)).2⟩

/-- Embeds `Client.GetOrders(ctx, filter, pagination)`; `filter` is
`filter.Params()`. -/
def Client.GetOrders {T : Type} (c : Client T) (filter : List GoString)
    (pagination : PaginationParams) : Answer T :=
  let params := filter ++ pagination.Params
  let path := lit "/orders/" ++ query params
  ⟨[path], (c.Get path (.paged c.zero none)).1, (c.Get path (.paged c.zero none)).2⟩

/-- Embeds `Client.GetFills(ctx, filter, pagination)`; `filter` is
`filter.Params()`. -/
def Client.GetFills {T : Type} (c : Client T) (filter : List GoString)
    (pagination : PaginationParams) : Answer T :=
  let params := filter ++ pagination.Params
  let path := lit "/fills/" ++ query params
  ⟨[path], (c.Get path (.paged c.zero none)).1, (c.Get path (.paged c.zero none)).2⟩

/-- Embeds `Client.GetProductTrades(ctx, productID, pagination)`. -/
def Client.GetProductTrades {T : Type} (c : Client T) (productID : GoString)
    (pagination : PaginationParams) : Answer T :=
  let path := lit "/products/" ++ productID ++ lit "/trades/" ++ query pagination.Params
  ⟨[path], (c.Get path (.paged c.zero none)).1, (c.Get path (.paged c.zero none)).2⟩

/-- The loop of `GetDeposits` and `GetWithdrawals` over the transfers, which are
pointers: those of the two given types are kept, in their order; reading the
`Type` of a nil pointer panics. -/
def keepTransfers (t1 t2 : GoString) :
    List (Option Transfer) → List (Option Transfer) → Outcome (List (Option Transfer))
  | [], kept => .returns kept
  | none :: _, _ => .panics "invalid memory address or nil pointer dereference"
  | some transfer :: rest, kept =>
    if transfer.Type' = t1 ∨ transfer.Type' = t2 then
      keepTransfers t1 t2 rest (kept ++ [some transfer])
    else keepTransfers t1 t2 rest kept

/-- The part of `GetDeposits` and `GetWithdrawals` after the call of the API
returned nil, for the two types kept: the filtered list, and an empty
`Pagination` in place of `Page` when no transfer is left. -/
def afterTransfers (t1 t2 : GoString) (path : GoString) :
    Result (List (Option Transfer)) → Outcome (Answer (List (Option Transfer)))
  | .paged transfers page =>
    match keepTransfers t1 t2 transfers [] with
    | .panics msg => .panics msg
    | .returns kept =>
      .returns ⟨[path], .paged kept (if kept.length = 0 then some ⟨[], []⟩ else page), none⟩
  | other => .returns ⟨[path], other, none⟩

/-- Embeds `Client.GetDeposits(ctx, filter, pagination)`; `filter` is
`filter.Params()`. -/
def Client.GetDeposits (c : Client (List (Option Transfer))) (filter : List GoString)
    (pagination : PaginationParams) : Outcome (Answer (List (Option Transfer))) :=
  let params := filter ++ pagination.Params
  let path := lit "/transfers/" ++ query params
  match c.Get path (.paged [] none) with
  | (_, some err) => .returns ⟨[path], .paged [] none, some err⟩
  | (deposits, none) => afterTransfers DepositTypeInternal DepositTypeDeposit path deposits

/-- Embeds `Client.GetWithdrawals(ctx, filter, pagination)`; `filter` is
`filter.Params()`. -/
def Client.GetWithdrawals (c : Client (List (Option Transfer))) (filter : List GoString)
    (pagination : PaginationParams) : Outcome (Answer (List (Option Transfer))) :=
  let params := filter ++ pagination.Params
  let path := lit "/transfers/" ++ query params
  match c.Get path (.paged [] none) with
  | (_, some err) => .returns ⟨[path], .paged [] none, some err⟩
  | (withdrawals, none) =>
    afterTransfers WithdrawalTypeInternal WithdrawalTypeWithdraw path withdrawals

/-- A client whose API answers every call with nil and stores nothing. -/
def quietClient (T : Type) (zero : T) : Client T := ⟨fun _ result => (result, none), zero⟩

/-- Pagination parameters with both cursors set, which `Validate` refuses. -/
def bothCursors : PaginationParams := ⟨lit "a", lit "b", 0⟩

/-! ## `pkg/coinbasepro/client.go`: `Client.watch`

The two goroutines of `watch` are embedded as a transition system: a state
holds where each goroutine stands, and an event is one step of a goroutine, of
the caller or of the socket.  The channel `messages` is unbuffered, so a send
and a receive on it are one step. -/

/-- A value of type `interface{}` that travels on the channels: a decoded frame,
or an `error` value. -/
inductive Message
  | frame (v : JSON)
  | error (e : Err)
deriving Repr

/-- Where the first goroutine (the reader) stands. -/
inductive Reader
  /-- Entering the `select`: the function literal of the send case is being
  evaluated, that is `r.ReadJSON(&message)` is running. -/
  | reading
  /-- In the `select`, with the value of the function literal to send. -/
  | offering (v : Message)
  /-- Returned; the deferred `close(messages)` has run. -/
  | returned
deriving Repr

/-- Where the second goroutine (the writer) stands. -/
inductive Writer
  /-- At `range messages`, waiting for a value. -/
  | waiting
  /-- In the `select`, with the message received. -/
  | holding (v : Message)
  /-- Returned. -/
  | returned
deriving Repr

/-- A state of `watch`.
* `socket`: what the coming calls of `ReadJSON` give, the value stored in
  `message` and the error; when the list is empty the socket is silent and
  `ReadJSON` does not return;
* `ctxErr`: `ctx.Err()` of the context of the group, nil while it is not done;
* `first`: the first non-nil error a goroutine returned, which `wg.Wait()`
  returns;
* `frames`: the frames read without error so far;
* `delivered`: the values the consumer received on `feed.Messages` so far. -/
structure Watch where
  socket : List (JSON × Option Err)
  ctxErr : Option Err
  reader : Reader
  writer : Writer
  first : Option Err
  frames : List JSON
  delivered : List Message

/-- The steps of `watch` and of its surroundings. -/
inductive Event
  /-- `ReadJSON` returns. -/
  | read
  /-- The send case of the reader and the receive of the writer. -/
  | handoff
  /-- The reader takes `case <-ctx.Done()` and returns `ctx.Err()`. -/
  | readerDone
  /-- The writer finds `messages` closed and returns nil. -/
  | closed
  /-- The writer takes `case <-ctx.Done()` and returns `ctx.Err()`. -/
  | writerDone
  /-- The writer takes `case feed.Messages <- message`: the consumer is
  receiving. -/
  | deliver
  /-- The writer takes `default`: no other case is ready. -/
  | drop
  /-- The caller cancels the context. -/
  | cancel
deriving DecidableEq, Repr

/-- The error `context.Canceled`. -/
def Canceled : Err := .other "context canceled"

/-- The function literal of the send case: `ReadJSON` gave the value `read.1` and
the error `read.2`; with an error, `return err` makes the error the value of
the literal. -/
def received (read : JSON × Option Err) : Message :=
  match read.2 with
  | some err => .error err
  | none => .frame read.1

/-- The start of `watch(ctx, r, feed)`: both goroutines started, the context not
done. -/
def Watch.start (socket : List (JSON × Option Err)) : Watch :=
  { socket := socket, ctxErr := none, reader := .reading, writer := .waiting,
    first := none, frames := [], delivered := [] }

/-- One step: the state after the event, or `none` when the event cannot happen
in the state. -/
def Watch.step (st : Watch) : Event → Option Watch
  | .read =>
    match st.reader, st.socket with
    | .reading, r :: rest =>
      some { st with
        socket := rest
        reader := .offering (received r)
        frames := st.frames ++ (match r.2 with | none => [r.1] | some _ => []) }
    | _, _ => none
  | .handoff =>
    match st.reader, st.writer with
    | .offering v, .waiting => some { st with reader := .reading, writer := .holding v }
    | _, _ => none
  | .readerDone =>
    match st.reader, st.ctxErr with
    | .offering _, some e =>
      some { st with reader := .returned, first := st.first.orElse fun _ => some e }
    | _, _ => none
  | .closed =>
    match st.reader, st.writer with
    | .returned, .waiting => some { st with writer := .returned }
    | _, _ => none
  | .writerDone =>
    match st.writer, st.ctxErr with
    | .holding _, some e =>
      some { st with writer := .returned, first := st.first.orElse fun _ => some e }
    | _, _ => none
  | .deliver =>
    match st.writer with
    | .holding v => some { st with writer := .waiting, delivered := st.delivered ++ [v] }
    | _ => none
  | .drop =>
    match st.writer, st.ctxErr with
    | .holding _, none => some { st with writer := .waiting }
    | _, _ => none
  | .cancel =>
    match st.ctxErr with
    | none => some { st with ctxErr := some Canceled }
    | some _ => none

/-- A run: the state after the events, one after the other, or `none` when one
of them cannot happen. -/
def Watch.run (st : Watch) : List Event → Option Watch
  | [] => some st
  | e :: es =>
    match st.step e with
    | none => none
    | some st' => Watch.run st' es

/-- What `watch` has returned: `wg.Wait()` returns once both goroutines have
returned, and gives the first error. -/
def Watch.result (st : Watch) : Option (Option Err) :=
  match st.reader, st.writer with
  | .returned, .returned => some st.first
  | _, _ => none

/-- What holds in every state of a run of `watch`: the context of the group is
not done or it is cancelled, the first error is that of the context, and a
reader that returned has left that error. -/
def WatchInv (st : Watch) : Prop :=
  (st.ctxErr = none ∨ st.ctxErr = some Canceled) ∧
  (st.first = none ∨ st.first = some Canceled) ∧
  (∀ _h : (match st.reader with | .returned => True | _ => False), st.first = some Canceled)

/-! ## `pkg/coinbasepro/client.go`: `DevelopmentClient` -/

/-- The type `DevelopmentClient`, without its file system. -/
structure DevelopmentClient where
  api : APIClient
  store : phizog.Store

/-- What the variable `result` of `DevelopmentClient.Do`, an `interface{}`, holds:
the pointer the caller passed (`pointer`); nil (`null`); the value that
`json.Unmarshal` stored in the variable itself when the caller passed nil
(`value`); and, after `mapstructure.Decode(paginated, &result)`, the struct
`paginated` (`paginated`) or a map that received the key `Page` (`withPage`). -/
inductive Held
  | pointer
  | null
  | value (j : JSON)
  | paginated (page : Pagination)
  | withPage (members : List (GoString × JSON)) (page : Pagination)

/-- The variable `result` inside `DevelopmentClient.Do` together with the target
of the caller: `caller` is what the pointer of the caller points to (nil when
the caller passed nil), `held` is what the variable holds. -/
structure Local (T : Type) where
  caller : Result T
  held : Held

/-- What the embedding of `DevelopmentClient.Do` does not compute:
* `Unmarshal b`: `json.Unmarshal(b, &v)` for an empty `interface{}` `v`;
* `Marshal`: `json.Marshal(result)`;
* `Dir`: `path.Dir`;
* `typeName`: the Go type of the value of `result`, as `%T` prints it. -/
structure DevEnv (T : Type) where
  Unmarshal : GoString → Except Err JSON
  Marshal : Local T → Except Err GoString
  Dir : GoString → GoString
  typeName : Local T → GoString

/-- Whether a decoded JSON value is `null`. -/
def JSON.isNull : JSON → Bool
  | .null => true
  | _ => false

/-- The call `json.Unmarshal(rawMessage, &result)` in `DevelopmentClient.Do`, where
`raw` is the value of `rawMessage`.  The decoder is handed the address of the
variable, not the pointer of the caller: for `null` it sets the variable to
nil and leaves the target of the caller as it is; a variable that is nil
receives the value itself; a variable that holds a pointer is decoded through
the pointer. -/
def unmarshalResult {T : Type} (env : Env T) (rawMessage : GoString) (raw : JSON)
    (result : Result T) : Local T × Option Err :=
  if raw.isNull then (⟨result, .null⟩, none)
  else
    match result with
    | .nil => (⟨.nil, .value raw⟩, none)
    | r =>
      (⟨(Decode env ⟨.ok ⟨rawMessage, raw⟩, none⟩ r).1, .pointer⟩,
        (Decode env ⟨.ok ⟨rawMessage, raw⟩, none⟩ r).2)

/-- Embeds `mapstructure.Decode(paginated, &result)` as `paginate(resp, &result)` in
`DevelopmentClient.Do` calls it, on the address of the variable (which is never a
`*json.RawMessage`, so `paginate` never skips), for `mapstructure` from version
1.3.2, where `decodeBasic` decodes into the value an interface holds: through a
pointer into the target of the caller, as `mapstructureDecode` does; a nil
variable receives the struct `paginated`; a map receives the key `Page`; an
array and a scalar cannot be decoded from a struct (of the error of a scalar,
the text up to the type of the data is kept). -/
def mapstructureDecodeLocal {T : Type} (page : Pagination) (loc : Local T) :
    Local T × Option Err :=
  match loc.held with
  | .pointer =>
    (⟨(mapstructureDecode page loc.caller).1, .pointer⟩, (mapstructureDecode page loc.caller).2)
  | .null => (⟨loc.caller, .paginated page⟩, none)
  | .value .null => (⟨loc.caller, .paginated page⟩, none)
  | .value (.object members) => (⟨loc.caller, .withPage members page⟩, none)
  | .value (.array _) =>
    (loc, some (.other "\x27\x27: source data must be an array or slice, got struct"))
  | .value (.bool _) =>
    (loc, some (.other "\x27\x27 expected type \x27bool\x27, got unconvertible type"))
  | .value (.number _) =>
    (loc, some (.other "\x27\x27 expected type \x27float64\x27, got unconvertible type"))
  | .value (.string _) =>
    (loc, some (.other "\x27\x27 expected type \x27string\x27, got unconvertible type"))
  | .paginated _ => (⟨loc.caller, .paginated page⟩, none)
  | .withPage members _ => (⟨loc.caller, .withPage members page⟩, none)

/-- Embeds `DevelopmentClient.Do(ctx, method, relativePath, content, result)`: it
returns the world, the store and the target afterwards and the error, or it
panics. -/
def DevelopmentClient.Do {T : Type} (d : DevelopmentClient) (env : Env T) (denv : DevEnv T)
    (w : World) (method relativePath : GoString) (content : Option Content)
    (result : Result T) : Outcome (World × phizog.Store × Result T × Option Err) :=
  match d.api.do env w method relativePath content (.rawMessage []) with
  | (_, .panics msg) => .panics msg
  | (w, .returns (_, _, some err)) => .returns (w, d.store, result, some err)
  | (_, .returns (_, none, none)) =>
    -- isPaged(resp) reads resp.Header
    .panics "invalid memory address or nil pointer dereference"
  | (w, .returns (rawMessage, some resp, none)) =>
    let rawMessage := match rawMessage with | .rawMessage m => m | _ => []
    -- unmarshal in order to normalize for shape store
    match denv.Unmarshal rawMessage with
    | .error _ => .panics "json.Unmarshal(rawMessage, &raw)"
    | .ok raw =>
      let basePath := denv.Dir relativePath
      match d.store.AddShape basePath raw with
      | (store, some err) => .returns (w, store, result, some err)
      | (store, none) =>
        -- unmarshal in order to provide "real" result
        match unmarshalResult env rawMessage raw result with
        | (_, some _) => .panics "json.Unmarshal(rawMessage, &result)"
        | (loc, none) =>
          match (if isPaged resp then
              mapstructureDecodeLocal { Before := resp.Header.Get (lit "CB-BEFORE"),
                                        After := resp.Header.Get (lit "CB-AFTER") } loc
            else (loc, none)) with
          | (loc, some err) => .returns (w, store, loc.caller, some err)
          | (loc, none) =>
            match denv.Marshal loc with
            | .error _ => .panics "json.Marshal(result)"
            | .ok b =>
              match denv.Unmarshal b with
              | .error _ => .panics "json.Unmarshal(b, &rawResult)"
              | .ok rawResult =>
                let typed := basePath ++ lit " (" ++ denv.typeName loc ++ lit ")"
                .returns (w, (store.AddShape typed rawResult).1, loc.caller,
                  (store.AddShape typed rawResult).2)

/-- What the caller of `Do` observes of an outcome: the target and the error,
or the panic. -/
def observed {T : Type} :
    Outcome (World × phizog.Store × Result T × Option Err) → Outcome (Result T × Option Err)
  | .returns x => .returns (x.2.2.1, x.2.2.2)
  | .panics msg => .panics msg

/-- Two calls end the same way for the caller: both return, and return the
same, or both panic. -/
def Outcome.same {α : Type} : Outcome α → Outcome α → Prop
  | .returns a, .returns b => a = b
  | .panics _, .panics _ => True
  | _, _ => False

/-- A `DevEnv` for the tests: the texts `{}` and `[]` are decoded, any other text
is refused; every value is encoded as `{}`, as for a target none of whose
fields is encoded (all are tagged `json:"-"`). -/
def testDevEnv : DevEnv Unit :=
  { Unmarshal := fun b =>
      if b = lit "\x7b\x7d" then .ok (.object [])
      else if b = lit "[]" then .ok (.array [])
      else .error (.other "unexpected end of JSON input")
    Marshal := fun _ => .ok (lit "\x7b\x7d")
    Dir := fun p => p
    typeName := fun _ => lit "interface" }

/-! ## `unicode/utf8`, `strconv.ParseInt` -/

namespace utf8

/-- Whether `c` is a continuation byte: `locb ≤ c ≤ hicb`. -/
def isCont (c : Byte) : Bool := 0x80 ≤ c.val && c.val ≤ 0xBF

/-- The size `utf8.DecodeRuneInString(s)` returns for a string that starts with a
well-formed encoding, by the tables `first` and `acceptRanges`; `none` where it
returns `RuneError` with the size 1 (or 0, for the empty string). -/
def runeLen : List Byte → Option Nat
  | [] => none
  | s0 :: rest =>
    if s0.val < 0x80 then some 1
    else if s0.val < 0xC2 then none
    else if s0.val < 0xE0 then
      match rest with
      | s1 :: _ => if isCont s1 then some 2 else none
      | _ => none
    else if s0.val < 0xF0 then
      match rest with
      | s1 :: s2 :: _ =>
        if (if s0.val = 0xE0 then 0xA0 else 0x80) ≤ s1.val ∧
            s1.val ≤ (if s0.val = 0xED then 0x9F else 0xBF) ∧ isCont s2 then some 3
        else none
      | _ => none
    else if s0.val < 0xF5 then
      match rest with
      | s1 :: s2 :: s3 :: _ =>
        if (if s0.val = 0xF0 then 0x90 else 0x80) ≤ s1.val ∧
            s1.val ≤ (if s0.val = 0xF4 then 0x8F else 0xBF) ∧ isCont s2 ∧ isCont s3 then some 4
        else none
      | _ => none
    else none

/-- The loop of `utf8.ValidString`; `skip` counts the bytes left of the encoding
that was found last. -/
def validFrom : Nat → List Byte → Bool
  | _, [] => true
  | skip + 1, _ :: rest => validFrom skip rest
  | 0, c :: rest =>
    match runeLen (c :: rest) with
    | some n => validFrom (n - 1) rest
    | none => false

/-- Embeds `utf8.ValidString(s)`. -/
def ValidString (s : GoString) : Bool := validFrom 0 s

end utf8

/-- The loop of `strconv.ParseUint(s, 10, 64)` over the digits, without the bound. -/
def parseDigits : List Byte → Nat → Option Nat
  | [], a => some a
  | c :: rest, a =>
    if 48 ≤ c.val ∧ c.val ≤ 57 then parseDigits rest (a * 10 + (c.val - 48)) else none

/-- The digits of `strconv.ParseInt(s, 10, 64)` after the sign: the value, or `none`
for an error (no digits, a byte that is no digit, or a value out of the range
of `int64`). -/
def parseSigned (neg : Bool) (ds : List Byte) : Option Int :=
  match ds with
  | [] => none
  | _ =>
    match parseDigits ds 0 with
    | none => none
    | some n =>
      if -(2 : Int) ^ 63 ≤ (if neg then -(n : Int) else (n : Int)) ∧
          (if neg then -(n : Int) else (n : Int)) < (2 : Int) ^ 63 then
        some (if neg then -(n : Int) else (n : Int))
      else none

/-- Embeds `strconv.ParseInt(s, 10, 64)`: the value, or `none` for an error. -/
def ParseInt : GoString → Option Int
  | [] => none
  | c :: rest =>
    if c.val = 45 then parseSigned true rest
    else if c.val = 43 then parseSigned false rest
    else parseSigned false (c :: rest)

/-! ## `encoding/json` on the map of a store -/

namespace json

/-- The loop of `appendString` over the bytes of a string, as the string the
JSON text denotes: a byte that starts no well-formed encoding is written as
the escape of U+FFFD, which denotes the bytes `EF BF BD`; the escapes of the
other bytes denote the bytes themselves. -/
def coerceFrom : Nat → List Byte → List Byte
  | _, [] => []
  | skip + 1, c :: rest => c :: coerceFrom skip rest
  | 0, c :: rest =>
    match utf8.runeLen (c :: rest) with
    | some n => c :: coerceFrom (n - 1) rest
    | none => byte 0xEF :: byte 0xBF :: byte 0xBD :: coerceFrom 0 rest

/-- The string that the JSON string written for `s` denotes: `s` coerced to valid
UTF-8. -/
def str (s : GoString) : GoString := coerceFrom 0 s

/-- The entries of a map in the order in which `encoding/json` writes them:
sorted by key. -/
def sortKeys {V : Type} (m : GoMap V) : GoMap V :=
  m.insertionSort (fun a b => a.1 ≤ b.1)

/-- What `encoding/json` writes for a `set.Strings`, a `map[string]struct{}`: an
object with a member `{}` for each key, the keys sorted. -/
def encodeStrings (s : set.Strings) : JSON :=
  .object (s.Slice.map fun k => (str k, JSON.object []))

/-- What `encoding/json` writes for a `Shape`. -/
def encodeShape (s : phizog.Shape) : JSON :=
  .object [(lit "Name", .string (str s.Name)), (lit "Keys", encodeStrings s.Keys)]

/-- What `encoding/json` writes for an `Occurrence`. -/
def encodeOccurrence (o : phizog.Occurrence) : JSON :=
  .object [(lit "Shape", encodeShape o.Shape), (lit "Count", .number (itoa o.Count))]

/-- What `encoding/json` writes for a `map[string]Occurrence`. -/
def encodeShapes (m : GoMap phizog.Occurrence) : JSON :=
  .object ((sortKeys m).map fun e => (str e.1, encodeOccurrence e.2))

/-- How `encoding/json` keeps an `UnmarshalTypeError`: the first one is saved
and returned when the value has been decoded to its end. -/
def saveError (saved : Option Err) (msg : String) : Option Err :=
  saved.orElse fun _ => some (.other msg)

/-- Decoding a JSON value into a `struct{}`: an object (it has no member that
is a field) and `null` are accepted. -/
def decodeEmpty : JSON → Option Err → Option Err
  | .object _, saved => saved
  | .null, saved => saved
  | _, saved => saveError saved "json: cannot unmarshal into Go value of type struct \x7b\x7d"

/-- Decoding the members of an object into a `set.Strings`: each key is
assigned. -/
def decodeStrings : List (GoString × JSON) → set.Strings → Option Err → set.Strings × Option Err
  | [], s, saved => (s, saved)
  | (k, v) :: rest, s, saved => decodeStrings rest (s.put k) (decodeEmpty v saved)

/-- Decoding a JSON value into the field `Name` of a `Shape`. -/
def storeName : JSON → phizog.Shape → Option Err → phizog.Shape × Option Err
  | .string name, s, saved => ({ s with Name := name }, saved)
  | .null, s, saved => (s, saved)
  | _, s, saved =>
    (s, saveError saved "json: cannot unmarshal into Go struct field Shape.Name of type string")

/-- Decoding a JSON value into the field `Keys` of a `Shape`: the keys of an
object are added to the set that is there, `null` empties it. -/
def storeKeys : JSON → phizog.Shape → Option Err → phizog.Shape × Option Err
  | .object members, s, saved =>
    ({ s with Keys := (decodeStrings members s.Keys saved).1 },
      (decodeStrings members s.Keys saved).2)
  | .null, s, saved => ({ s with Keys := set.Strings.make }, saved)
  | _, s, saved =>
    (s, saveError saved
      "json: cannot unmarshal into Go struct field Shape.Keys of type set.Strings")

/-- Decoding the members of an object into a `Shape`: the members `Name` and
`Keys` are stored (names are matched as `foldName` folds them), the others are
skipped. -/
def decodeShape : List (GoString × JSON) → phizog.Shape → Option Err → phizog.Shape × Option Err
  | [], s, saved => (s, saved)
  | (k, v) :: rest, s, saved =>
    if foldName k = lit "NAME" then
      decodeShape rest (storeName v s saved).1 (storeName v s saved).2
    else if foldName k = lit "KEYS" then
      decodeShape rest (storeKeys v s saved).1 (storeKeys v s saved).2
    else decodeShape rest s saved

/-- Decoding a JSON value into the field `Shape` of an `Occurrence`. -/
def storeShape : JSON → phizog.Occurrence → Option Err → phizog.Occurrence × Option Err
  | .object members, o, saved =>
    ({ o with Shape := (decodeShape members o.Shape saved).1 },
      (decodeShape members o.Shape saved).2)
  | .null, o, saved => (o, saved)
  | _, o, saved =>
    (o, saveError saved
      "json: cannot unmarshal into Go struct field Occurrence.Shape of type phizog.Shape")

/-- Decoding a JSON value into the field `Count` of an `Occurrence`, a Go `int`. -/
def storeCount : JSON → phizog.Occurrence → Option Err → phizog.Occurrence × Option Err
  | .number text, o, saved =>
    match ParseInt text with
    | some n => ({ o with Count := n }, saved)
    | none =>
      (o, saveError saved
        "json: cannot unmarshal number into Go struct field Occurrence.Count of type int")
  | .null, o, saved => (o, saved)
  | _, o, saved =>
    (o, saveError saved "json: cannot unmarshal into Go struct field Occurrence.Count of type int")

/-- Decoding the members of an object into an `Occurrence`: the members `Shape`
and `Count` are stored, the others are skipped. -/
def decodeOccurrence :
    List (GoString × JSON) → phizog.Occurrence → Option Err → phizog.Occurrence × Option Err
  | [], o, saved => (o, saved)
  | (k, v) :: rest, o, saved =>
    if foldName k = lit "SHAPE" then
      decodeOccurrence rest (storeShape v o saved).1 (storeShape v o saved).2
    else if foldName k = lit "COUNT" then
      decodeOccurrence rest (storeCount v o saved).1 (storeCount v o saved).2
    else decodeOccurrence rest o saved

/-- Decoding a JSON value into a new element of a `map[string]Occurrence`, which
starts as the zero `Occurrence`. -/
def decodeElem (v : JSON) (saved : Option Err) : phizog.Occurrence × Option Err :=
  match v with
  | .object members => decodeOccurrence members ⟨⟨[], set.Strings.make⟩, 0⟩ saved
  | .null => (⟨⟨[], set.Strings.make⟩, 0⟩, saved)
  | _ => (⟨⟨[], set.Strings.make⟩, 0⟩,
      saveError saved "json: cannot unmarshal into Go value of type phizog.Occurrence")

/-- Decoding the members of an object into a `map[string]Occurrence`: each
member is decoded into a new element, which is assigned under its key. -/
def decodeShapes : List (GoString × JSON) → GoMap phizog.Occurrence → Option Err →
    GoMap phizog.Occurrence × Option Err
  | [], m, saved => (m, saved)
  | (k, v) :: rest, m, saved =>
    decodeShapes rest (m.set k (decodeElem v saved).1) (decodeElem v saved).2

/-- Embeds `json.Unmarshal(b, &raw)` for `var raw map[string]phizog.Occurrence`, on the
JSON value that `b` denotes: the map afterwards and the error. -/
def Unmarshal : JSON → GoMap phizog.Occurrence × Option Err
  | .object members => decodeShapes members [] none
  | .null => ([], none)
  | _ => ([], some (.other "json: cannot unmarshal into Go value of type map[string]phizog.Occurrence"))

/-- The Occurrence that decoding reads from what was written for `o`: the keys
are those of the sorted slice. -/
def norm (o : phizog.Occurrence) : phizog.Occurrence :=
  ⟨⟨o.Shape.Name, set.Strings.make.Add o.Shape.Keys.Slice⟩, o.Count⟩

end json

namespace phizog

/-- Embeds `Store.Write(w)`, for a writer that takes every byte: the JSON value that
the text written to `w` denotes, and the error. -/
def Store.Write (s : Store) : JSON × Option Err := (json.encodeShapes s.shapes, none)

/-- What the claim of the round trip compares of two Occurrences: the name, the
key set and the count. -/
def Occurrence.same (o o' : Occurrence) : Prop :=
  o'.Shape.Name = o.Shape.Name ∧ (∀ k, k ∈ o'.Shape.Keys.keys ↔ k ∈ o.Shape.Keys.keys) ∧
  o'.Count = o.Count

/-- Two maps hold the same pairs: under every fingerprint both hold nothing, or
both hold an Occurrence with the same name, key set and count. -/
def samePairs (m m' : GoMap Occurrence) : Prop :=
  ∀ fp, match GoMap.get m fp, GoMap.get m' fp with
    | none, none => True
    | some o, some o' => o.same o'
    | _, _ => False

/-- The store of the test for names that are not valid UTF-8: a new store after
`AddShape("\xff", map[string]interface{}{"id": nil})`. -/
def badName : Store :=
  (NewStore.AddShape [byte 0xff] (.object [(lit "id", .null)])).1

/-- A new store after `AddShape("/accounts", map[string]interface{}{"id": nil})`. -/
def oneShape : Store :=
  (NewStore.AddShape (lit "/accounts") (.object [(lit "id", .null)])).1

end phizog

/-! ## `pkg/phizog/shape.go`: `Dump`, and the calls of `Add` -/

namespace phizog

/-- What `fmt` prints for a `set.Strings` with the verb `%v`: the keys sorted,
each followed by `:` and the empty struct. -/
def formatStrings (s : set.Strings) : GoString :=
  lit "map[" ++ Join (s.Slice.map fun k => k ++ lit ":\x7b\x7d") (lit " ") ++ lit "]"

/-- What `fmt` prints for a `Shape` with the verb `%v`: the fields in braces,
separated by a blank. -/
def Shape.format (s : Shape) : GoString :=
  lit "\x7b" ++ s.Name ++ lit " " ++ formatStrings s.Keys ++ lit "\x7d"

/-- Embeds `Store.Dump()`.  The `Occurrence` that is printed is the variable `o`
that the loop declares with `var o Occurrence` and never assigns. -/
def Store.Dump (s : Store) : GoString :=
  let ids := s.shapes.foldl (fun ids e => ids.Add [e.1]) set.Strings.make
  let out := ids.Slice.map fun id =>
    let o : Occurrence := ⟨⟨[], set.Strings.make⟩, 0⟩
    itoa o.Count ++ lit " shape " ++ id ++ lit " " ++ o.Shape.format
  Join out (lit "\n")

/-- The dump in the words of the claim: a line for each fingerprint, ascending,
with the `Count` and the `Shape` of the `Occurrence` stored under it. -/
def dumpOfStored (s : Store) : GoString :=
  let ids := s.shapes.foldl (fun ids e => ids.Add [e.1]) set.Strings.make
  let out := ids.Slice.map fun id =>
    match GoMap.get s.shapes id with
    | some o => itoa o.Count ++ lit " shape " ++ id ++ lit " " ++ o.Shape.format
    | none => []
  Join out (lit "\n")

/-- A call that changes a store. -/
inductive Call
  | Add (shape : Shape)
  | AddShape (name : GoString) (raw : JSON)

mutual
/-- The number of calls of `Add` that `AddShape(name, raw)` makes on the store `s`. -/
def Store.addsOfAddShape (s : Store) (name : GoString) : JSON → Nat
  | .array items => Store.addsOfAddShapes s name items
  | .object members =>
    match flatten.Flatten members [] with
    | (_, some _) => 0
    | (_, none) => 1
  | .null => 0
  | .bool _ => 0
  | .number _ => 0
  | .string _ => 0
/-- The number of calls of `Add` in the loop `for _, item := range v` of `AddShape`. -/
def Store.addsOfAddShapes (s : Store) (name : GoString) : List JSON → Nat
  | [] => 0
  | item :: rest =>
    match Store.AddShape s name item with
    | (_, some _) => Store.addsOfAddShape s name item
    | (s', none) => Store.addsOfAddShape s name item + Store.addsOfAddShapes s' name rest
end

/-- One call on a store and a count of the calls of `Add` made so far: the
store and the count afterwards. -/
def Call.run (acc : Store × Nat) : Call → Store × Nat
  | .Add shape => (acc.1.Add shape, acc.2 + 1)
  | .AddShape name raw => ((acc.1.AddShape name raw).1, acc.2 + acc.1.addsOfAddShape name raw)

/-- The invariant of the map of a store: every entry stands under the ID of its
Shape and was counted at least once. -/
def StoreInv (s : Store) : Prop :=
  ∀ e ∈ s.shapes, e.1 = e.2.Shape.ID ∧ e.2.Count ≥ 1

end phizog

/-! ## `float64`, `time.Duration.Seconds`, `math.Round` -/

/-- A finite `float64`: the sign, and the magnitude `mant / 2 ^ exp`. -/
structure Float64 where
  neg : Bool
  mant : Nat
  exp : Nat
deriving DecidableEq, Repr

namespace Float64

/-- The search for the binary point: the least `k` from the given one on with
`2 ^ 52 ≤ p / q * 2 ^ k`, at most `fuel` steps further. -/
def scaleFrom (p q : Nat) : Nat → Nat → Nat
  | 0, k => k
  | fuel + 1, k => if 2 ^ 52 * q ≤ p * 2 ^ k then k else scaleFrom p q fuel (k + 1)

/-- The number of binary places of the `float64` nearest to `p / q`: so many that
the mantissa has 53 bits, and at most the 1074 places of the subnormal
numbers. -/
def scale (p q : Nat) : Nat := scaleFrom p q 1074 0

/-- The integer nearest to `a / q`, the even one of two that are equally near. -/
def rne (a q : Nat) : Nat :=
  if 2 * (a % q) < q then a / q
  else if q < 2 * (a % q) then a / q + 1
  else if a / q % 2 = 0 then a / q
  else a / q + 1

/-- The `float64` nearest to `p / q` with the given sign, as IEEE 754 rounds the
result of an operation (to nearest, ties to even), for magnitudes below
`2 ^ 53`; overflow is not embedded. -/
def round (neg : Bool) (p q : Nat) : Float64 :=
  if p = 0 then ⟨neg, 0, 0⟩ else ⟨neg, rne (p * 2 ^ scale p q) q, scale p q⟩

/-- The conversion `float64(i)` of an integer. -/
def ofInt (i : Int) : Float64 := round (decide (i < 0)) i.natAbs 1

/-- The numerator of a `float64` over `2 ^ exp`, with its sign. -/
def num (x : Float64) : Int := if x.neg then -(x.mant : Int) else (x.mant : Int)

/-- The quotient `x / y` of two `float64`, for `y` that is not zero. -/
def div (x y : Float64) : Float64 :=
  round (x.neg != y.neg) (x.mant * 2 ^ y.exp) (y.mant * 2 ^ x.exp)

/-- The sum `x + y` of two `float64`. -/
def add (x y : Float64) : Float64 :=
  round (decide (x.num * 2 ^ y.exp + y.num * 2 ^ x.exp < 0))
    (x.num * 2 ^ y.exp + y.num * 2 ^ x.exp).natAbs (2 ^ (x.exp + y.exp))

/-- Embeds `math.Round(x)`: the nearest integer, halves away from zero. -/
def Round (x : Float64) : Float64 :=
  ⟨x.neg, (2 * x.mant + 2 ^ x.exp) / 2 ^ (x.exp + 1), 0⟩

/-- The conversion `int(x)`: the integer part. -/
def toInt (x : Float64) : Int :=
  if x.neg then -((x.mant / 2 ^ x.exp : Nat) : Int) else ((x.mant / 2 ^ x.exp : Nat) : Int)

end Float64

/-- The constant `time.Second`, in nanoseconds. -/
def Second : Int := 1000000000

/-- Embeds `time.Duration.Seconds()`; a `Duration` is a count of nanoseconds, and `/` and
`%` of Go truncate towards zero. -/
def Duration.Seconds (d : Int) : Float64 :=
  Float64.add (Float64.ofInt (Int.tdiv d Second))
    (Float64.div (Float64.ofInt (Int.tmod d Second)) (Float64.ofInt 1000000000))

/-! ## `pkg/coinbasepro/product.go`: time slices -/

/-- Embeds `Timeslice.Valid()`. -/
def Timeslice.Valid (t : Int) : Option Err :=
  if t = 60 ∨ t = 300 ∨ t = 900 ∨ t = 3600 ∨ t = 21600 ∨ t = 86400 then none
  else some (.other (String.join ["timeslice(", toString t, "s) is invalid"]))

/-- Embeds `TimesliceParam.Timeslice()`; a `TimesliceParam` is a `time.Duration`. -/
def TimesliceParam.Timeslice (t : Int) : Int :=
  (Float64.Round (Duration.Seconds t)).toInt

/-- Embeds `TimesliceParam.Validate()`. -/
def TimesliceParam.Validate (t : Int) : Option Err :=
  Timeslice.Valid (TimesliceParam.Timeslice t)

/-! ## `time.Time.Format` with the layout `time.RFC3339` -/

/-- Embeds `isLeap(year)`. -/
def isLeap (year : Int) : Bool := year % 4 = 0 && (year % 100 ≠ 0 || year % 400 = 0)

/-- The table `daysBefore`: the days of a year that is not a leap year before
the start of each month. -/
def daysBefore : List Nat := [0, 31, 59, 90, 120, 151, 181, 212, 243, 273, 304, 334, 365]

/-- Embeds `absDate`, on the days since January 1 of year 1: the year, the month
(January is 1) and the day of the month. -/
def absDate (days : Int) : Int × Nat × Nat :=
  -- Account for 400 year cycles.
  let n400 := days / 146097
  let d := (days - 146097 * n400).toNat
  -- Cut off 100-year cycles.
  let n100 := d / 36524 - d / 36524 / 4
  let d := d - 36524 * n100
  -- Cut off 4-year cycles.
  let n4 := d / 1461
  let d := d - 1461 * n4
  -- Cut off years within a 4-year cycle.
  let n1 := d / 365 - d / 365 / 4
  let yday := d - 365 * n1
  let year : Int := 400 * n400 + 100 * n100 + 4 * n4 + n1 + 1
  if isLeap year && yday = 31 + 29 - 1 then (year, 2, 29)
  else
    let day := if isLeap year && yday > 31 + 29 - 1 then yday - 1 else yday
    let month := day / 31
    if day ≥ daysBefore.getD (month + 1) 0 then
      (year, month + 2, day - daysBefore.getD (month + 1) 0 + 1)
    else (year, month + 1, day - daysBefore.getD month 0 + 1)

/-- Embeds `appendInt(b, x, width)` for `x ≥ 0`: the decimal digits, with zeros in front
up to the width. -/
def zeroPad (width : Nat) (x : Nat) : GoString :=
  List.replicate (width - (Itoa x).length) (byte 48) ++ Itoa x

/-- Embeds `appendInt(b, x, width)`. -/
def appendInt (x : Int) (width : Nat) : GoString :=
  if x < 0 then lit "-" ++ zeroPad width x.natAbs else zeroPad width x.natAbs

/-- Embeds `t.Format(time.RFC3339)`, the layout `2006-01-02T15:04:05Z07:00`: the date and
the clock at the offset of the location, then `Z` for the offset 0 and the
offset in hours and minutes otherwise.  As in `locabs`, the seconds are
counted from the absolute zero year, 9223371966579724800 seconds (106751990353932
days) before year 1, as a `uint64`, so they wrap around below that year. -/
def Time.Format (t : Time) : GoString :=
  -- abs = uint64(sec + (unixToInternal + internalToAbsolute))
  let abs := (t.sec + t.offset + 9223371966579724800) % 2 ^ 64
  let date := absDate (abs / 86400 - 106751990353932)
  let clock := (abs % 86400).toNat
  let zone := Int.tdiv t.offset 60
  appendInt date.1 4 ++ lit "-" ++ zeroPad 2 date.2.1 ++ lit "-" ++ zeroPad 2 date.2.2 ++
    lit "T" ++ zeroPad 2 (clock / 3600) ++ lit ":" ++ zeroPad 2 (clock % 3600 / 60) ++ lit ":" ++
    zeroPad 2 (clock % 60) ++
    (if t.offset = 0 then lit "Z"
     else (if zone < 0 then lit "-" else lit "+") ++ zeroPad 2 (zone.natAbs / 60) ++ lit ":" ++
       zeroPad 2 (zone.natAbs % 60))

/-! ## `internal/app/commands/coinbase.go`: what the commands validate -/

namespace commands

/-- The type `HistoricRateParams`; `Granularity` is a `TimesliceParam`, a duration in
nanoseconds. -/
structure HistoricRateParams where
  Granularity : Int
  End : Time
  Start : Time
deriving DecidableEq, Repr

/-- The type `historicRatesCmd`, which embeds `HistoricRateParams`. -/
structure historicRatesCmd extends HistoricRateParams where
  ProductID : GoString
deriving DecidableEq, Repr

/-- Embeds `historicRatesCmd.Validate()`. -/
def historicRatesCmd.Validate (h : historicRatesCmd) : Option Err :=
  if !h.Start.IsZero && !h.End.IsZero then
    some (.other "if \x27start\x27 or \x27end\x27 time is provided, both \x27start\x27 and \x27end\x27 times must be provided")
  else TimesliceParam.Validate h.Granularity

/-- The type `TimestampFilterPagination`. -/
structure TimestampFilterPagination where
  After : Time
  Before : Time
  Limit : Int
deriving DecidableEq, Repr

/-- Embeds `TimestampFilterPagination.Params()`. -/
def TimestampFilterPagination.Params (d : TimestampFilterPagination) : PaginationParams :=
  { After := d.After.Format, Before := d.Before.Format, Limit := d.Limit }

/-- Embeds `TimestampFilterPagination.Validate()`. -/
def TimestampFilterPagination.Validate (d : TimestampFilterPagination) : Option Err :=
  if d.Limit < 0 then some (.other "limit must not be negative") else none

/-- The type `Pagination` of the commands. -/
structure Pagination where
  Before : GoString
  After : GoString
  Limit : Int
deriving DecidableEq, Repr

/-- Embeds `Pagination.Validate()`. -/
def Pagination.Validate (p : Pagination) : Option Err :=
  if p.Before ≠ [] ∧ p.After ≠ [] then
    some (.other "only one of \x27before\x27 or \x27after\x27 allowed")
  else if p.Limit < 0 then some (.other "\x27limit\x27 must be a positive number")
  else none

/-- Embeds `Pagination.Params()`: `mapstructure.Decode(p, &paginationParams)` turns the struct
`p` into a map by the names of its fields, `Before`, `After` and `Limit`, and
stores each value in the field of `PaginationParams` with that name; two
strings and an `int` are stored without error. -/
def Pagination.Params (p : Pagination) : PaginationParams × Option Err :=
  ({ After := p.After, Before := p.Before, Limit := p.Limit }, none)

/-- The validity rule of the pipeline for pagination, in the words of the
claims: at most one of the cursors is set, and `0 ≤ Limit ≤ 100`. -/
def validPagination (p : PaginationParams) : Prop :=
  ¬ (p.After ≠ [] ∧ p.Before ≠ []) ∧ 0 ≤ p.Limit ∧ p.Limit ≤ 100

instance (p : PaginationParams) : Decidable (validPagination p) := by
  unfold validPagination
  infer_instance

end commands

/-! ## `pkg/coinbasepro/client.go`: `DevelopmentClient.Close` -/

/-- The file that `fs.OpenFile` returns, as far as `Close` uses it: the error of
writing the JSON text of a value to it, and the error of closing it. -/
structure File where
  Write : JSON → Option Err
  Close : Option Err

namespace phizog

/-- Embeds `Store.Write(w)` for a writer that may fail: `encoder.Encode(s.shapes)` returns the
error of the writer. -/
def Store.WriteTo (s : Store) (w : JSON → Option Err) : Option Err := w s.Write.1

end phizog

/-- Embeds `DevelopmentClient.Close()`; `OpenFile` is what `d.fs.OpenFile("store.json", ...)` returns.
The result `capture` is first set by `return d.store.Write(file)`, then the
deferred function assigns `file.Close()` to it. -/
def DevelopmentClient.Close (d : DevelopmentClient) (OpenFile : Except Err File) : Option Err :=
  match OpenFile with
  | .error err => some err
  | .ok file =>
    let capture := d.store.WriteTo file.Write
    -- defer func() { capture = file.Close() }()
    (fun (_ : Option Err) => file.Close) capture

/-- The result of `Close` in the words of the claim: the error of writing is
not replaced by the result of closing the file, as with
`Capture(&capture, file.Close())`. -/
def closeCapturing (d : DevelopmentClient) (OpenFile : Except Err File) : Option Err :=
  match OpenFile with
  | .error err => some err
  | .ok file => Capture (d.store.WriteTo file.Write) file.Close

/-! ## `pkg/coinbasepro/product.go`: `Candle.UnmarshalJSON` -/

/-- A JSON text handed to an `UnmarshalJSON`, by what `json.Unmarshal(b, &tmp)` makes of it for
a `tmp` of the type `[]json.RawMessage`: `null` leaves `tmp` nil, an array gives the
texts of its elements (each a JSON value, without blanks around it), any other
value is an error. -/
inductive RawJSON
  | null
  | array (elements : List GoString)
  | other (text : GoString)

/-- What the embedding of `Candle.UnmarshalJSON` does not compute: the package
`decimal`, with the values of `decimal.Decimal`, its zero value and
`decimal.NewFromString`. -/
structure DecimalEnv (D : Type) where
  zero : D
  NewFromString : GoString → Except Err D

/-- The function `unquoteIfQuoted` of `decimal` on bytes: a text of more than two
bytes that starts and ends with `"` loses the two. -/
def unquoteIfQuoted (bytes : List Byte) : GoString :=
  if bytes.length > 2 ∧ bytes.head? = some (byte 34) ∧ bytes.getLast? = some (byte 34) then
    (bytes.drop 1).take (bytes.length - 2)
  else bytes

/-- Embeds `Decimal.UnmarshalJSON(decimalBytes)` as `json.Unmarshal(raw, &d)` calls it: `null`
changes nothing; otherwise `d` is set to what `NewFromString` returns, the
zero value with an error. -/
def decodeDecimal {D : Type} (env : DecimalEnv D) (raw : GoString) (d : D) : D × Option Err :=
  if raw = lit "null" then (d, none)
  else
    match env.NewFromString (unquoteIfQuoted raw) with
    | .ok v => (v, none)
    | .error err => (env.zero, some err)

/-- Whether a JSON value starts as a number does: with `-` or a digit. -/
def startsNumber (raw : GoString) : Bool :=
  match raw with
  | c :: _ => c.val = 45 || (48 ≤ c.val && c.val ≤ 57)
  | [] => false

/-- Embeds `json.Unmarshal(raw, &n)` for an `n` of the type `int64`: `null` changes nothing, a
number is read by `strconv.ParseInt`, and a number that is no integer in the range,
or any other value, is an `UnmarshalTypeError`. -/
def decodeInt64 (raw : GoString) (n : Int) : Int × Option Err :=
  if raw = lit "null" then (n, none)
  else if startsNumber raw then
    match ParseInt raw with
    | some v => (v, none)
    | none => (n, some (.other "json: cannot unmarshal number into Go value of type int64"))
  else (n, some (.other "json: cannot unmarshal into Go value of type int64"))

/-- The type `Candle`; `D` is the type of the values of `decimal.Decimal`. -/
structure Candle (D : Type) where
  Close : D
  High : D
  Low : D
  Open : D
  Time : Time
  Volume : D
deriving DecidableEq, Repr

/-- Embeds `time.Unix(sec, 0).UTC()` as a `Time`: the Unix epoch is 62135596800 seconds after
January 1 of year 1; the sum is an `int64` and wraps around. -/
def Unix (sec : Int) : Time := ⟨(sec + 62135596800 + 2 ^ 63) % 2 ^ 64 - 2 ^ 63, 0, 0⟩

/-- The part of `Candle.UnmarshalJSON` after the check of the length, on the six
elements `tmp[0]` to `tmp[5]`: each is decoded into its field in turn, up to the
first error. -/
def Candle.storeElements {D : Type} (env : DecimalEnv D) (c : Candle D)
    (t low high opened close volume : GoString) : Candle D × Option Err :=
  match decodeInt64 t 0 with
  | (_, some err) => (c, some err)
  | (rawTime, none) =>
    match decodeDecimal env low c.Low with
    | (vl, some err) => ({ c with Time := Unix rawTime, Low := vl }, some err)
    | (vl, none) =>
      match decodeDecimal env high c.High with
      | (vh, some err) => ({ c with Time := Unix rawTime, Low := vl, High := vh }, some err)
      | (vh, none) =>
        match decodeDecimal env opened c.Open with
        | (vo, some err) =>
          ({ c with Time := Unix rawTime, Low := vl, High := vh, Open := vo }, some err)
        | (vo, none) =>
          match decodeDecimal env close c.Close with
          | (vc, some err) =>
            ({ c with Time := Unix rawTime, Low := vl, High := vh, Open := vo, Close := vc },
              some err)
          | (vc, none) =>
            (⟨vc, vh, vl, vo, Unix rawTime, (decodeDecimal env volume c.Volume).1⟩,
              (decodeDecimal env volume c.Volume).2)

/-- Embeds `Candle.UnmarshalJSON(b)`: the candle afterwards and the error. -/
def Candle.UnmarshalJSON {D : Type} (env : DecimalEnv D) (c : Candle D) :
    RawJSON → Candle D × Option Err
  | .other _ =>
    (c, some (.other "json: cannot unmarshal into Go value of type []json.RawMessage"))
  | .null => (c, some (.other "a Candle must have 6 elements, only found 0"))
  | .array [t, low, high, opened, close, volume] =>
    c.storeElements env t low high opened close volume
  | .array tmp =>
    (c, some (.other (String.join ["a Candle must have 6 elements, only found ",
      toString tmp.length])))

/-- Whether the first element of a candle is accepted: `null`, or an integer in
the range of `int64`. -/
def acceptsTime (raw : GoString) : Prop :=
  raw = lit "null" ∨ (startsNumber raw = true ∧ ∃ n, ParseInt raw = some n)

/-- Whether one of the other five elements of a candle is accepted: `null`, or a
text that `NewFromString` accepts once its quotes are taken off. -/
def acceptsDecimal {D : Type} (env : DecimalEnv D) (raw : GoString) : Prop :=
  raw = lit "null" ∨ ∃ v, env.NewFromString (unquoteIfQuoted raw) = .ok v

/-- A `decimal` for the tests: the values are the texts, and `NewFromString` accepts
the texts made of digits and at most one point, with a digit at either end. -/
def testDecimal : DecimalEnv GoString :=
  { zero := lit "0"
    NewFromString := fun s =>
      if s.all (fun c => (48 ≤ c.val && c.val ≤ 57) || c.val = 46) && s.count (byte 46) ≤ 1 &&
          s.head?.any (fun c => 48 ≤ c.val && c.val ≤ 57) &&
          s.getLast?.any (fun c => 48 ≤ c.val && c.val ≤ 57) then .ok s
      else .error (.other "can\x27t convert to decimal") }

/-- The zero `Candle` of the tests, `Candle{}`. -/
def zeroCandle : Candle GoString :=
  ⟨lit "0", lit "0", lit "0", lit "0", ⟨0, 0, 0⟩, lit "0"⟩

/-! # Properties -/

/-! ## The signer -/

namespace base64

set_option maxRecDepth 10000 in
theorem decodeMap_ne_iff : ∀ c : Byte, decodeMap c ≠ 0xff ↔ isAlphabet c = true := by decide

set_option maxRecDepth 10000 in
theorem isAlphabet_not_special :
    ∀ c : Byte, isAlphabet c = true → isNewline c = false ∧ c ≠ padChar := by decide

theorem padChar_not_newline : isNewline padChar = false := by decide

theorem strip_cons_newline (c : Byte) (rest : List Byte) (h : isNewline c = true) :
    strip (c :: rest) = strip rest := by
  simp [strip, h]

theorem strip_cons (c : Byte) (rest : List Byte) (h : isNewline c = false) :
    strip (c :: rest) = c :: strip rest := by
  simp [strip, h]

theorem skipNewlines_spec (rest : List Byte) (si : Nat) :
    strip (skipNewlines rest si).1 = strip rest ∧
    (skipNewlines rest si).1.length ≤ rest.length ∧
    (∀ d r, (skipNewlines rest si).1 = d :: r → isNewline d = false) := by
  induction rest generalizing si with
  | nil => simp [skipNewlines]
  | cons c rest ih =>
    unfold skipNewlines
    by_cases hc : isNewline c = true
    · rw [if_pos hc]
      obtain ⟨h1, h2, h3⟩ := ih (si + 1)
      refine ⟨?_, ?_, h3⟩
      · rw [h1, strip_cons_newline c rest hc]
      · simp only [List.length_cons]; omega
    · rw [if_neg hc]
      refine ⟨rfl, le_refl _, ?_⟩
      intro d r h
      cases h
      simpa using hc

theorem tailOK_pad (j : Nat) (fs : List Byte) :
    tailOK j (padChar :: fs) = ((j = 2 && fs = [padChar]) || (j = 3 && fs = [])) := by
  have h : isAlphabet padChar = false := by decide
  simp [tailOK, h]

theorem decodeQuantumFrom_spec (src : List Byte) :
    ∀ (si : Nat) (dbuf : List Nat), dbuf.length ≤ 3 →
      (decodeQuantumFrom src si dbuf).rest.length ≤ src.length - 1 ∧
      ((decodeQuantumFrom src si dbuf).err = none →
        tailOK dbuf.length (strip src)
          = paddedGroups (strip (decodeQuantumFrom src si dbuf).rest)) ∧
      ((decodeQuantumFrom src si dbuf).err ≠ none →
        tailOK dbuf.length (strip src) = false) := by
  induction src with
  | nil =>
    intro si dbuf _
    unfold decodeQuantumFrom
    by_cases h0 : dbuf.length = 0
    · simp [h0, strip, tailOK, paddedGroups]
    · simp [h0, strip, tailOK]
  | cons c rest ih =>
    intro si dbuf hj
    rw [decodeQuantumFrom]
    simp only [List.length_cons, Nat.add_sub_cancel]
    by_cases hA : decodeMap c ≠ 0xff
    · -- a character of the alphabet
      have hal : isAlphabet c = true := (decodeMap_ne_iff c).1 hA
      have hs : strip (c :: rest) = c :: strip rest :=
        strip_cons c rest (isAlphabet_not_special c hal).1
      rw [if_pos hA, hs]
      by_cases h3 : dbuf.length = 3
      · simp [h3, tailOK, hal]
      · rw [if_neg h3]
        have hlen : (dbuf ++ [decodeMap c]).length ≤ 3 := by
          simp only [List.length_append, List.length_singleton]; omega
        obtain ⟨i1, i2, i3⟩ := ih (si + 1) (dbuf ++ [decodeMap c]) hlen
        have ht : tailOK dbuf.length (c :: strip rest)
            = tailOK (dbuf ++ [decodeMap c]).length (strip rest) := by
          simp [tailOK, hal, h3]
        rw [ht]
        exact ⟨by omega, i2, i3⟩
    · rw [if_neg hA]
      have hnal : isAlphabet c = false := by
        cases h : isAlphabet c with
        | false => rfl
        | true => exact absurd ((decodeMap_ne_iff c).2 h) hA
      by_cases hB : isNewline c = true
      · rw [if_pos hB, strip_cons_newline c rest hB]
        obtain ⟨i1, i2, i3⟩ := ih (si + 1) dbuf hj
        exact ⟨by omega, i2, i3⟩
      · rw [if_neg hB]
        have hB' : isNewline c = false := by simpa using hB
        rw [strip_cons c rest hB']
        by_cases hC : c ≠ padChar
        · rw [if_pos hC]
          simp [tailOK, hnal, hC]
        · rw [if_neg hC]
          have hC' : c = padChar := by simpa using hC
          subst hC'
          rw [tailOK_pad]
          by_cases hD : dbuf.length = 0 ∨ dbuf.length = 1
          · rw [if_pos hD]
            rcases hD with hD | hD <;> simp [hD]
          · rw [if_neg hD]
            by_cases hE : dbuf.length = 2
            · rw [if_pos hE]
              obtain ⟨k1, k2, k3⟩ := skipNewlines_spec rest (si + 1)
              rcases hsk : skipNewlines rest (si + 1) with ⟨r, si2⟩
              rw [hsk] at k1 k2 k3
              cases r with
              | nil =>
                have hk : strip rest = [] := k1.symm
                simp [hE, hk]
              | cons d rest2 =>
                have hd : isNewline d = false := k3 d rest2 rfl
                simp only at k1 k2
                rw [strip_cons d rest2 hd] at k1
                by_cases hF : d ≠ padChar
                · simp only [hF, ne_eq, not_false_eq_true, if_true]
                  refine ⟨by simp only [List.length_cons] at k2 ⊢; omega, ?_, ?_⟩
                  · simp
                  · intro _
                    simp [hE, ← k1, hF]
                · have hF' : d = padChar := by simpa using hF
                  subst hF'
                  simp only [ne_eq, not_true_eq_false, if_false]
                  obtain ⟨m1, m2, m3⟩ := skipNewlines_spec rest2 (si2 + 1)
                  rcases hsk2 : skipNewlines rest2 (si2 + 1) with ⟨r3, si3⟩
                  rw [hsk2] at m1 m2 m3
                  simp only at m1 m2
                  cases r3 with
                  | nil =>
                    simp only
                    refine ⟨by simp, ?_, ?_⟩
                    · intro _
                      have hm : strip rest2 = [] := m1.symm
                      rw [← k1, hm]
                      simp [hE, strip, paddedGroups]
                    · intro h; simp at h
                  | cons e r4 =>
                    have he : isNewline e = false := m3 e r4 rfl
                    rw [strip_cons e r4 he] at m1
                    simp only
                    refine ⟨by simp only [List.length_cons] at k2 m2 ⊢; omega, ?_, ?_⟩
                    · intro h; simp at h
                    · intro _
                      simp [hE, ← k1, ← m1]
            · rw [if_neg hE]
              have h3 : dbuf.length = 3 := by omega
              obtain ⟨k1, k2, k3⟩ := skipNewlines_spec rest (si + 1)
              rcases hsk : skipNewlines rest (si + 1) with ⟨r, si2⟩
              rw [hsk] at k1 k2 k3
              simp only at k1 k2
              cases r with
              | nil =>
                simp only
                refine ⟨by simp, ?_, ?_⟩
                · intro _
                  have hk : strip rest = [] := k1.symm
                  rw [hk]
                  simp [h3, strip, paddedGroups]
                · intro h; simp at h
              | cons e r4 =>
                have he : isNewline e = false := k3 e r4 rfl
                rw [strip_cons e r4 he] at k1
                simp only
                refine ⟨by simp only [List.length_cons] at k2 ⊢; omega, ?_, ?_⟩
                · intro h; simp at h
                · intro _
                  simp [h3, ← k1]


theorem tailOK_zero (fs : List Byte) : tailOK 0 fs = paddedGroups fs := by
  have hp : isAlphabet padChar = false := by decide
  rcases fs with _ | ⟨a, _ | ⟨b, _ | ⟨c, _ | ⟨d, rest⟩⟩⟩⟩
  · simp [tailOK, paddedGroups]
  · by_cases ha : isAlphabet a = true <;> simp [tailOK, paddedGroups, ha]
  · by_cases ha : isAlphabet a = true <;> by_cases hb : isAlphabet b = true <;>
      simp [tailOK, paddedGroups, ha, hb]
  · by_cases ha : isAlphabet a = true <;> by_cases hb : isAlphabet b = true <;>
      by_cases hc : isAlphabet c = true <;> simp [tailOK, paddedGroups, ha, hb, hc]
  · by_cases ha : isAlphabet a = true
    · by_cases hb : isAlphabet b = true
      · by_cases hc : isAlphabet c = true
        · have hcp : c ≠ padChar := fun h => by rw [h, hp] at hc; exact absurd hc (by decide)
          by_cases hd : isAlphabet d = true
          · have hdp : d ≠ padChar := fun h => by rw [h, hp] at hd; exact absurd hd (by decide)
            simp [tailOK, paddedGroups, ha, hb, hc, hd, hcp, hdp]
          · by_cases hdp : d = padChar
            · subst hdp
              simp [tailOK, paddedGroups, ha, hb, hc, hp, hcp]
            · simp [tailOK, paddedGroups, ha, hb, hc, hd, hcp, hdp]
        · by_cases hcp : c = padChar
          · subst hcp
            by_cases hdp : d = padChar
            · subst hdp
              simp [tailOK, paddedGroups, ha, hb, hp]
            · simp [tailOK, paddedGroups, ha, hb, hp, hdp]
          · simp [tailOK, paddedGroups, ha, hb, hc, hcp]
      · simp [tailOK, paddedGroups, ha, hb]
    · simp [tailOK, paddedGroups, ha]

theorem decodeLoop_spec (fuel : Nat) :
    ∀ (src : List Byte) (si : Nat) (acc : List Byte), src.length ≤ fuel →
      ((decodeLoop fuel src si acc).2 = none ↔ paddedGroups (strip src) = true) := by
  induction fuel with
  | zero =>
    intro src si acc h
    have : src = [] := List.length_eq_zero.mp (Nat.le_zero.mp h)
    subst this
    simp [decodeLoop, strip, paddedGroups]
  | succ fuel ih =>
    intro src si acc h
    cases src with
    | nil => simp [decodeLoop, strip, paddedGroups]
    | cons c rest =>
      obtain ⟨l, h2, h3⟩ := decodeQuantumFrom_spec (c :: rest) si [] (by simp)
      rw [decodeLoop]
      simp only [decodeQuantum]
      cases hq : (decodeQuantumFrom (c :: rest) si []).err with
      | some e =>
        have hf := h3 (by rw [hq]; simp)
        simp only [List.length_nil] at hf
        rw [tailOK_zero] at hf
        simp [hf]
      | none =>
        have ht := h2 hq
        simp only [List.length_nil] at ht
        rw [tailOK_zero] at ht
        simp only
        rw [ih _ _ _ (by simp only [List.length_cons, Nat.add_sub_cancel] at l h; omega), ht]

/-- Embeds `DecodeString` returns no error exactly on valid standard base64. -/
theorem DecodeString_ok_iff (s : GoString) :
    (DecodeString s).2 = none ↔ validStd s = true := by
  unfold DecodeString validStd
  exact decodeLoop_spec s.length s 0 [] (le_refl _)

end base64


/-- C1: for an `Auth` whose `Secret` is valid standard base64, `Sign(message)` is
`base64(HMAC-SHA256(key, message))` with `key` the decoded secret, and there is
no error; the result depends on nothing but the secret and the message: any
`Auth` with the same `Secret` gives the same signature for the same message. -/
theorem Sign_eq_base64_hmac (a : Auth) (message : GoString)
    (h : base64.validStd a.Secret = true) :
    a.Sign message
      = (base64.EncodeToString (hmac.Sum (base64.DecodeString a.Secret).1 message), none) ∧
    ∀ b : Auth, b.Secret = a.Secret → b.Sign message = a.Sign message := by
  have hd := (base64.DecodeString_ok_iff a.Secret).2 h
  refine ⟨?_, ?_⟩
  · unfold Auth.Sign
    rcases hk : base64.DecodeString a.Secret with ⟨key, err⟩
    rw [hk] at hd
    simp only at hd
    subst hd
    rfl
  · intro b hb
    simp [Auth.Sign, hb]

set_option maxRecDepth 100000 in
/-- The request of `TestAPIClient`: the secret `zZ==` is valid, it decodes to the
byte `0xcd`, and the message `1GET/test` is signed as the test expects. -/
theorem Sign_eq_base64_hmac_witness :
    base64.validStd (lit "zZ==") = true ∧
    base64.DecodeString (lit "zZ==") = ([byte 0xcd], none) ∧
    Auth.Sign ⟨lit "k", lit "p", lit "zZ=="⟩ (lit "1GET/test")
      = (lit "2A+P3UPYN+cYs7ehkTJOLK/mkIHgHk1cahG1BCGDHRs=", none) :=
  ⟨by decide, by decide,
   ((Sign_eq_base64_hmac ⟨lit "k", lit "p", lit "zZ=="⟩ (lit "1GET/test")
      (by decide)).1).trans (by decide)⟩

/-- C7: `Sign` returns an error exactly when `Secret` is not valid standard
base64 (so it never fails for a secret that decodes), and with an error it
returns the empty signature. -/
theorem Sign_error_iff_not_valid (a : Auth) (message : GoString) :
    ((a.Sign message).2 ≠ none ↔ base64.validStd a.Secret = false) ∧
    ((a.Sign message).2 = none ∨ (a.Sign message).1 = []) := by
  have hd := base64.DecodeString_ok_iff a.Secret
  unfold Auth.Sign
  rcases hk : base64.DecodeString a.Secret with ⟨key, err⟩
  rw [hk] at hd
  cases err with
  | none =>
    have hv : base64.validStd a.Secret = true := hd.1 rfl
    simp [hv]
  | some e =>
    have hv : base64.validStd a.Secret = false := by
      cases h : base64.validStd a.Secret with
      | false => rfl
      | true => exact absurd (hd.2 h) (by simp)
    simp [hv]

/-! ## Pagination parameters -/

/-- C4: `PaginationParams.Validate` returns an error exactly when both `Before`
and `After` are non-empty, or `Limit < 0`, or `Limit > 100`; otherwise it
returns nil. -/
theorem PaginationParams_Validate_error_iff (p : PaginationParams) :
    p.Validate ≠ none ↔ (p.Before ≠ [] ∧ p.After ≠ []) ∨ p.Limit < 0 ∨ p.Limit > 100 := by
  unfold PaginationParams.Validate
  by_cases h1 : p.After ≠ [] ∧ p.Before ≠ []
  · simp [h1]
  · by_cases h2 : p.Limit < 0 ∨ p.Limit > 100
    · rw [if_neg h1, if_pos h2]
      simp only [ne_eq, reduceCtorEq, not_false_eq_true, true_iff]
      exact Or.inr h2
    · rw [if_neg h1, if_neg h2]
      simp only [ne_eq, not_true_eq_false, false_iff]
      rintro (⟨hb, ha⟩ | h)
      · exact h1 ⟨ha, hb⟩
      · exact h2 h

/-! ## The shape store -/

namespace set

/-- The slice of a set is sorted ascending. -/
theorem Strings.Slice_sorted (s : Strings) : s.Slice.Sorted (· ≤ ·) :=
  List.sorted_insertionSort _ _

/-- The slice of a set holds the keys of the set, each once. -/
theorem Strings.Slice_perm (s : Strings) : s.Slice.Perm s.keys :=
  List.perm_insertionSort _ _

/-- Two sets with the same members have the same slice, whatever the order of
their keys. -/
theorem Strings.Slice_congr (s t : Strings) (h : ∀ k, k ∈ s.keys ↔ k ∈ t.keys) :
    s.Slice = t.Slice := by
  have hp : s.keys.Perm t.keys := (List.perm_ext_iff_of_nodup s.nodup t.nodup).2 h
  exact List.eq_of_perm_of_sorted
    ((s.Slice_perm.trans hp).trans t.Slice_perm.symm) s.Slice_sorted t.Slice_sorted

theorem Strings.mem_put (s : Strings) (v k : GoString) :
    k ∈ (s.put v).keys ↔ k ∈ s.keys ∨ k = v := by
  unfold Strings.put
  split
  · constructor
    · exact Or.inl
    · rintro (h | h)
      · exact h
      · subst h; assumption
  · simp

theorem Strings.mem_Add (values : List GoString) (s : Strings) (k : GoString) :
    k ∈ (s.Add values).keys ↔ k ∈ s.keys ∨ k ∈ values := by
  induction values generalizing s with
  | nil => simp [Strings.Add]
  | cons v vs ih =>
    have := ih (s.put v)
    simp only [Strings.Add, List.foldl_cons] at this ⊢
    rw [this, Strings.mem_put]
    simp [or_assoc]

end set

namespace phizog

theorem mem_keysOf_aux (flat : GoMap JSON) (s : set.Strings) (k : GoString) :
    k ∈ (flat.foldl (fun keys kv => keys.Add [kv.1]) s).keys ↔
      k ∈ s.keys ∨ k ∈ flat.map Prod.fst := by
  induction flat generalizing s with
  | nil => simp
  | cons kv rest ih =>
    rw [List.foldl_cons, ih, set.Strings.mem_Add]
    simp [or_assoc]

/-- The key set `AddShape` builds holds exactly the keys of the flat map. -/
theorem mem_keysOf (flat : GoMap JSON) (k : GoString) :
    k ∈ (keysOf flat).keys ↔ k ∈ flat.map Prod.fst := by
  unfold keysOf
  rw [mem_keysOf_aux]
  simp [set.Strings.make]

/-- C5: `Shape.ID()` is the lowercase hex SHA-256 digest of the keys joined
with `,`, where the keys are taken sorted ascending (the slice is sorted and
holds each key of the set once); so two Shapes with the same key set have the
same ID, whatever their names and the order in which the keys were inserted. -/
theorem Shape_ID_of_sorted_keys (s t : Shape) (h : ∀ k, k ∈ s.Keys.keys ↔ k ∈ t.Keys.keys) :
    s.ID = hexEncodeToString (sha256.Sum256 (Join s.Keys.Slice (lit ","))) ∧
    s.Keys.Slice.Sorted (· ≤ ·) ∧ s.Keys.Slice.Perm s.Keys.keys ∧
    s.ID = t.ID := by
  refine ⟨rfl, s.Keys.Slice_sorted, s.Keys.Slice_perm, ?_⟩
  unfold Shape.ID
  rw [set.Strings.Slice_congr s.Keys t.Keys h]

set_option maxRecDepth 100000 in
/-- Two Shapes with different names whose keys `a`, `b` were inserted in
opposite orders: both have the ID `sha256("a,b")` in hex. -/
theorem Shape_ID_of_sorted_keys_witness :
    (Shape.mk (lit "x") (set.Strings.make.Add [lit "b", lit "a"])).Keys.Slice
      = [lit "a", lit "b"] ∧
    (Shape.mk (lit "x") (set.Strings.make.Add [lit "b", lit "a"])).ID
      = (Shape.mk (lit "y") (set.Strings.make.Add [lit "a", lit "b"])).ID ∧
    (Shape.mk (lit "x") (set.Strings.make.Add [lit "b", lit "a"])).ID
      = lit "1eb7c54d52831bbfe8942af0b1c56b7409523a59ed6ca99c1174fef7eb32c1b5" :=
  ⟨by decide,
   (Shape_ID_of_sorted_keys (Shape.mk (lit "x") (set.Strings.make.Add [lit "b", lit "a"]))
      (Shape.mk (lit "y") (set.Strings.make.Add [lit "a", lit "b"]))
      (fun k => by
        simp only [set.Strings.mem_Add, set.Strings.make, List.mem_cons]
        tauto)).2.2.2,
   by decide⟩

theorem GoMap_get_singleton {V : Type} (k : GoString) (v : V) :
    GoMap.get [(k, v)] k = some v := by
  simp [GoMap.get]

theorem GoMap_set_singleton {V : Type} (k : GoString) (v w : V) :
    GoMap.set [(k, v)] k w = [(k, w)] := by
  simp [GoMap.set]

/-- Embeds `AddShape` on an object records the Shape of its flattened keys and
returns nil. -/
theorem AddShape_object (s : Store) (name : GoString) (o : List (GoString × JSON)) :
    s.AddShape name (.object o)
      = (s.Add ⟨name, keysOf (flatten.Flatten o []).1⟩, none) := by
  rw [Store.AddShape]
  rfl

/-- Adding a Shape to a store that holds one Occurrence under the ID of that
Shape adds one to its `Count`. -/
theorem Add_same_ID (shape other : Shape) (c : Int) (h : other.ID = shape.ID) :
    (Store.mk [(shape.ID, ⟨shape, c⟩)]).Add other
      = Store.mk [(shape.ID, ⟨shape, c + 1⟩)] := by
  simp [Store.Add, h, GoMap_get_singleton, GoMap_set_singleton]

theorem AddShape_fold_same_keys (name : GoString) (first : List (GoString × JSON))
    (rest : List (List (GoString × JSON))) (c : Int)
    (h : ∀ o ∈ rest, ∀ k, k ∈ (flatten.Flatten o []).1.map Prod.fst ↔
      k ∈ (flatten.Flatten first []).1.map Prod.fst) :
    rest.foldl (fun s o => (s.AddShape name (.object o)).1)
        (Store.mk [((Shape.mk name (keysOf (flatten.Flatten first []).1)).ID,
          ⟨⟨name, keysOf (flatten.Flatten first []).1⟩, c⟩)])
      = Store.mk [((Shape.mk name (keysOf (flatten.Flatten first []).1)).ID,
          ⟨⟨name, keysOf (flatten.Flatten first []).1⟩, c + rest.length⟩)] := by
  induction rest generalizing c with
  | nil => simp
  | cons o os ih =>
    have hid : (Shape.mk name (keysOf (flatten.Flatten o []).1)).ID
        = (Shape.mk name (keysOf (flatten.Flatten first []).1)).ID := by
      unfold Shape.ID
      rw [set.Strings.Slice_congr _ (keysOf (flatten.Flatten first []).1)]
      intro k
      simp only [mem_keysOf]
      exact h o (List.mem_cons_self _ _) k
    rw [List.foldl_cons, AddShape_object]
    simp only
    rw [Add_same_ID _ _ _ hid, ih (c + 1) (fun o' ho' => h o' (List.mem_cons_of_mem _ ho'))]
    simp only [List.length_cons, Nat.cast_add, Nat.cast_one]
    congr 4
    ring

set_option maxRecDepth 100000 in
/-- C6 fails as stated, with the flattened key set as the spec has it (arrays
are leaves): the objects `{"a":[1]}` and `{"a":[1,2]}` both have the flattened
key set `a`, but `flatten` numbers the elements of an array, so the store
records the keys `a.0` for the first and `a.0`, `a.1` for the second, and from
a new store the two calls of `AddShape` leave two Occurrences, each with the
`Count` 1. -/
theorem AddShape_array_lengths_two_Occurrences :
    specKeys [(lit "a", JSON.array [JSON.number (lit "1")])] = [lit "a"] ∧
    specKeys [(lit "a", JSON.array [JSON.number (lit "1"), JSON.number (lit "2")])]
      = [lit "a"] ∧
    (([[(lit "a", JSON.array [JSON.number (lit "1")])],
       [(lit "a", JSON.array [JSON.number (lit "1"), JSON.number (lit "2")])]]
      ).foldl (fun s o => (s.AddShape (lit "n") (.object o)).1) NewStore).shapes.map
        (fun e => (e.2.Shape.Keys.Slice, e.2.Count))
      = [([lit "a.0"], 1), ([lit "a.0", lit "a.1"], 1)] := by
  decide

/-- C6, amended: the flattened key set of an object is the one `flatten` gives,
in which the elements of an array are keyed by their index under the path of
the array (`a.0`, `a.1`), like the members of a nested object.  From a new
store, `AddShape(name, obj)` on each of `n ≥ 1` objects with the same flattened
key set (whatever the order of their members and whatever their values)
returns nil each time and leaves the store with exactly one Occurrence, under
the fingerprint of that key set, whose `Count` is `n` and whose Shape has the
name `name` and exactly the flattened keys. -/
theorem AddShape_same_keys_one_Occurrence (name : GoString) (first : List (GoString × JSON))
    (rest : List (List (GoString × JSON)))
    (h : ∀ o ∈ rest, ∀ k, k ∈ (flatten.Flatten o []).1.map Prod.fst ↔
      k ∈ (flatten.Flatten first []).1.map Prod.fst) :
    (∀ (s : Store) (o : List (GoString × JSON)), (s.AddShape name (.object o)).2 = none) ∧
    (∃ keys : set.Strings,
      (∀ k, k ∈ keys.keys ↔ k ∈ (flatten.Flatten first []).1.map Prod.fst) ∧
      ((first :: rest).foldl (fun s o => (s.AddShape name (.object o)).1) NewStore).shapes
        = [(hexEncodeToString (sha256.Sum256 (Join keys.Slice (lit ","))),
            ⟨⟨name, keys⟩, ((first :: rest).length : Nat)⟩)]) ∧
    ((first :: rest).foldl (fun s o => (s.AddShape name (.object o)).1) NewStore).shapes
      = [((Shape.mk name (keysOf (flatten.Flatten first []).1)).ID,
          ⟨⟨name, keysOf (flatten.Flatten first []).1⟩, ((first :: rest).length : Nat)⟩)] := by
  have hmain : ((first :: rest).foldl (fun s o => (s.AddShape name (.object o)).1)
        NewStore).shapes
      = [((Shape.mk name (keysOf (flatten.Flatten first []).1)).ID,
          ⟨⟨name, keysOf (flatten.Flatten first []).1⟩, ((first :: rest).length : Nat)⟩)] := ?_
  · exact ⟨fun s o => by rw [AddShape_object],
      ⟨keysOf (flatten.Flatten first []).1, mem_keysOf _, hmain⟩, hmain⟩
  rw [List.foldl_cons, AddShape_object]
  have h0 : NewStore.Add ⟨name, keysOf (flatten.Flatten first []).1⟩
      = Store.mk [((Shape.mk name (keysOf (flatten.Flatten first []).1)).ID,
          ⟨⟨name, keysOf (flatten.Flatten first []).1⟩, 1⟩)] := by
    simp [Store.Add, NewStore, GoMap.get, GoMap.set]
  simp only
  rw [h0, AddShape_fold_same_keys name first rest 1 h]
  simp only [List.length_cons, Nat.cast_add, Nat.cast_one]
  rw [add_comm (1 : Int)]

set_option maxRecDepth 100000 in
/-- Two objects with the members `a` and `b.c` in opposite orders and with
different values: one Occurrence with the keys `a` and `b.c`, counted twice. -/
theorem AddShape_same_keys_one_Occurrence_witness :
    (([[(lit "a", JSON.string (lit "1")), (lit "b", JSON.object [(lit "c", JSON.null)])],
       [(lit "b", JSON.object [(lit "c", JSON.bool true)]), (lit "a", JSON.number (lit "2"))]]
      ).foldl (fun s o => (s.AddShape (lit "n") (.object o)).1) NewStore).shapes.map
        (fun e => (e.2.Shape.Name, e.2.Shape.Keys.Slice, e.2.Count))
      = [(lit "n", [lit "a", lit "b.c"], 2)] := by
  have h := (AddShape_same_keys_one_Occurrence (lit "n")
    [(lit "a", JSON.string (lit "1")), (lit "b", JSON.object [(lit "c", JSON.null)])]
    [[(lit "b", JSON.object [(lit "c", JSON.bool true)]), (lit "a", JSON.number (lit "2"))]]
    (by
      intro o ho k
      rw [List.mem_singleton] at ho
      subst ho
      have h1 : (flatten.Flatten [(lit "b", JSON.object [(lit "c", JSON.bool true)]),
          (lit "a", JSON.number (lit "2"))] []).1.map Prod.fst = [lit "b.c", lit "a"] := by
        decide
      have h2 : (flatten.Flatten [(lit "a", JSON.string (lit "1")),
          (lit "b", JSON.object [(lit "c", JSON.null)])] []).1.map Prod.fst
            = [lit "a", lit "b.c"] := by
        decide
      rw [h1, h2]
      simp only [List.mem_cons, List.mem_singleton, List.not_mem_nil, or_false]
      exact or_comm)).2.2
  rw [h]
  decide

end phizog

/-! ## The request pipeline -/

theorem decodeMembers_skip (l : List (GoString × JSON)) (e : Error) (saved : Option Err)
    (h : ∀ kv ∈ l, isMessage kv.1 = false) : decodeMembers l e saved = (e, saved) := by
  induction l with
  | nil => rfl
  | cons kv rest ih =>
    obtain ⟨k, v⟩ := kv
    have hk : isMessage k = false := h (k, v) (List.mem_cons_self _ _)
    rw [decodeMembers]
    simp only [hk, Bool.false_eq_true, if_false]
    exact ih fun kv hkv => h kv (List.mem_cons_of_mem _ hkv)

theorem decodeMembers_append (pre rest : List (GoString × JSON)) (e : Error)
    (saved : Option Err) (h : ∀ kv ∈ pre, isMessage kv.1 = false) :
    decodeMembers (pre ++ rest) e saved = decodeMembers rest e saved := by
  induction pre with
  | nil => rfl
  | cons kv pre ih =>
    obtain ⟨k, v⟩ := kv
    have hk : isMessage k = false := h (k, v) (List.mem_cons_self _ _)
    rw [List.cons_append, decodeMembers]
    simp only [hk, Bool.false_eq_true, if_false]
    exact ih fun kv hkv => h kv (List.mem_cons_of_mem _ hkv)

/-- An object whose only member named `message` holds the string `m` is decoded
into an `Error` with that message and the status code it had. -/
theorem decodeMembers_message (pre post : List (GoString × JSON)) (m : GoString) (e : Error)
    (hpre : ∀ kv ∈ pre, isMessage kv.1 = false) (hpost : ∀ kv ∈ post, isMessage kv.1 = false) :
    decodeMembers (pre ++ (lit "message", JSON.string m) :: post) e none
      = ({ e with Message := m }, none) := by
  rw [decodeMembers_append _ _ _ _ hpre, decodeMembers]
  have hk : isMessage (lit "message") = true := by decide
  simp only [hk, if_true, storeMessage]
  exact decodeMembers_skip _ _ _ hpost

/-- C2: when the response to a call has a status of 300 or more and its body is
a JSON object that carries the message `m` (a member `message` with the string
`m`, and no other member of that name), `Do` returns the `Error` with the
status of the response and the message `m`, and the target `result` is as it
was before the call. -/
theorem Do_status_error {T : Type} (a : APIClient) (env : Env T) (w w' : World)
    (method relativePath : GoString) (content : Option Content) (result : Result T)
    (resp : Response) (raw m : GoString) (pre post : List (GoString × JSON))
    (hsend : a.send env w method relativePath content = (w', .ok resp))
    (hstatus : resp.StatusCode ≥ 300)
    (hbody : resp.Body.next = .ok ⟨raw, .object (pre ++ (lit "message", JSON.string m) :: post)⟩)
    (hpre : ∀ kv ∈ pre, isMessage kv.1 = false)
    (hpost : ∀ kv ∈ post, isMessage kv.1 = false) :
    a.Do env w method relativePath content result
      = (w', .returns (result, some (.api { StatusCode := resp.StatusCode, Message := m }))) := by
  have hdec : DecodeError resp.Body { StatusCode := resp.StatusCode, Message := [] }
      = ({ StatusCode := resp.StatusCode, Message := m }, none) := by
    unfold DecodeError
    rw [hbody]
    exact decodeMembers_message pre post m _ hpre hpost
  have hdo : a.do env w method relativePath content result
      = (w', .returns (result, none,
          some (.api { StatusCode := resp.StatusCode, Message := m }))) := by
    unfold APIClient.do
    rw [hsend]
    simp only [hstatus, if_true, hdec]
  unfold APIClient.Do
  rw [hdo]

/-- The status 403 with the body `{"message":"verboten"}`: the call returns the
`Error` with status 403 and message `verboten`, and the target is as before. -/
theorem Do_status_error_witness :
    (testClient ⟨403, [], ⟨.ok ⟨lit "\x7b\"message\":\"verboten\"\x7d",
        .object [(lit "message", .string (lit "verboten"))]⟩, none⟩⟩).Do testEnv ⟨0, []⟩
      (lit "GET") (lit "/test") none (.paged () (some ⟨lit "x", lit "y"⟩))
    = ((((testClient ⟨403, [], ⟨.ok ⟨lit "\x7b\"message\":\"verboten\"\x7d",
        .object [(lit "message", .string (lit "verboten"))]⟩, none⟩⟩).send testEnv ⟨0, []⟩
          (lit "GET") (lit "/test") none).1),
       .returns (.paged () (some ⟨lit "x", lit "y"⟩),
         some (.api { StatusCode := 403, Message := lit "verboten" }))) :=
  Do_status_error _ testEnv ⟨0, []⟩ _ (lit "GET") (lit "/test") none _
    ⟨403, [], ⟨.ok ⟨lit "\x7b\"message\":\"verboten\"\x7d",
        .object [(lit "message", .string (lit "verboten"))]⟩, none⟩⟩
    (lit "\x7b\"message\":\"verboten\"\x7d") (lit "verboten") [] []
    (by
      unfold APIClient.send
      have h : base64.DecodeString (lit "zZ==") = ([byte 0xcd], none) := by decide
      simp [testClient, testEnv, Auth.Sign, h])
    (by decide) rfl (by simp) (by simp)

/-! ## Requests -/

/-- The world after `do` is the world after its first half. -/
theorem do_world {T : Type} (a : APIClient) (env : Env T) (w : World)
    (method relativePath : GoString) (content : Option Content) (result : Result T) :
    (a.do env w method relativePath content result).1
      = (a.send env w method relativePath content).1 := by
  unfold APIClient.do
  split
  · rename_i h; rw [h]
  · rename_i h; rw [h]
    split
    · split <;> rfl
    · split
      · rfl
      · split <;> rfl

theorem addHeaders_Get (a : APIClient) (method url body timestamp signature : GoString) :
    let req := a.addHeaders ⟨method, url, [], body⟩ timestamp signature
    req.Header.Get (lit "CB-ACCESS-KEY") = a.auth.Key ∧
    req.Header.Get (lit "CB-ACCESS-PASSPHRASE") = a.auth.Passphrase ∧
    req.Header.Get (lit "CB-ACCESS-TIMESTAMP") = timestamp ∧
    req.Header.Get (lit "CB-ACCESS-SIGN") = signature ∧
    req.Body = body :=
  ⟨rfl, rfl, rfl, rfl, rfl⟩

/-- What the first half of `do` leaves behind when it hands a request to the
HTTP client. -/
theorem send_request {T : Type} (a : APIClient) (env : Env T) (w : World)
    (method relativePath : GoString) (content : Option Content) (req : Request)
    (h : (a.send env w method relativePath content).1.sent = w.sent ++ [req]) :
    (a.send env w method relativePath content).1.reads = w.reads + 1 ∧
    req.Header.Get (lit "CB-ACCESS-KEY") = a.auth.Key ∧
    req.Header.Get (lit "CB-ACCESS-PASSPHRASE") = a.auth.Passphrase ∧
    req.Header.Get (lit "CB-ACCESS-TIMESTAMP") = a.timestamp w.reads ∧
    a.auth.Sign (a.timestamp w.reads ++ method ++ relativePath ++ req.Body)
      = (req.Header.Get (lit "CB-ACCESS-SIGN"), none) ∧
    (content = none → req.Body = []) ∧
    (∀ c, content = some c → c.Encode = .ok req.Body) := by
  unfold APIClient.send at h ⊢
  have hno : ∀ {P : Prop}, w.sent = w.sent ++ [req] → P := by
    intro P h
    have := congrArg List.length h
    simp at this
  cases hu : a.baseURL relativePath with
  | error err => rw [hu] at h; exact hno h
  | ok uri =>
    rw [hu] at h
    simp only [] at h ⊢
    cases hb : (match content with | none => Except.ok [] | some c => c.Encode) with
    | error err => rw [hb] at h; exact hno h
    | ok b =>
      rw [hb] at h
      simp only [] at h ⊢
      cases hs : a.auth.Sign (a.timestamp w.reads ++ method ++ relativePath ++ b) with
      | mk signature serr =>
        cases serr with
        | some err => rw [hs] at h; exact hno h
        | none =>
          rw [hs] at h
          simp only [] at h ⊢
          cases hn : env.NewRequest method uri with
          | some err => rw [hn] at h; exact hno h
          | none =>
            rw [hn] at h
            simp only [] at h ⊢
            have hreq : req = a.addHeaders
                { Method := if method = [] then lit "GET" else method, URL := uri, Header := [],
                  Body := b } (a.timestamp w.reads) signature := by
              cases hd : a.httpClient (a.addHeaders
                { Method := if method = [] then lit "GET" else method, URL := uri, Header := [],
                  Body := b } (a.timestamp w.reads) signature) with
              | error err =>
                rw [hd] at h
                simpa using h.symm
              | ok resp =>
                rw [hd] at h
                simpa using h.symm
            have hg := addHeaders_Get a (if method = [] then lit "GET" else method) uri b
              (a.timestamp w.reads) signature
            simp only at hg
            rw [← hreq] at hg
            obtain ⟨h1, h2, h3, h4, h5⟩ := hg
            refine ⟨?_, h1, h2, h3, ?_, ?_, ?_⟩
            · split <;> rfl
            · rw [h5, h4]; exact hs
            · intro hc; subst hc; rw [h5]; simpa using hb.symm
            · intro c hc; subst hc; rw [h5]; simpa using hb

/-- C8: a request that `do` hands to the HTTP client comes with one reading `t`
of the clock; it carries `CB-ACCESS-KEY = auth.Key`,
`CB-ACCESS-PASSPHRASE = auth.Passphrase`, `CB-ACCESS-TIMESTAMP = t` and
`CB-ACCESS-SIGN = Sign(t + method + relativePath + body)`, where `body` is the
body of the request itself: empty when `content` is nil, what the JSON encoder
wrote for `content` otherwise. -/
theorem do_request_signed {T : Type} (a : APIClient) (env : Env T) (w : World)
    (method relativePath : GoString) (content : Option Content) (result : Result T)
    (req : Request)
    (h : (a.do env w method relativePath content result).1.sent = w.sent ++ [req]) :
    (a.do env w method relativePath content result).1.reads = w.reads + 1 ∧
    req.Header.Get (lit "CB-ACCESS-KEY") = a.auth.Key ∧
    req.Header.Get (lit "CB-ACCESS-PASSPHRASE") = a.auth.Passphrase ∧
    req.Header.Get (lit "CB-ACCESS-TIMESTAMP") = a.timestamp w.reads ∧
    a.auth.Sign (a.timestamp w.reads ++ method ++ relativePath ++ req.Body)
      = (req.Header.Get (lit "CB-ACCESS-SIGN"), none) ∧
    (content = none → req.Body = []) ∧
    (∀ c, content = some c → c.Encode = .ok req.Body) := by
  rw [do_world] at h ⊢
  exact send_request a env w method relativePath content req h

set_option maxRecDepth 100000 in
/-- The call of `TestAPIClient`: the one request handed to the HTTP client is
the one the test server checks, signed `2A+P3UPYN+cYs7ehkTJOLK/mkIHgHk1cahG1BCGDHRs=`. -/
theorem do_request_signed_witness :
    ((testClient ⟨200, [], emptyObject⟩).do testEnv ⟨0, []⟩ (lit "GET") (lit "/test") none
        Result.nil).1.sent = [] ++ [testRequest] ∧
    ((testClient ⟨200, [], emptyObject⟩).do testEnv ⟨0, []⟩ (lit "GET") (lit "/test") none
        Result.nil).1.reads = 0 + 1 ∧
    testRequest.Header.Get (lit "CB-ACCESS-TIMESTAMP") = lit "1" ∧
    (testClient ⟨200, [], emptyObject⟩).auth.Sign
        (lit "1" ++ lit "GET" ++ lit "/test" ++ testRequest.Body)
      = (testRequest.Header.Get (lit "CB-ACCESS-SIGN"), none) :=
  have h : ((testClient ⟨200, [], emptyObject⟩).do testEnv ⟨0, []⟩ (lit "GET") (lit "/test")
      none Result.nil).1.sent = [] ++ [testRequest] := by decide
  have t := do_request_signed (testClient ⟨200, [], emptyObject⟩) testEnv ⟨0, []⟩ (lit "GET")
    (lit "/test") none Result.nil testRequest h
  ⟨h, t.1, t.2.2.2.1, t.2.2.2.2.1⟩

/-! ## Responses -/

/-- What `Do` does with a response of status below 300 that `do` handles without
error, for a target with a `Page` field. -/
theorem Do_paged {T : Type} (a : APIClient) (env : Env T) (w w' : World)
    (method relativePath : GoString) (content : Option Content) (v v' : T)
    (page page' : Option Pagination) (resp : Response) (doc : Doc)
    (hsend : a.send env w method relativePath content = (w', .ok resp))
    (hstatus : resp.StatusCode < 300)
    (hnext : resp.Body.next = .ok doc)
    (hdec : env.paged doc.value v page = (v', page', none))
    (hclose : resp.Body.Close = none) :
    a.Do env w method relativePath content (.paged v page)
      = (w', .returns (.paged v' (if isPaged resp then
            some ⟨resp.Header.Get (lit "CB-BEFORE"), resp.Header.Get (lit "CB-AFTER")⟩
          else page'), none)) := by
  have hdo : a.do env w method relativePath content (.paged v page)
      = (w', .returns (.paged v' page', some resp, none)) := by
    unfold APIClient.do
    rw [hsend]
    simp only [ge_iff_le, not_le.mpr hstatus, if_false, Decode, hnext, hdec, hclose, Capture]
  unfold APIClient.Do
  rw [hdo]
  simp only
  by_cases hp : isPaged resp = true
  · simp only [hp, if_true, paginate, mapstructureDecode]
  · simp only [hp, if_false, Bool.false_eq_true]

/-- For a response of status below 300 whose body decodes into the target and
is closed without error, and a target that points
to a struct with a `Page` field, `Do` returns nil and `Page` holds the values
of `CB-BEFORE` and `CB-AFTER` when both headers are present and non-empty;
when either is missing or empty, `Page` is what decoding the body left
there. -/
theorem Do_sets_Page_of_both_headers {T : Type} (a : APIClient) (env : Env T) (w w' : World)
    (method relativePath : GoString) (content : Option Content) (v v' : T)
    (page page' : Option Pagination) (resp : Response) (doc : Doc)
    (hsend : a.send env w method relativePath content = (w', .ok resp))
    (hstatus : resp.StatusCode < 300)
    (hnext : resp.Body.next = .ok doc)
    (hdec : env.paged doc.value v page = (v', page', none))
    (hclose : resp.Body.Close = none) :
    (resp.Header.Get (lit "CB-BEFORE") ≠ [] ∧ resp.Header.Get (lit "CB-AFTER") ≠ [] →
      a.Do env w method relativePath content (.paged v page)
        = (w', .returns (.paged v' (some { Before := resp.Header.Get (lit "CB-BEFORE"),
                                           After := resp.Header.Get (lit "CB-AFTER") }), none))) ∧
    (¬ (resp.Header.Get (lit "CB-BEFORE") ≠ [] ∧ resp.Header.Get (lit "CB-AFTER") ≠ []) →
      a.Do env w method relativePath content (.paged v page)
        = (w', .returns (.paged v' page', none))) := by
  have h := Do_paged a env w w' method relativePath content v v' page page' resp doc hsend
    hstatus hnext hdec hclose
  constructor
  · intro hb
    have hp : isPaged resp = true := by simp [isPaged, hb.1, hb.2]
    rw [h, if_pos hp]
  · intro hb
    have hp : ¬ isPaged resp = true := by
      intro hp
      apply hb
      simpa [isPaged] using hp
    rw [h, if_neg hp]

/-- The send of the test client: one reading of the clock, one request, the
response of the server. -/
theorem testClient_send (resp : Response) (method relativePath : GoString) :
    ((testClient resp).send testEnv ⟨0, []⟩ method relativePath none).2 = .ok resp := by
  have h : base64.DecodeString (lit "zZ==") = ([byte 0xcd], none) := by decide
  simp [APIClient.send, testClient, testEnv, Auth.Sign, h]

/-- A response `200` with `CB-BEFORE: b`, `CB-AFTER: a` and the body `{}`, and a
target with a nil `Page`: afterwards `Page` is `{Before: b, After: a}`; without
the headers it stays nil. -/
theorem Do_sets_Page_of_both_headers_witness :
    ((testClient (pagedResponse 200 emptyObject)).Do testEnv ⟨0, []⟩ (lit "GET")
        (lit "/accounts/1/ledger/") none (.paged () none)).2
      = .returns (.paged () (some { Before := lit "b", After := lit "a" }), none) :=
  congrArg Prod.snd
    ((Do_sets_Page_of_both_headers (testClient (pagedResponse 200 emptyObject)) testEnv ⟨0, []⟩
      ((testClient (pagedResponse 200 emptyObject)).send testEnv ⟨0, []⟩ (lit "GET")
        (lit "/accounts/1/ledger/") none).1
      (lit "GET") (lit "/accounts/1/ledger/") none () () none none
      (pagedResponse 200 emptyObject) ⟨lit "\x7b\x7d", .object []⟩
      (Prod.ext rfl (testClient_send _ _ _)) (by decide) rfl rfl rfl).1 (by decide))

/-- C3 at a response `200` that carries `CB-BEFORE: b` and `CB-AFTER: a` but
whose body holds no JSON value, with a target that has a `Page` field: the
decoder returns `io.EOF`, for which `do` executes `return nil, err`; the
deferred function then calls `resp.Body.Close()` on the nil `resp`, and `Do`
panics: it neither sets `Page` from the two headers nor returns the error. -/
theorem Do_paged_undecodable_body :
    (pagedResponse 200 emptyBody).StatusCode < 300 ∧
    (pagedResponse 200 emptyBody).Header.Get (lit "CB-BEFORE") = lit "b" ∧
    (pagedResponse 200 emptyBody).Header.Get (lit "CB-AFTER") = lit "a" ∧
    Decode testEnv (pagedResponse 200 emptyBody).Body (.paged () none)
      = (.paged () none, some (.other "EOF")) ∧
    ((testClient (pagedResponse 200 emptyBody)).Do testEnv ⟨0, []⟩ (lit "GET")
        (lit "/accounts/1/ledger/") none (.paged () none)).2
      = .panics "invalid memory address or nil pointer dereference" := by
  decide

/-- C9 at a response `200` with `CB-BEFORE: b`, `CB-AFTER: a`: with a nil target
`Do` returns the error of `mapstructure`, `result must be a pointer`. -/
theorem Do_nil_result_paged :
    (pagedResponse 200 emptyObject).StatusCode < 300 ∧
    ((testClient (pagedResponse 200 emptyObject)).Do testEnv ⟨0, []⟩ (lit "DELETE")
        (lit "/orders/") none Result.nil).2
      = .returns (Result.nil, some (.other "result must be a pointer")) := by
  decide

/-- C10 at a response `200` with `CB-BEFORE: b`, `CB-AFTER: a` and the body
`[]`: with a target that points to a slice, `Do` returns the error of
`mapstructure` after the body was decoded. -/
theorem Do_slice_result_paged :
    (pagedResponse 200 emptyArray).StatusCode < 300 ∧
    ((testClient (pagedResponse 200 emptyArray)).Do testEnv ⟨0, []⟩ (lit "GET")
        (lit "/accounts/") none (Result.slice ())).2
      = .returns (Result.slice (),
         some (.other "\x27\x27: source data must be an array or slice, got struct")) := by
  decide

/-- The targets for which `paginate` drops the page: with a struct without a
`Page` field and with a raw message, the target is left as decoding left it
and no error is returned. -/
theorem paginate_drops {T : Type} (resp : Response) (v : T) (m : GoString) :
    paginate resp (Result.plain v) = (Result.plain v, none) ∧
    paginate resp (Result.rawMessage m : Result T) = (Result.rawMessage m, none) :=
  ⟨rfl, rfl⟩

/-- With a nil target and a response of status below 300 that does not carry
both pagination headers, `Do` returns what closing the body returns, whatever
the body holds. -/
theorem Do_nil_result_unpaged {T : Type} (a : APIClient) (env : Env T) (w w' : World)
    (method relativePath : GoString) (content : Option Content) (resp : Response)
    (hsend : a.send env w method relativePath content = (w', .ok resp))
    (hstatus : resp.StatusCode < 300) (hpaged : isPaged resp = false) :
    a.Do env w method relativePath content Result.nil
      = (w', .returns (Result.nil, resp.Body.Close)) := by
  unfold APIClient.Do APIClient.do
  rw [hsend]
  simp only [ge_iff_le, not_le.mpr hstatus, if_false, Capture]
  cases hc : resp.Body.Close with
  | none => simp [hpaged]
  | some e => simp

/-! ## The shape store: sequences, scalars, loading -/

namespace phizog

theorem addEach_stopped (name : GoString) (items : List JSON) (s : Store) (err : Err) :
    items.foldl
      (fun acc item =>
        match acc.2 with
        | some err => (acc.1, some err)
        | none => Store.AddShape acc.1 name item)
      (s, some err) = (s, some err) := by
  induction items with
  | nil => rfl
  | cons item rest ih => simpa [List.foldl_cons] using ih

theorem AddShapes_eq_addEach (name : GoString) (items : List JSON) (s : Store) :
    Store.AddShapes s name items = addEach s name items := by
  induction items generalizing s with
  | nil => simp [Store.AddShapes, addEach]
  | cons item rest ih =>
    rw [Store.AddShapes]
    unfold addEach
    rw [List.foldl_cons]
    rcases h : Store.AddShape s name item with ⟨s', err⟩
    cases err with
    | some e =>
      simp only
      exact (addEach_stopped name rest s' e).symm
    | none =>
      simp only
      rw [ih s']
      rfl

theorem GoMap_observations_set (m : GoMap Occurrence) (k : GoString) (v : Occurrence) :
    ((GoMap.set m k v).map fun e => e.2.Count).sum
      = (m.map fun e => e.2.Count).sum + v.Count
          - (match GoMap.get m k with | some old => old.Count | none => 0) := by
  induction m with
  | nil => simp [GoMap.set, GoMap.get]
  | cons e rest ih =>
    obtain ⟨k', v'⟩ := e
    by_cases hk : k' = k
    · simp [GoMap.set, GoMap.get, hk]
      ring
    · simp only [GoMap.set, GoMap.get, hk, if_false, List.map_cons, List.sum_cons, ih]
      ring

/-- Each `Add` is one more observation. -/
theorem Add_observations (s : Store) (shape : Shape) :
    (s.Add shape).observations = s.observations + 1 := by
  unfold Store.Add Store.observations
  cases h : GoMap.get s.shapes shape.ID with
  | none =>
    simp only [GoMap_observations_set, h]
    ring
  | some v =>
    simp only [GoMap_observations_set, h]
    ring

theorem AddShapes_objects (name : GoString) (objs : List (List (GoString × JSON))) (s : Store) :
    (Store.AddShapes s name (objs.map JSON.object)).2 = none ∧
    (Store.AddShapes s name (objs.map JSON.object)).1.observations
      = s.observations + objs.length := by
  induction objs generalizing s with
  | nil => simp [Store.AddShapes]
  | cons o rest ih =>
    rw [List.map_cons, Store.AddShapes, AddShape_object]
    simp only
    obtain ⟨h1, h2⟩ := ih (s.Add ⟨name, keysOf (flatten.Flatten o []).1⟩)
    refine ⟨h1, ?_⟩
    rw [h2, Add_observations]
    simp only [List.length_cons, Nat.cast_add, Nat.cast_one]
    ring

/-- C12: `AddShape(name, array)` is defined for every array, nested or not, and
is the same as calling `AddShape(name, v)` for each element in order until the
first error; nothing is recorded for the array itself, so an array of `n`
objects adds `n` observations and returns nil. -/
theorem AddShape_array_each_element (s : Store) (name : GoString) (items : List JSON)
    (objs : List (List (GoString × JSON))) :
    s.AddShape name (.array items) = addEach s name items ∧
    s.AddShape name (.array []) = (s, none) ∧
    (s.AddShape name (.array (objs.map JSON.object))).2 = none ∧
    (s.AddShape name (.array (objs.map JSON.object))).1.observations
      = s.observations + objs.length := by
  refine ⟨?_, ?_, ?_, ?_⟩
  · rw [Store.AddShape, AddShapes_eq_addEach]
  · rw [Store.AddShape, Store.AddShapes]
  · rw [Store.AddShape]
    exact (AddShapes_objects name objs s).1
  · rw [Store.AddShape]
    exact (AddShapes_objects name objs s).2

/-- C13: for a top-level value that is neither an array nor an object (null, a
boolean, a number, a string), `AddShape` returns nil and leaves the store as it
was. -/
theorem AddShape_scalar_unchanged (s : Store) (name : GoString) (b : Bool) (t str : GoString) :
    s.AddShape name .null = (s, none) ∧
    s.AddShape name (.bool b) = (s, none) ∧
    s.AddShape name (.number t) = (s, none) ∧
    s.AddShape name (.string str) = (s, none) := by
  refine ⟨?_, ?_, ?_, ?_⟩ <;> rw [Store.AddShape]

/-- C14: after `s.Load(m)` the store holds exactly `m`: every lookup gives what
`m` gives (an entry of `s` that is not in `m` is gone, and a `Count` is the one
in `m`, not a sum), and `Load` returns nil. -/
theorem Load_replaces (s : Store) (m : GoMap Occurrence) :
    (s.Load m).1.shapes = m ∧ (s.Load m).2 = none ∧
    ∀ k, GoMap.get (s.Load m).1.shapes k = GoMap.get m k :=
  ⟨rfl, rfl, fun _ => rfl⟩

end phizog

/-! ## Report specifications -/

/-- C20: `ReportSpec.Validate` returns nil exactly when `Type` is `account` or
`fills`, `ProductID` is non-empty when `Type` is `fills`, `AccountID` is
non-empty when `Type` is `account`, `Format` is `pdf` or `csv`, and neither
`EndDate` nor `StartDate` is the zero time. -/
theorem ReportSpec_Validate_nil_iff (c : ReportSpec) :
    c.Validate = none ↔
      (c.Type' = lit "account" ∨ c.Type' = lit "fills") ∧
      (c.Type' = lit "fills" → c.ProductID ≠ []) ∧
      (c.Type' = lit "account" → c.AccountID ≠ []) ∧
      (c.Format = lit "pdf" ∨ c.Format = lit "csv") ∧
      c.EndDate.IsZero = false ∧ c.StartDate.IsZero = false := by
  unfold ReportSpec.Validate ReportTypeAccount ReportTypeFills ReportFormatPDF ReportFormatCSV
  by_cases h1 : c.Type' ≠ lit "account" ∧ c.Type' ≠ lit "fills"
  · rw [if_pos h1]
    simp only [reduceCtorEq, false_iff, not_and]
    intro h
    rcases h with h | h
    · exact absurd h h1.1
    · exact absurd h h1.2
  rw [if_neg h1]
  have ht : c.Type' = lit "account" ∨ c.Type' = lit "fills" := by
    by_cases ha : c.Type' = lit "account"
    · exact Or.inl ha
    · by_cases hf : c.Type' = lit "fills"
      · exact Or.inr hf
      · exact absurd ⟨ha, hf⟩ h1
  by_cases h2 : c.Type' = lit "fills" ∧ c.ProductID = []
  · rw [if_pos h2]
    simp only [reduceCtorEq, false_iff]
    intro h
    exact h.2.1 h2.1 h2.2
  rw [if_neg h2]
  by_cases h3 : c.Type' = lit "account" ∧ c.AccountID = []
  · rw [if_pos h3]
    simp only [reduceCtorEq, false_iff]
    intro h
    exact h.2.2.1 h3.1 h3.2
  rw [if_neg h3]
  by_cases h4 : c.Format ≠ lit "pdf" ∧ c.Format ≠ lit "csv"
  · rw [if_pos h4]
    simp only [reduceCtorEq, false_iff]
    intro h
    rcases h.2.2.2.1 with h | h
    · exact h4.1 h
    · exact h4.2 h
  rw [if_neg h4]
  have hf : c.Format = lit "pdf" ∨ c.Format = lit "csv" := by
    by_cases ha : c.Format = lit "pdf"
    · exact Or.inl ha
    · by_cases hc : c.Format = lit "csv"
      · exact Or.inr hc
      · exact absurd ⟨ha, hc⟩ h4
  cases h5 : c.EndDate.IsZero with
  | true => simp
  | false =>
    cases h6 : c.StartDate.IsZero with
    | true => simp
    | false =>
      simp only [Bool.false_eq_true, if_false, true_iff]
      exact ⟨ht, fun a b => h2 ⟨a, b⟩, fun a b => h3 ⟨a, b⟩, hf, trivial, trivial⟩

/-! ## The operations with pagination -/

/-- The two operations that validate: when `Validate` refuses the parameters,
`GetLedger` and `GetHolds` return that error and ask the API for nothing. -/
theorem GetLedger_GetHolds_validate {T : Type} (c : Client T) (accountID : GoString)
    (pagination : PaginationParams) (err : Err) (h : pagination.Validate = some err) :
    (c.GetLedger accountID pagination).calls = [] ∧
    (c.GetLedger accountID pagination).err = some err ∧
    (c.GetHolds accountID pagination).calls = [] ∧
    (c.GetHolds accountID pagination).err = some err := by
  simp [Client.GetLedger, Client.GetHolds, h]

/-- C11 at parameters with both cursors set: `Validate` refuses them, yet
`GetOrders`, `GetFills`, `GetProductTrades`, `GetDeposits` and `GetWithdrawals`
ask the API with them and return what the API returns, here nil. -/
theorem GetOrders_does_not_validate :
    bothCursors.Validate = some (.other "only one of \x27before\x27 or \x27after\x27 allowed") ∧
    (((quietClient Unit ()).GetOrders [] bothCursors).calls = [lit "/orders/?before=b&after=a"] ∧
      ((quietClient Unit ()).GetOrders [] bothCursors).err = none) ∧
    (((quietClient Unit ()).GetFills [] bothCursors).calls = [lit "/fills/?before=b&after=a"] ∧
      ((quietClient Unit ()).GetFills [] bothCursors).err = none) ∧
    (((quietClient Unit ()).GetProductTrades (lit "BTC-USD") bothCursors).calls
        = [lit "/products/BTC-USD/trades/?before=b&after=a"] ∧
      ((quietClient Unit ()).GetProductTrades (lit "BTC-USD") bothCursors).err = none) ∧
    (quietClient (List (Option Transfer)) []).GetDeposits [] bothCursors
      = .returns ⟨[lit "/transfers/?before=b&after=a"], .paged [] (some ⟨[], []⟩), none⟩ ∧
    (quietClient (List (Option Transfer)) []).GetWithdrawals [] bothCursors
      = .returns ⟨[lit "/transfers/?before=b&after=a"], .paged [] (some ⟨[], []⟩), none⟩ := by
  decide

/-! ## The feed relay -/

theorem WatchInv_start (socket : List (JSON × Option Err)) : WatchInv (Watch.start socket) := by
  refine ⟨Or.inl rfl, Or.inl rfl, ?_⟩
  intro h
  exact absurd h (by simp [Watch.start])

theorem WatchInv_step (st st' : Watch) (ev : Event) (hinv : WatchInv st)
    (h : st.step ev = some st') : WatchInv st' := by
  obtain ⟨h1, h2, h3⟩ := hinv
  cases ev <;> simp only [Watch.step] at h
  · -- read
    split at h
    · cases h
      rename_i hr _
      exact ⟨h1, h2, fun hh => by simp at hh⟩
    · cases h
  · -- handoff
    split at h
    · cases h
      exact ⟨h1, h2, fun hh => by simp at hh⟩
    · cases h
  · -- readerDone
    split at h
    · cases h
      rename_i e hr hc
      have he : e = Canceled := by
        rcases h1 with h1 | h1
        · rw [h1] at hc; cases hc
        · rw [h1] at hc; cases hc; rfl
      subst he
      have hf : (st.first.orElse fun _ => some Canceled) = some Canceled := by
        rcases h2 with h2 | h2 <;> rw [h2] <;> rfl
      exact ⟨h1, Or.inr hf, fun _ => hf⟩
    · cases h
  · -- closed
    split at h
    · cases h
      rename_i hr hw
      refine ⟨h1, h2, fun _ => h3 ?_⟩
      rw [hr]
      trivial
    · cases h
  · -- writerDone
    split at h
    · cases h
      rename_i e hw hc
      have he : e = Canceled := by
        rcases h1 with h1 | h1
        · rw [h1] at hc; cases hc
        · rw [h1] at hc; cases hc; rfl
      subst he
      have hf : (st.first.orElse fun _ => some Canceled) = some Canceled := by
        rcases h2 with h2 | h2 <;> rw [h2] <;> rfl
      exact ⟨h1, Or.inr hf, fun _ => hf⟩
    · cases h
  · -- deliver
    split at h
    · cases h
      exact ⟨h1, h2, h3⟩
    · cases h
  · -- drop
    split at h
    · cases h
      exact ⟨h1, h2, h3⟩
    · cases h
  · -- cancel
    split at h
    · cases h
      exact ⟨Or.inr rfl, h2, h3⟩
    · cases h

theorem WatchInv_run (events : List Event) :
    ∀ (st st' : Watch), WatchInv st → st.run events = some st' → WatchInv st' := by
  induction events with
  | nil =>
    intro st st' hinv h
    simp only [Watch.run] at h
    cases h
    exact hinv
  | cons ev rest ih =>
    intro st st' hinv h
    simp only [Watch.run] at h
    cases hs : st.step ev with
    | none => rw [hs] at h; cases h
    | some st1 =>
      rw [hs] at h
      exact ih st1 st' (WatchInv_step st st1 ev hinv hs) h

/-- In no run does `watch` return an error of the socket: when it has returned,
it has returned `context.Canceled`. -/
theorem watch_returns_only_Canceled (socket : List (JSON × Option Err)) (events : List Event)
    (st : Watch) (h : (Watch.start socket).run events = some st) :
    st.result = none ∨ st.result = some (some Canceled) := by
  obtain ⟨_, _, h3⟩ := WatchInv_run events _ st (WatchInv_start socket) h
  unfold Watch.result
  split
  · rename_i hr hw
    right
    rw [h3 (by rw [hr]; trivial)]
  · left; rfl

/-- C17 at a socket whose first read fails with `e`: the reader sends the error
`e` itself on `messages`, the writer passes it to the consumer of
`feed.Messages`, the reader is back in `ReadJSON`, and `watch` has not
returned. -/
theorem watch_read_error_is_delivered (v : JSON) (e : Err) :
    (Watch.start [(v, some e)]).run [.read, .handoff, .deliver]
      = some (Watch.mk [] none .reading .waiting none [] [.error e]) ∧
    (Watch.result (Watch.mk [] none .reading .waiting none [] [.error e])) = none :=
  ⟨rfl, rfl⟩

/-- C18 at a socket that gives one frame and then is silent: after the frame
was delivered and the caller cancelled, the reader is inside `ReadJSON` and the
writer waits for a message; no step is possible and `watch` has not
returned. -/
theorem watch_cancel_silent_socket (v : JSON) (ev : Event) :
    (Watch.start [(v, none)]).run [.read, .handoff, .deliver, .cancel]
      = some (Watch.mk [] (some Canceled) .reading .waiting none [v] [.frame v]) ∧
    Watch.step (Watch.mk [] (some Canceled) .reading .waiting none [v] [.frame v]) ev = none ∧
    Watch.result (Watch.mk [] (some Canceled) .reading .waiting none [v] [.frame v])
      = none := by
  refine ⟨rfl, ?_, rfl⟩
  cases ev <;> rfl

/-- C19 at a socket that gives a frame and then fails with `e`: the consumer
receives the frame and then the error `e`, which is no frame that was read:
the values delivered are not a subsequence of the frames read. -/
theorem watch_delivers_error_value (v w : JSON) (e : Err) :
    (Watch.start [(v, none), (w, some e)]).run
        [.read, .handoff, .deliver, .read, .handoff, .deliver]
      = some (Watch.mk [] none .reading .waiting none [v] [.frame v, .error e]) ∧
    ¬ List.Sublist [Message.frame v, Message.error e] ([v].map Message.frame) := by
  refine ⟨rfl, ?_⟩
  intro h
  have := h.length_le
  simp at this

/-! ## `DevelopmentClient.Do` and `APIClient.Do` -/

namespace phizog

mutual
theorem AddShape_no_error (name : GoString) : ∀ (j : JSON) (s : Store),
    (s.AddShape name j).2 = none
  | .array items, s => by rw [Store.AddShape]; exact AddShapes_no_error name items s
  | .object members, s => by rw [Store.AddShape]; rfl
  | .null, s => by rw [Store.AddShape]
  | .bool _, s => by rw [Store.AddShape]
  | .number _, s => by rw [Store.AddShape]
  | .string _, s => by rw [Store.AddShape]
theorem AddShapes_no_error (name : GoString) : ∀ (items : List JSON) (s : Store),
    (Store.AddShapes s name items).2 = none
  | [], s => by rw [Store.AddShapes]
  | item :: rest, s => by
    rw [Store.AddShapes]
    have h := AddShape_no_error name item s
    cases hs : Store.AddShape s name item with
    | mk s' err =>
      rw [hs] at h
      simp only at h
      subst h
      exact AddShapes_no_error name rest s'
end

end phizog

theorem Decode_next {T : Type} (env : Env T) (body body' : Body) (result : Result T)
    (h : body.next = body'.next) : Decode env body result = Decode env body' result := by
  unfold Decode
  rw [h]

/-- With a target that is not nil and a response of status below 300 whose body
decodes into the target and is closed without error, `Do` returns what
`paginate` returns when the response carries both pagination headers, and the
decoded target with nil otherwise. -/
theorem Do_decoded {T : Type} (a : APIClient) (env : Env T) (w w' : World)
    (method relativePath : GoString) (content : Option Content) (result : Result T)
    (resp : Response)
    (hsend : a.send env w method relativePath content = (w', .ok resp))
    (hstatus : resp.StatusCode < 300) (hclose : resp.Body.Close = none)
    (hnil : result ≠ .nil)
    (hdecode : (Decode env resp.Body result).2 = none) :
    (a.Do env w method relativePath content result).2
      = .returns (if isPaged resp then paginate resp (Decode env resp.Body result).1
          else ((Decode env resp.Body result).1, none)) := by
  have hdd : Decode env resp.Body result = ((Decode env resp.Body result).1, none) :=
    Prod.ext rfl hdecode
  unfold APIClient.Do APIClient.do
  rw [hsend]
  simp only [ge_iff_le, not_le.mpr hstatus, if_false, hclose, Capture]
  cases result with
  | nil => exact absurd rfl hnil
  | rawMessage m =>
    rw [hdd]
    by_cases hpg : isPaged resp = true
    · simp only [hpg, if_true]
      cases paginate resp (Decode env resp.Body (Result.rawMessage m)).1 with
      | mk r e => cases e <;> rfl
    · simp only [hpg, if_false, Bool.false_eq_true]
  | paged v page =>
    rw [hdd]
    by_cases hpg : isPaged resp = true
    · simp only [hpg, if_true]
      cases paginate resp (Decode env resp.Body (Result.paged v page)).1 with
      | mk r e => cases e <;> rfl
    · simp only [hpg, if_false, Bool.false_eq_true]
  | plain v =>
    rw [hdd]
    by_cases hpg : isPaged resp = true
    · simp only [hpg, if_true]
      cases paginate resp (Decode env resp.Body (Result.plain v)).1 with
      | mk r e => cases e <;> rfl
    · simp only [hpg, if_false, Bool.false_eq_true]
  | slice v =>
    rw [hdd]
    by_cases hpg : isPaged resp = true
    · simp only [hpg, if_true]
      cases paginate resp (Decode env resp.Body (Result.slice v)).1 with
      | mk r e => cases e <;> rfl
    · simp only [hpg, if_false, Bool.false_eq_true]

/-- With a target that is not nil and a response of status below 300 whose body
does not decode into the target, `Do` panics. -/
theorem Do_undecoded {T : Type} (a : APIClient) (env : Env T) (w w' : World)
    (method relativePath : GoString) (content : Option Content) (result : Result T)
    (resp : Response) (err : Err)
    (hsend : a.send env w method relativePath content = (w', .ok resp))
    (hstatus : resp.StatusCode < 300) (hnil : result ≠ .nil)
    (hdecode : (Decode env resp.Body result).2 = some err) :
    (a.Do env w method relativePath content result).2
      = .panics "invalid memory address or nil pointer dereference" := by
  have hdd : Decode env resp.Body result = ((Decode env resp.Body result).1, some err) :=
    Prod.ext rfl hdecode
  unfold APIClient.Do APIClient.do
  rw [hsend]
  simp only [ge_iff_le, not_le.mpr hstatus, if_false]
  cases result with
  | nil => exact absurd rfl hnil
  | rawMessage m => rw [hdd]
  | paged v page => rw [hdd]
  | plain v => rw [hdd]
  | slice v => rw [hdd]


/-- What `do` with the raw message of `DevelopmentClient.Do` returns for a response
of status below 300 whose body holds a JSON value and is closed without
error. -/
theorem do_rawMessage {T : Type} (a : APIClient) (env : Env T) (w w' : World)
    (method relativePath : GoString) (content : Option Content) (resp : Response) (doc : Doc)
    (hsend : a.send env w method relativePath content = (w', .ok resp))
    (hstatus : resp.StatusCode < 300) (hnext : resp.Body.next = .ok doc)
    (hclose : resp.Body.Close = none) :
    a.do env w method relativePath content (.rawMessage [])
      = (w', .returns (.rawMessage doc.raw, some resp, none)) := by
  have hraw : Decode env resp.Body (.rawMessage []) = (.rawMessage doc.raw, none) := by
    unfold Decode
    rw [hnext]
  unfold APIClient.do
  rw [hsend]
  simp only [ge_iff_le, not_le.mpr hstatus, if_false, hraw, hclose, Capture]

/-- When `json.Unmarshal(rawMessage, &result)` returns an error, `DevelopmentClient.Do`
panics. -/
theorem DevelopmentClient_Do_undecoded {T : Type} (d : DevelopmentClient) (env : Env T)
    (denv : DevEnv T) (w w' : World) (method relativePath : GoString)
    (content : Option Content) (result : Result T) (resp : Response) (doc : Doc) (err : Err)
    (hdo : d.api.do env w method relativePath content (.rawMessage [])
      = (w', .returns (.rawMessage doc.raw, some resp, none)))
    (hparse : denv.Unmarshal doc.raw = .ok doc.value)
    (hu : (unmarshalResult env doc.raw doc.value result).2 = some err) :
    observed (d.Do env denv w method relativePath content result)
      = .panics "json.Unmarshal(rawMessage, &result)" := by
  have huu : unmarshalResult env doc.raw doc.value result
      = ((unmarshalResult env doc.raw doc.value result).1, some err) := Prod.ext rfl hu
  unfold DevelopmentClient.Do
  rw [hdo]
  simp only [hparse]
  have hadd := phizog.AddShape_no_error (denv.Dir relativePath) doc.value d.store
  cases hs : d.store.AddShape (denv.Dir relativePath) doc.value with
  | mk store e =>
    rw [hs] at hadd
    simp only at hadd
    subst hadd
    simp only
    rw [huu]
    rfl

/-- When `json.Unmarshal(rawMessage, &result)` returns nil and the result can be
encoded again, `DevelopmentClient.Do` returns: the caller has the target as
`mapstructure.Decode` left it when the response carries both pagination
headers, and as `json.Unmarshal` left it otherwise, with the error of
`mapstructure.Decode`, if any. -/
theorem DevelopmentClient_Do_decoded {T : Type} (d : DevelopmentClient) (env : Env T)
    (denv : DevEnv T) (w w' : World) (method relativePath : GoString)
    (content : Option Content) (result : Result T) (resp : Response) (doc : Doc)
    (hdo : d.api.do env w method relativePath content (.rawMessage [])
      = (w', .returns (.rawMessage doc.raw, some resp, none)))
    (hparse : denv.Unmarshal doc.raw = .ok doc.value)
    (hmarshal : ∀ loc, ∃ b j, denv.Marshal loc = .ok b ∧ denv.Unmarshal b = .ok j)
    (hu : (unmarshalResult env doc.raw doc.value result).2 = none) :
    observed (d.Do env denv w method relativePath content result)
      = .returns
          (if isPaged resp then
            ((mapstructureDecodeLocal
                ⟨resp.Header.Get (lit "CB-BEFORE"), resp.Header.Get (lit "CB-AFTER")⟩
                (unmarshalResult env doc.raw doc.value result).1).1.caller,
             (mapstructureDecodeLocal
                ⟨resp.Header.Get (lit "CB-BEFORE"), resp.Header.Get (lit "CB-AFTER")⟩
                (unmarshalResult env doc.raw doc.value result).1).2)
          else ((unmarshalResult env doc.raw doc.value result).1.caller, none)) := by
  have huu : unmarshalResult env doc.raw doc.value result
      = ((unmarshalResult env doc.raw doc.value result).1, none) := Prod.ext rfl hu
  unfold DevelopmentClient.Do
  rw [hdo]
  simp only [hparse]
  have hadd := phizog.AddShape_no_error (denv.Dir relativePath) doc.value d.store
  cases hs : d.store.AddShape (denv.Dir relativePath) doc.value with
  | mk store e =>
    rw [hs] at hadd
    simp only at hadd
    subst hadd
    simp only
    rw [huu]
    simp only
    by_cases hpg : isPaged resp = true
    · simp only [hpg, if_true]
      cases hm : mapstructureDecodeLocal
          ⟨resp.Header.Get (lit "CB-BEFORE"), resp.Header.Get (lit "CB-AFTER")⟩
          (unmarshalResult env doc.raw doc.value result).1 with
      | mk loc e =>
        cases e with
        | some e => rfl
        | none =>
          obtain ⟨b, j, hb, hj⟩ := hmarshal loc
          simp only [hb, hj, observed]
          rw [phizog.AddShape_no_error]
    · simp only [hpg, if_false, Bool.false_eq_true]
      obtain ⟨b, j, hb, hj⟩ := hmarshal (unmarshalResult env doc.raw doc.value result).1
      simp only [hb, hj, observed]
      rw [phizog.AddShape_no_error]


/-- On a target that is not a raw message, `paginate` is `mapstructure.Decode`. -/
theorem paginate_Decode {T : Type} (env : Env T) (resp : Response) (result : Result T)
    (doc : Doc) (hnext : resp.Body.next = .ok doc) (hraw : ∀ m, result ≠ .rawMessage m) :
    paginate resp (Decode env resp.Body result).1
      = mapstructureDecode ⟨resp.Header.Get (lit "CB-BEFORE"), resp.Header.Get (lit "CB-AFTER")⟩
          (Decode env resp.Body result).1 := by
  unfold Decode
  rw [hnext]
  cases result with
  | nil => rfl
  | rawMessage m => exact absurd rfl (hraw m)
  | paged v page => rfl
  | plain v => rfl
  | slice v => rfl

/-- Where the two clients differ on a response with both pagination headers,
of status below 300, whose body holds a JSON object and is closed without
error.  With a nil target `APIClient.Do` returns the error of `mapstructure`
and `DevelopmentClient.Do` returns nil; with a raw message as target
`APIClient.Do` returns nil and `DevelopmentClient.Do` returns the error of
`mapstructure`. -/
theorem DevelopmentClient_Do_paged_differs {T : Type} (d : DevelopmentClient) (env : Env T)
    (denv : DevEnv T) (w w' : World) (method relativePath : GoString)
    (content : Option Content) (resp : Response) (raw m : GoString)
    (members : List (GoString × JSON))
    (hsend : d.api.send env w method relativePath content = (w', .ok resp))
    (hstatus : resp.StatusCode < 300)
    (hnext : resp.Body.next = .ok ⟨raw, .object members⟩)
    (hclose : resp.Body.Close = none)
    (hparse : denv.Unmarshal raw = .ok (.object members))
    (hmarshal : ∀ loc, ∃ b j, denv.Marshal loc = .ok b ∧ denv.Unmarshal b = .ok j)
    (hpaged : isPaged resp = true) :
    (d.api.Do env w method relativePath content Result.nil).2
      = .returns (Result.nil, some (.other "result must be a pointer")) ∧
    observed (d.Do env denv w method relativePath content Result.nil)
      = .returns (Result.nil, none) ∧
    (d.api.Do env w method relativePath content (Result.rawMessage m)).2
      = .returns (Result.rawMessage raw, none) ∧
    observed (d.Do env denv w method relativePath content (Result.rawMessage m))
      = .returns (Result.rawMessage raw,
          some (.other "\x27\x27: source data must be an array or slice, got struct")) := by
  have hdo := do_rawMessage d.api env w w' method relativePath content resp _ hsend hstatus
    hnext hclose
  have hdec : Decode env resp.Body (Result.rawMessage m) = (Result.rawMessage raw, none) := by
    unfold Decode
    rw [hnext]
  refine ⟨?_, ?_, ?_, ?_⟩
  · unfold APIClient.Do APIClient.do
    rw [hsend]
    simp only [ge_iff_le, not_le.mpr hstatus, if_false, hclose, Capture, hpaged, if_true]
    rfl
  · rw [DevelopmentClient_Do_decoded d env denv w w' method relativePath content Result.nil resp
      _ hdo hparse hmarshal rfl]
    simp only [hpaged, if_true]
    rfl
  · rw [Do_decoded d.api env w w' method relativePath content _ resp hsend hstatus hclose
      (by simp) (by rw [hdec])]
    simp only [hpaged, if_true, hdec]
    rfl
  · rw [DevelopmentClient_Do_decoded d env denv w w' method relativePath content
      (Result.rawMessage m) resp _ hdo hparse hmarshal rfl]
    simp only [hpaged, if_true]
    rfl

/-- C16 fails as stated, at a response of status 200 whose body holds no JSON
value, with a nil target: `APIClient.Do` does not read the body and returns
nil, while `DevelopmentClient.Do` has `do` decode the body into its raw message
and panics, in the deferred `resp.Body.Close()` of `do`. -/
theorem DevelopmentClient_Do_differs :
    ((testClient ⟨200, [], emptyBody⟩).Do testEnv ⟨0, []⟩ (lit "DELETE") (lit "/orders/") none
        Result.nil).2 = .returns (Result.nil, none) ∧
    observed (DevelopmentClient.Do ⟨testClient ⟨200, [], emptyBody⟩, phizog.NewStore⟩
        testEnv testDevEnv ⟨0, []⟩ (lit "DELETE") (lit "/orders/") none Result.nil)
      = .panics "invalid memory address or nil pointer dereference" := by
  decide

/-- C16, amended: for a response that was received, `DevelopmentClient.Do` and
`APIClient.Do` end the same way for the caller
* when the status is 300 or more: both return the same error and leave the
  target;
* when the status is below 300, the target is not nil and no JSON value can be
  read from the body: both panic, in the deferred close of `do`;
* when the status is below 300, the body holds a JSON value that
  `json.Unmarshal` accepts and is closed without error, the result can be
  encoded and decoded again, the response does not carry both pagination
  headers if the target is nil or a raw message, and the value is not `null`
  if the target is not nil: both return the same error and leave the same
  target, with the same `Page`, or both panic; and `APIClient.Do` returns when
  the target is nil or the body decodes into it. -/
theorem DevelopmentClient_Do_as_APIClient_Do {T : Type} (d : DevelopmentClient) (env : Env T)
    (denv : DevEnv T) (w w' : World) (method relativePath : GoString)
    (content : Option Content) (result : Result T) (resp : Response)
    (hsend : d.api.send env w method relativePath content = (w', .ok resp)) :
    (resp.StatusCode ≥ 300 →
      observed (d.Do env denv w method relativePath content result)
        = (d.api.Do env w method relativePath content result).2) ∧
    (∀ err : Err, resp.StatusCode < 300 → resp.Body.next = .error err → result ≠ .nil →
      observed (d.Do env denv w method relativePath content result)
        = .panics "invalid memory address or nil pointer dereference" ∧
      (d.api.Do env w method relativePath content result).2
        = .panics "invalid memory address or nil pointer dereference") ∧
    (∀ doc : Doc, resp.StatusCode < 300 → resp.Body.next = .ok doc →
      resp.Body.Close = none →
      denv.Unmarshal doc.raw = .ok doc.value →
      (∀ loc, ∃ b j, denv.Marshal loc = .ok b ∧ denv.Unmarshal b = .ok j) →
      (result = .nil → isPaged resp = false) →
      (∀ m, result = .rawMessage m → isPaged resp = false) →
      (result ≠ .nil → doc.value.isNull = false) →
      Outcome.same (observed (d.Do env denv w method relativePath content result))
        (d.api.Do env w method relativePath content result).2 ∧
      ((result = .nil ∨ (Decode env resp.Body result).2 = none) →
        ∃ x, (d.api.Do env w method relativePath content result).2 = .returns x)) := by
  refine ⟨?_, ?_, ?_⟩
  · intro hstatus
    unfold DevelopmentClient.Do APIClient.Do APIClient.do
    rw [hsend]
    simp only [hstatus, if_true]
    cases hde : DecodeError resp.Body { StatusCode := resp.StatusCode, Message := [] } with
    | mk e oerr =>
      cases oerr <;> simp [observed]
  · intro err hstatus hnext hnil
    have hdec : ∀ r : Result T, r ≠ .nil → (Decode env resp.Body r).2 = some err := by
      intro r hr
      unfold Decode
      rw [hnext]
    refine ⟨?_, Do_undecoded d.api env w w' method relativePath content result resp err hsend
      hstatus hnil (hdec result hnil)⟩
    have hdd : Decode env resp.Body (.rawMessage []) = (.rawMessage [], some err) := by
      unfold Decode
      rw [hnext]
    unfold DevelopmentClient.Do APIClient.do
    rw [hsend]
    simp only [ge_iff_le, not_le.mpr hstatus, if_false, hdd]
    rfl
  · intro doc hstatus hnext hclose hparse hmarshal hnilp hrawp hnull
    have hdo := do_rawMessage d.api env w w' method relativePath content resp doc hsend hstatus
      hnext hclose
    have hbody : ∀ r : Result T,
        Decode env ⟨.ok ⟨doc.raw, doc.value⟩, none⟩ r = Decode env resp.Body r := by
      intro r
      apply Decode_next
      rw [hnext]
    by_cases hnil : result = .nil
    · subst hnil
      have hp := hnilp rfl
      have hu : unmarshalResult env doc.raw doc.value (Result.nil : Result T)
          = (⟨.nil, if doc.value.isNull then .null else .value doc.value⟩, none) := by
        unfold unmarshalResult
        split <;> rfl
      rw [DevelopmentClient_Do_decoded d env denv w w' method relativePath content _ resp doc hdo
        hparse hmarshal (by rw [hu]),
        Do_nil_result_unpaged d.api env w w' method relativePath content resp hsend hstatus hp,
        hclose, hu]
      simp only [hp, Bool.false_eq_true, if_false]
      exact ⟨rfl, fun _ => ⟨_, rfl⟩⟩
    · have hn := hnull hnil
      have hu : unmarshalResult env doc.raw doc.value result
          = (⟨(Decode env resp.Body result).1, .pointer⟩, (Decode env resp.Body result).2) := by
        unfold unmarshalResult
        rw [hn]
        cases result with
        | nil => exact absurd rfl hnil
        | rawMessage m => simp only [hbody]; rfl
        | paged v page => simp only [hbody]; rfl
        | plain v => simp only [hbody]; rfl
        | slice v => simp only [hbody]; rfl
      cases hd : (Decode env resp.Body result).2 with
      | some e =>
        rw [DevelopmentClient_Do_undecoded d env denv w w' method relativePath content result resp
          doc e hdo hparse (by rw [hu]; exact hd),
          Do_undecoded d.api env w w' method relativePath content result resp e hsend hstatus
            hnil hd]
        refine ⟨trivial, ?_⟩
        intro h
        rcases h with h | h
        · exact absurd h hnil
        · cases h
      | none =>
        rw [DevelopmentClient_Do_decoded d env denv w w' method relativePath content result resp
          doc hdo hparse hmarshal (by rw [hu]; exact hd),
          Do_decoded d.api env w w' method relativePath content result resp hsend hstatus hclose
            hnil hd, hu]
        refine ⟨?_, fun _ => ⟨_, rfl⟩⟩
        by_cases hpg : isPaged resp = true
        · have hraw : ∀ m, result ≠ .rawMessage m := by
            intro m hm
            have := hrawp m hm
            rw [hpg] at this
            cases this
          simp only [hpg, if_true, Outcome.same]
          rw [paginate_Decode env resp result doc hnext hraw]
          rfl
        · simp only [hpg, Bool.false_eq_true, if_false, Outcome.same]

/-- The amended C16 at a response `200` with `CB-BEFORE: b`, `CB-AFTER: a` and the
body `{}`, and a target with a nil `Page`: both clients return nil and leave
`Page` as `{Before: b, After: a}`. -/
theorem DevelopmentClient_Do_as_APIClient_Do_witness :
    Outcome.same
      (observed (DevelopmentClient.Do
        ⟨testClient (pagedResponse 200 emptyObject), phizog.NewStore⟩
        testEnv testDevEnv ⟨0, []⟩ (lit "GET") (lit "/accounts/1/ledger/") none
        (Result.paged () none)))
      ((testClient (pagedResponse 200 emptyObject)).Do testEnv ⟨0, []⟩ (lit "GET")
        (lit "/accounts/1/ledger/") none (Result.paged () none)).2 :=
  ((DevelopmentClient_Do_as_APIClient_Do
    ⟨testClient (pagedResponse 200 emptyObject), phizog.NewStore⟩
    testEnv testDevEnv ⟨0, []⟩
    ((testClient (pagedResponse 200 emptyObject)).send testEnv ⟨0, []⟩ (lit "GET")
      (lit "/accounts/1/ledger/") none).1
    (lit "GET") (lit "/accounts/1/ledger/") none (Result.paged () none)
    (pagedResponse 200 emptyObject)
    (Prod.ext rfl (testClient_send _ _ _))).2.2
    ⟨lit "\x7b\x7d", .object []⟩ (by decide) rfl rfl rfl
    (fun _ => ⟨lit "\x7b\x7d", .object [], rfl, rfl⟩)
    (fun h => by cases h) (fun m h => by cases h) (fun _ => rfl)).1

/-! ## Writing a store and loading it again -/

namespace json

theorem coerceFrom_of_valid (s : List Byte) : ∀ skip, utf8.validFrom skip s = true →
    coerceFrom skip s = s := by
  induction s with
  | nil => intro skip _; cases skip <;> rfl
  | cons c rest ih =>
    intro skip h
    cases skip with
    | succ k =>
      rw [utf8.validFrom] at h
      rw [coerceFrom, ih k h]
    | zero =>
      rw [utf8.validFrom] at h
      rw [coerceFrom]
      cases hr : utf8.runeLen (c :: rest) with
      | none => rw [hr] at h; simp at h
      | some n =>
        rw [hr] at h
        simp only at h ⊢
        rw [ih (n - 1) h]

/-- A string that is valid UTF-8 is written as a JSON string that denotes it. -/
theorem str_of_valid (s : GoString) (h : utf8.ValidString s = true) : str s = s :=
  coerceFrom_of_valid s 0 h

end json

theorem byte_digit_val (n : Nat) (h : n < 10) : (byte (48 + n)).val = 48 + n := by
  simp only [byte]
  omega

theorem parseDigits_append (D : List Byte) (hD : ∀ c ∈ D, 48 ≤ c.val ∧ c.val ≤ 57) :
    ∃ v k : Nat, ∀ a rest, parseDigits (D ++ rest) a = parseDigits rest (a * 10 ^ k + v) := by
  induction D with
  | nil => exact ⟨0, 0, fun a rest => by simp⟩
  | cons c D ih =>
    obtain ⟨v, k, h⟩ := ih (fun x hx => hD x (List.mem_cons_of_mem _ hx))
    refine ⟨(c.val - 48) * 10 ^ k + v, k + 1, fun a rest => ?_⟩
    rw [List.cons_append, parseDigits, if_pos (hD c (List.mem_cons_self _ _)), h]
    congr 1
    ring

theorem digits_spec (fuel : Nat) : ∀ n acc, n < 10 ^ fuel →
    ∃ D : List Byte, digits fuel n acc = D ++ acc ∧ (∀ c ∈ D, 48 ≤ c.val ∧ c.val ≤ 57) ∧
      (0 < fuel → D ≠ []) ∧
      ∃ k, ∀ a rest, parseDigits (D ++ rest) a = parseDigits rest (a * 10 ^ k + n) := by
  induction fuel with
  | zero =>
    intro n acc h
    have hn : n = 0 := by simpa using h
    subst hn
    exact ⟨[], rfl, by simp, by simp, 0, fun a rest => by simp⟩
  | succ fuel ih =>
    intro n acc h
    rw [digits]
    by_cases h10 : n < 10
    · rw [if_pos h10]
      refine ⟨[byte (48 + n)], rfl, ?_, by simp, 1, fun a rest => ?_⟩
      · intro c hc
        rw [List.mem_singleton] at hc
        subst hc
        rw [byte_digit_val n h10]
        omega
      · have hv := byte_digit_val n h10
        rw [List.singleton_append, parseDigits, if_pos (by omega), hv]
        congr 1
        omega
    · rw [if_neg h10]
      have hlt : n / 10 < 10 ^ fuel := by
        rw [Nat.div_lt_iff_lt_mul (by decide)]
        rw [pow_succ] at h
        exact h
      obtain ⟨D, hD, hdig, _, k, hk⟩ := ih (n / 10) (byte (48 + n % 10) :: acc) hlt
      have hm : n % 10 < 10 := Nat.mod_lt _ (by decide)
      have hv := byte_digit_val (n % 10) hm
      refine ⟨D ++ [byte (48 + n % 10)], by rw [hD]; simp, ?_, by simp, k + 1,
        fun a rest => ?_⟩
      · intro c hc
        rw [List.mem_append, List.mem_singleton] at hc
        rcases hc with hc | hc
        · exact hdig c hc
        · subst hc
          rw [hv]
          omega
      · rw [List.append_assoc, hk, List.singleton_append, parseDigits, if_pos (by omega), hv]
        congr 1
        have := Nat.div_add_mod n 10
        rw [pow_succ]
        have e : 48 + n % 10 - 48 = n % 10 := by omega
        rw [e]
        nlinarith [this]

/-- The digits `strconv.Itoa` writes for a natural number are read back by the
loop of `ParseUint`. -/
theorem Itoa_spec (n : Nat) :
    Itoa n ≠ [] ∧ (∀ c ∈ Itoa n, 48 ≤ c.val ∧ c.val ≤ 57) ∧ parseDigits (Itoa n) 0 = some n := by
  obtain ⟨D, hD, hdig, hne, k, hk⟩ :=
    digits_spec (n + 1) n [] (lt_trans (Nat.lt_pow_self (by decide) n)
      (Nat.pow_lt_pow_right (by decide) (Nat.lt_succ_self n)))
  unfold Itoa
  rw [hD, List.append_nil]
  refine ⟨hne (Nat.succ_pos n), hdig, ?_⟩
  have := hk 0 []
  rw [List.append_nil] at this
  rw [this]
  simp [parseDigits]

/-- The text `strconv.Itoa` writes for a Go `int` is read back by `ParseInt`. -/
theorem ParseInt_itoa (n : Int) (h : -(2 : Int) ^ 63 ≤ n ∧ n < (2 : Int) ^ 63) :
    ParseInt (itoa n) = some n := by
  cases n with
  | ofNat m =>
    obtain ⟨hne, hdig, hp⟩ := Itoa_spec m
    have hsig : ParseInt (Itoa m) = parseSigned false (Itoa m) := by
      cases hs : Itoa m with
      | nil => exact absurd hs hne
      | cons c rest =>
        have hc := hdig c (by rw [hs]; exact List.mem_cons_self _ _)
        have h45 : c.val ≠ 45 := by omega
        have h43 : c.val ≠ 43 := by omega
        rw [ParseInt, if_neg h45, if_neg h43]
    have hval : parseSigned false (Itoa m) = some (Int.ofNat m) := by
      unfold parseSigned
      cases hs : Itoa m with
      | nil => exact absurd hs hne
      | cons c rest =>
        simp only
        rw [← hs, hp]
        simp only [Bool.false_eq_true, if_false]
        have h2 : -(2 : Int) ^ 63 ≤ (m : Int) ∧ (m : Int) < (2 : Int) ^ 63 := h
        rw [if_pos h2]
        rfl
    show ParseInt (Itoa m) = some (Int.ofNat m)
    rw [hsig, hval]
  | negSucc m =>
    obtain ⟨hne, hdig, hp⟩ := Itoa_spec (m + 1)
    have hl : lit "-" = [byte 45] := by decide
    have h45 : (byte 45).val = 45 := by decide
    have hval : parseSigned true (Itoa (m + 1)) = some (Int.negSucc m) := by
      unfold parseSigned
      cases hs : Itoa (m + 1) with
      | nil => exact absurd hs hne
      | cons c rest =>
        simp only
        rw [← hs, hp]
        simp only [if_true]
        have e : (-((m + 1 : Nat) : Int)) = Int.negSucc m := rfl
        rw [e, if_pos h]
    show ParseInt (lit "-" ++ Itoa (m + 1)) = some (Int.negSucc m)
    rw [hl, List.singleton_append, ParseInt, if_pos h45, hval]

theorem GoMap_set_fresh {V : Type} (m : GoMap V) (k : GoString) (v : V)
    (h : k ∉ m.map Prod.fst) : GoMap.set m k v = m ++ [(k, v)] := by
  induction m with
  | nil => rfl
  | cons e rest ih =>
    obtain ⟨k', v'⟩ := e
    simp only [List.map_cons, List.mem_cons, not_or] at h
    rw [GoMap.set, if_neg (fun hk => h.1 hk.symm), ih h.2]
    rfl

theorem GoMap_foldl_set_fresh {V W : Type} (f : W → V) (l : GoMap W) : ∀ acc : GoMap V,
    (l.map Prod.fst).Nodup → (∀ k ∈ l.map Prod.fst, k ∉ acc.map Prod.fst) →
    l.foldl (fun m e => GoMap.set m e.1 (f e.2)) acc = acc ++ l.map fun e => (e.1, f e.2) := by
  induction l with
  | nil => intro acc _ _; simp
  | cons e rest ih =>
    intro acc hnd hdis
    rw [List.map_cons, List.nodup_cons] at hnd
    rw [List.foldl_cons, GoMap_set_fresh acc e.1 (f e.2) (hdis e.1 (by simp)), ih _ hnd.2]
    · simp
    · intro k hk
      simp only [List.map_append, List.map_cons, List.map_nil, List.mem_append,
        List.mem_singleton, not_or]
      refine ⟨hdis k (by simp [hk]), ?_⟩
      rintro rfl
      exact hnd.1 hk

theorem GoMap_get_map {V W : Type} (f : W → V) (l : GoMap W) (k : GoString) :
    GoMap.get (l.map fun e => (e.1, f e.2)) k = (GoMap.get l k).map f := by
  induction l with
  | nil => rfl
  | cons e rest ih =>
    obtain ⟨k', v'⟩ := e
    simp only [List.map_cons, GoMap.get]
    by_cases hk : k' = k
    · simp [hk]
    · simp [hk, ih]

theorem GoMap_get_eq_some {V : Type} (m : GoMap V) (hnd : (m.map Prod.fst).Nodup)
    (k : GoString) (v : V) : GoMap.get m k = some v ↔ (k, v) ∈ m := by
  induction m with
  | nil => simp [GoMap.get]
  | cons e rest ih =>
    obtain ⟨k', v'⟩ := e
    rw [List.map_cons, List.nodup_cons] at hnd
    rw [GoMap.get]
    by_cases hk : k' = k
    · subst hk
      rw [if_pos rfl]
      constructor
      · intro h
        cases h
        exact List.mem_cons_self _ _
      · intro h
        rcases List.mem_cons.1 h with h | h
        · cases h; rfl
        · exact absurd (List.mem_map_of_mem Prod.fst h) hnd.1
    · rw [if_neg hk, ih hnd.2]
      constructor
      · exact List.mem_cons_of_mem _
      · intro h
        rcases List.mem_cons.1 h with h | h
        · cases h; exact absurd rfl hk
        · exact h

/-- A lookup does not depend on the order of the entries of a map. -/
theorem GoMap_get_perm {V : Type} (m m' : GoMap V) (hp : m.Perm m')
    (hnd : (m.map Prod.fst).Nodup) (k : GoString) : GoMap.get m k = GoMap.get m' k := by
  have hnd' : (m'.map Prod.fst).Nodup := (hp.map Prod.fst).nodup_iff.1 hnd
  apply Option.ext
  intro v
  rw [Option.mem_def, Option.mem_def, GoMap_get_eq_some m hnd, GoMap_get_eq_some m' hnd',
    hp.mem_iff]

namespace json

theorem sortKeys_perm {V : Type} (m : GoMap V) : (sortKeys m).Perm m :=
  List.perm_insertionSort _ _

theorem sortKeys_sorted {V : Type} (m : GoMap V) :
    (sortKeys m).Sorted (fun a b => a.1 ≤ b.1) := by
  haveI : IsTotal (GoString × V) (fun a b => a.1 ≤ b.1) := ⟨fun a b => le_total a.1 b.1⟩
  haveI : IsTrans (GoString × V) (fun a b => a.1 ≤ b.1) := ⟨fun _ _ _ h1 h2 => le_trans h1 h2⟩
  exact List.sorted_insertionSort _ _

/-- Entries that are sorted by key stay as they are when their values are
mapped and they are sorted again. -/
theorem sortKeys_map_sortKeys {V W : Type} (f : V → W) (m : GoMap V) :
    sortKeys ((sortKeys m).map fun e => (e.1, f e.2)) = (sortKeys m).map fun e => (e.1, f e.2) := by
  apply List.Sorted.insertionSort_eq
  have h := sortKeys_sorted m
  unfold List.Sorted at h ⊢
  rw [List.pairwise_map]
  exact h

theorem decodeStrings_keys (l : List GoString) : ∀ (s : set.Strings) (saved : Option Err),
    decodeStrings (l.map fun k => (k, JSON.object [])) s saved = (s.Add l, saved) := by
  induction l with
  | nil => intro s saved; rfl
  | cons k rest ih =>
    intro s saved
    rw [List.map_cons, decodeStrings, ih]
    rfl

theorem mem_norm_keys (o : phizog.Occurrence) (k : GoString) :
    k ∈ (norm o).Shape.Keys.keys ↔ k ∈ o.Shape.Keys.keys := by
  simp only [norm, set.Strings.mem_Add, set.Strings.make, List.not_mem_nil, false_or]
  exact o.Shape.Keys.Slice_perm.mem_iff

theorem encodeStrings_valid (s : set.Strings) (h : ∀ k ∈ s.keys, utf8.ValidString k = true) :
    encodeStrings s = .object (s.Slice.map fun k => (k, JSON.object [])) := by
  unfold encodeStrings
  congr 1
  apply List.map_congr_left
  intro k hk
  rw [str_of_valid k (h k (s.Slice_perm.mem_iff.1 hk))]

theorem decodeElem_encodeOccurrence (o : phizog.Occurrence)
    (hname : utf8.ValidString o.Shape.Name = true)
    (hkeys : ∀ k ∈ o.Shape.Keys.keys, utf8.ValidString k = true)
    (hcount : -(2 : Int) ^ 63 ≤ o.Count ∧ o.Count < (2 : Int) ^ 63) (saved : Option Err) :
    decodeElem (encodeOccurrence o) saved = (norm o, saved) := by
  have h1 : foldName (lit "Name") = lit "NAME" := by decide
  have h2 : ¬ foldName (lit "Keys") = lit "NAME" := by decide
  have h3 : foldName (lit "Keys") = lit "KEYS" := by decide
  have h4 : foldName (lit "Shape") = lit "SHAPE" := by decide
  have h5 : ¬ foldName (lit "Count") = lit "SHAPE" := by decide
  have h6 : foldName (lit "Count") = lit "COUNT" := by decide
  unfold encodeOccurrence encodeShape decodeElem
  rw [encodeStrings_valid o.Shape.Keys hkeys, str_of_valid _ hname]
  simp only [decodeOccurrence, decodeShape, storeShape, storeCount, storeName, storeKeys,
    h1, h2, h3, h4, h5, h6, if_true, if_false, not_false_eq_true, decodeStrings_keys,
    ParseInt_itoa o.Count hcount]
  rfl

theorem encodeOccurrence_norm (o : phizog.Occurrence) :
    encodeOccurrence (norm o) = encodeOccurrence o := by
  unfold encodeOccurrence encodeShape encodeStrings
  rw [set.Strings.Slice_congr (norm o).Shape.Keys o.Shape.Keys (mem_norm_keys o)]
  rfl

theorem decodeShapes_encoded (l : GoMap phizog.Occurrence) :
    ∀ (acc : GoMap phizog.Occurrence) (saved : Option Err),
    (∀ e ∈ l, utf8.ValidString e.1 = true ∧ utf8.ValidString e.2.Shape.Name = true ∧
      (∀ k ∈ e.2.Shape.Keys.keys, utf8.ValidString k = true) ∧
      -(2 : Int) ^ 63 ≤ e.2.Count ∧ e.2.Count < (2 : Int) ^ 63) →
    decodeShapes (l.map fun e => (str e.1, encodeOccurrence e.2)) acc saved
      = (l.foldl (fun m e => GoMap.set m e.1 (norm e.2)) acc, saved) := by
  induction l with
  | nil => intro acc saved _; rfl
  | cons e rest ih =>
    intro acc saved h
    obtain ⟨hfp, hname, hkeys, hcount⟩ := h e (List.mem_cons_self _ _)
    rw [List.map_cons, decodeShapes, decodeElem_encodeOccurrence e.2 hname hkeys hcount,
      str_of_valid e.1 hfp, ih _ _ (fun x hx => h x (List.mem_cons_of_mem _ hx))]
    rfl

/-- What `Unmarshal` reads from what was written for a map whose strings are
valid UTF-8: the entries sorted by key, each with the keys of its Shape
sorted. -/
theorem Unmarshal_encodeShapes (m : GoMap phizog.Occurrence)
    (hmap : (m.map Prod.fst).Nodup)
    (h : ∀ e ∈ m, utf8.ValidString e.1 = true ∧ utf8.ValidString e.2.Shape.Name = true ∧
      (∀ k ∈ e.2.Shape.Keys.keys, utf8.ValidString k = true) ∧
      -(2 : Int) ^ 63 ≤ e.2.Count ∧ e.2.Count < (2 : Int) ^ 63) :
    Unmarshal (encodeShapes m) = ((sortKeys m).map fun e => (e.1, norm e.2), none) := by
  unfold encodeShapes Unmarshal
  simp only
  rw [decodeShapes_encoded _ _ _ (fun e he => h e ((sortKeys_perm m).mem_iff.1 he)),
    GoMap_foldl_set_fresh norm _ []
      ((((sortKeys_perm m).map Prod.fst).nodup_iff).2 hmap) (by simp)]
  simp

end json

namespace phizog

set_option maxRecDepth 100000 in
/-- C15 fails as stated, at the store that holds one Shape whose name is the
byte `ff`, which is not valid UTF-8: what was written is decoded without error
and under the same fingerprint, but the name that is loaded is `EF BF BD`, the
encoding of U+FFFD, so the pairs are not the same. -/
theorem Write_Load_changes_Name :
    (badName.shapes.map fun e => e.2.Shape.Name) = [[byte 0xff]] ∧
    (json.Unmarshal badName.Write.1).2 = none ∧
    (((NewStore.Load (json.Unmarshal badName.Write.1).1).1.shapes.map
      fun e => e.2.Shape.Name) = [[byte 0xEF, byte 0xBF, byte 0xBD]]) ∧
    ((NewStore.Load (json.Unmarshal badName.Write.1).1).1.shapes.map Prod.fst
      = badName.shapes.map Prod.fst) ∧
    ¬ samePairs badName.shapes (NewStore.Load (json.Unmarshal badName.Write.1).1).1.shapes := by
  refine ⟨by decide, by decide, by decide, by decide, ?_⟩
  intro h
  have h0 := h ((badName.shapes.map Prod.fst).headD [])
  have e1 : (GoMap.get badName.shapes ((badName.shapes.map Prod.fst).headD [])).map
      (fun o => o.Shape.Name) = some [byte 0xff] := by decide
  have e2 : (GoMap.get (NewStore.Load (json.Unmarshal badName.Write.1).1).1.shapes
      ((badName.shapes.map Prod.fst).headD [])).map (fun o => o.Shape.Name)
        = some [byte 0xEF, byte 0xBF, byte 0xBD] := by decide
  cases hg : GoMap.get badName.shapes ((badName.shapes.map Prod.fst).headD []) with
  | none => rw [hg] at e1; simp at e1
  | some o =>
    cases hg' : GoMap.get (NewStore.Load (json.Unmarshal badName.Write.1).1).1.shapes
        ((badName.shapes.map Prod.fst).headD []) with
    | none => rw [hg'] at e2; simp at e2
    | some o' =>
      rw [hg] at e1 h0
      rw [hg'] at e2 h0
      simp only [Option.map_some', Option.some.injEq] at e1 e2
      have hn : o'.Shape.Name = o.Shape.Name := h0.1
      rw [e1, e2] at hn
      exact absurd hn (by decide)

/-- C15, amended: for a store whose map holds each fingerprint once, whose
fingerprints, names and keys are valid UTF-8 and whose counts are in the range
of a Go `int`: what `Write` writes is decoded without error; loaded into any
store it gives the same pairs as `s` (under every fingerprint the same name,
key set and count); and writing the loaded store gives what was written
first. -/
theorem Write_Load_same_pairs (s t : Store)
    (hmap : (s.shapes.map Prod.fst).Nodup)
    (h : ∀ e ∈ s.shapes, utf8.ValidString e.1 = true ∧ utf8.ValidString e.2.Shape.Name = true ∧
      (∀ k ∈ e.2.Shape.Keys.keys, utf8.ValidString k = true) ∧
      -(2 : Int) ^ 63 ≤ e.2.Count ∧ e.2.Count < (2 : Int) ^ 63) :
    (json.Unmarshal s.Write.1).2 = none ∧
    (t.Load (json.Unmarshal s.Write.1).1).2 = none ∧
    samePairs s.shapes (t.Load (json.Unmarshal s.Write.1).1).1.shapes ∧
    (t.Load (json.Unmarshal s.Write.1).1).1.Write = s.Write := by
  have hu := json.Unmarshal_encodeShapes s.shapes hmap h
  unfold Store.Write Store.Load
  simp only [hu]
  refine ⟨trivial, trivial, ?_, ?_⟩
  · intro fp
    rw [GoMap_get_map json.norm,
      GoMap_get_perm _ _ (json.sortKeys_perm s.shapes)
        ((((json.sortKeys_perm s.shapes).map Prod.fst).nodup_iff).2 hmap) fp]
    cases GoMap.get s.shapes fp with
    | none => trivial
    | some o => exact ⟨rfl, json.mem_norm_keys o, rfl⟩
  · unfold json.encodeShapes
    rw [json.sortKeys_map_sortKeys json.norm s.shapes, List.map_map]
    congr 2
    apply List.map_congr_left
    intro e _
    simp only [Function.comp, json.encodeOccurrence_norm]

set_option maxRecDepth 100000 in
/-- The amended C15 at the store that holds one Shape with the name
`/accounts` and the key `id`. -/
theorem Write_Load_same_pairs_witness :
    (json.Unmarshal oneShape.Write.1).2 = none ∧
    samePairs oneShape.shapes (NewStore.Load (json.Unmarshal oneShape.Write.1).1).1.shapes ∧
    (NewStore.Load (json.Unmarshal oneShape.Write.1).1).1.Write = oneShape.Write :=
  have t := Write_Load_same_pairs oneShape NewStore (by decide) (by decide)
  ⟨t.1, t.2.2.1, t.2.2.2⟩

end phizog

/-! ## The shape store: `Dump`, the invariant of `Add`, names -/

namespace phizog

/-- Whatever a store holds, `Dump` prints the count `0` and the empty Shape on
every line. -/
theorem Dump_zero_Occurrence (s : Store) :
    s.Dump = Join ((s.shapes.foldl (fun ids e => ids.Add [e.1]) set.Strings.make).Slice.map
      fun id => lit "0 shape " ++ id ++ lit " \x7b map[]\x7d") (lit "\n") := by
  have h : ∀ id : GoString,
      itoa (Occurrence.mk ⟨[], set.Strings.make⟩ 0).Count ++ lit " shape " ++ id ++ lit " "
        ++ (Occurrence.mk ⟨[], set.Strings.make⟩ 0).Shape.format
      = lit "0 shape " ++ id ++ lit " \x7b map[]\x7d" := by
    intro id
    have h1 : itoa (Occurrence.mk ⟨[], set.Strings.make⟩ 0).Count = lit "0" := by decide
    have h2 : (Occurrence.mk ⟨[], set.Strings.make⟩ 0).Shape.format = lit "\x7b map[]\x7d" := by
      decide
    have h3 : lit "0" ++ lit " shape " = lit "0 shape " := by decide
    have h4 : lit " " ++ lit "\x7b map[]\x7d" = lit " \x7b map[]\x7d" := by decide
    rw [h1, h2, h3, List.append_assoc, h4]
  unfold Store.Dump
  simp only [h]

set_option maxRecDepth 100000 in
/-- C28 at the store that holds one Shape with the name `/accounts` and the key
`id`, counted once: `Dump` prints the count `0` and an empty Shape, not the
count `1` and the Shape that are stored under the fingerprint. -/
theorem Dump_prints_zero_Occurrence :
    (oneShape.shapes.map fun e => (e.1, e.2.Shape.Name, e.2.Shape.Keys.keys, e.2.Count))
      = [(lit "a56145270ce6b3bebd1dd012b73948677dd618d496488bc608a3cb43ce3547dd",
          lit "/accounts", [lit "id"], 1)] ∧
    oneShape.Dump
      = lit "0 shape a56145270ce6b3bebd1dd012b73948677dd618d496488bc608a3cb43ce3547dd \x7b map[]\x7d" ∧
    dumpOfStored oneShape
      = lit "1 shape a56145270ce6b3bebd1dd012b73948677dd618d496488bc608a3cb43ce3547dd \x7b/accounts map[id:\x7b\x7d]\x7d" ∧
    oneShape.Dump ≠ dumpOfStored oneShape := by
  decide

theorem GoMap_mem_set {V : Type} (m : GoMap V) (k : GoString) (v : V) (e : GoString × V)
    (h : e ∈ GoMap.set m k v) : e ∈ m ∨ e = (k, v) := by
  induction m with
  | nil =>
    simp only [GoMap.set, List.mem_singleton] at h
    exact Or.inr h
  | cons e' rest ih =>
    obtain ⟨k', v'⟩ := e'
    rw [GoMap.set] at h
    by_cases hk : k' = k
    · rw [if_pos hk] at h
      rcases List.mem_cons.1 h with h | h
      · exact Or.inr h
      · exact Or.inl (List.mem_cons_of_mem _ h)
    · rw [if_neg hk] at h
      rcases List.mem_cons.1 h with h | h
      · exact Or.inl (h ▸ List.mem_cons_self _ _)
      · rcases ih h with h | h
        · exact Or.inl (List.mem_cons_of_mem _ h)
        · exact Or.inr h

theorem GoMap_get_mem {V : Type} (m : GoMap V) (k : GoString) (v : V)
    (h : GoMap.get m k = some v) : (k, v) ∈ m := by
  induction m with
  | nil => simp [GoMap.get] at h
  | cons e' rest ih =>
    obtain ⟨k', v'⟩ := e'
    rw [GoMap.get] at h
    by_cases hk : k' = k
    · rw [if_pos hk] at h
      cases h
      subst hk
      exact List.mem_cons_self _ _
    · rw [if_neg hk] at h
      exact List.mem_cons_of_mem _ (ih h)

theorem Add_StoreInv (s : Store) (shape : Shape) (h : StoreInv s) : StoreInv (s.Add shape) := by
  unfold Store.Add
  cases hg : GoMap.get s.shapes shape.ID with
  | none =>
    intro e he
    rcases GoMap_mem_set _ _ _ e he with he | he
    · exact h e he
    · subst he
      exact ⟨rfl, le_refl _⟩
  | some v =>
    intro e he
    have hv := h _ (GoMap_get_mem _ _ _ hg)
    rcases GoMap_mem_set _ _ _ e he with he | he
    · exact h e he
    · subst he
      refine ⟨hv.1, ?_⟩
      have := hv.2
      simp only at this ⊢
      omega

mutual
theorem AddShape_StoreInv (name : GoString) : ∀ (j : JSON) (s : Store), StoreInv s →
    StoreInv (s.AddShape name j).1 ∧
    (s.AddShape name j).1.observations = s.observations + s.addsOfAddShape name j
  | .array items, s, h => by
    rw [Store.AddShape, Store.addsOfAddShape]
    exact AddShapes_StoreInv name items s h
  | .object members, s, h => by
    rw [Store.AddShape, Store.addsOfAddShape]
    simp only [flatten.Flatten]
    exact ⟨Add_StoreInv s _ h, by rw [Add_observations]; rfl⟩
  | .null, s, h => by rw [Store.AddShape, Store.addsOfAddShape]; exact ⟨h, by simp⟩
  | .bool _, s, h => by rw [Store.AddShape, Store.addsOfAddShape]; exact ⟨h, by simp⟩
  | .number _, s, h => by rw [Store.AddShape, Store.addsOfAddShape]; exact ⟨h, by simp⟩
  | .string _, s, h => by rw [Store.AddShape, Store.addsOfAddShape]; exact ⟨h, by simp⟩
theorem AddShapes_StoreInv (name : GoString) : ∀ (items : List JSON) (s : Store), StoreInv s →
    StoreInv (Store.AddShapes s name items).1 ∧
    (Store.AddShapes s name items).1.observations
      = s.observations + Store.addsOfAddShapes s name items
  | [], s, h => by rw [Store.AddShapes, Store.addsOfAddShapes]; exact ⟨h, by simp⟩
  | item :: rest, s, h => by
    rw [Store.AddShapes, Store.addsOfAddShapes]
    have h1 := AddShape_StoreInv name item s h
    cases hs : Store.AddShape s name item with
    | mk s' err =>
      rw [hs] at h1
      cases err with
      | some e => exact h1
      | none =>
        simp only at h1 ⊢
        have h2 := AddShapes_StoreInv name rest s' h1.1
        refine ⟨h2.1, ?_⟩
        rw [h2.2, h1.2]
        push_cast
        ring
end

theorem Call_run_StoreInv (calls : List Call) : ∀ acc : Store × Nat,
    StoreInv acc.1 → acc.1.observations = acc.2 →
    StoreInv (calls.foldl Call.run acc).1 ∧
    (calls.foldl Call.run acc).1.observations = (calls.foldl Call.run acc).2 := by
  induction calls with
  | nil => intro acc h1 h2; exact ⟨h1, h2⟩
  | cons c rest ih =>
    intro acc h1 h2
    rw [List.foldl_cons]
    cases c with
    | Add shape =>
      apply ih
      · exact Add_StoreInv _ _ h1
      · simp only [Call.run]
        rw [Add_observations, h2]
        push_cast
        ring
    | AddShape name raw =>
      have h := AddShape_StoreInv name raw acc.1 h1
      apply ih
      · exact h.1
      · simp only [Call.run]
        rw [h.2, h2]
        push_cast
        ring

/-- C29: in a store obtained from `NewStore()` by any sequence of calls of `Add`
and `AddShape`, every entry of the map stands under the ID of its Shape and
has a `Count` of at least 1, and the sum of the counts is the number of calls
of `Add` made so far, those that `AddShape` makes included. -/
theorem NewStore_calls_invariant (calls : List Call) :
    (∀ e ∈ (calls.foldl Call.run (NewStore, 0)).1.shapes,
      e.1 = e.2.Shape.ID ∧ e.2.Count ≥ 1) ∧
    (calls.foldl Call.run (NewStore, 0)).1.observations
      = (calls.foldl Call.run (NewStore, 0)).2 :=
  Call_run_StoreInv calls (NewStore, 0) (fun _ he => absurd he (List.not_mem_nil _)) rfl

/-- C30: two Shapes with the same key set have the same ID, whatever their
names; on a new store `Add(a)` followed by `Add(b)` leaves one `Occurrence`,
under that ID, with the `Count` 2 and the Shape `a`: the name of `b` is not
recorded. -/
theorem Add_same_keys_keeps_first_Name (a b : Shape)
    (h : ∀ k, k ∈ a.Keys.keys ↔ k ∈ b.Keys.keys) :
    a.ID = b.ID ∧ ((NewStore.Add a).Add b).shapes = [(a.ID, ⟨a, 2⟩)] := by
  have hid : b.ID = a.ID := by
    unfold Shape.ID
    rw [set.Strings.Slice_congr a.Keys b.Keys h]
  have h0 : NewStore.Add a = Store.mk [(a.ID, ⟨a, 1⟩)] := by
    simp [Store.Add, NewStore, GoMap.get, GoMap.set]
  refine ⟨hid.symm, ?_⟩
  rw [h0, Add_same_ID a b 1 hid]
  rfl

set_option maxRecDepth 100000 in
/-- The Shapes `/accounts` and `/orders` with the keys `id`, `size` inserted in
opposite orders: one `Occurrence` with the `Count` 2 and the name `/accounts`. -/
theorem Add_same_keys_keeps_first_Name_witness :
    (((NewStore.Add ⟨lit "/accounts", set.Strings.make.Add [lit "id", lit "size"]⟩).Add
        ⟨lit "/orders", set.Strings.make.Add [lit "size", lit "id"]⟩).shapes.map
      fun e => (e.2.Shape.Name, e.2.Count)) = [(lit "/accounts", 2)] := by
  have t := (Add_same_keys_keeps_first_Name
    ⟨lit "/accounts", set.Strings.make.Add [lit "id", lit "size"]⟩
    ⟨lit "/orders", set.Strings.make.Add [lit "size", lit "id"]⟩
    (fun k => by
      simp only [set.Strings.mem_Add, set.Strings.make, List.mem_cons]
      tauto)).2
  rw [t]
  rfl

end phizog

/-! ## Time slices -/

namespace Float64

theorem scaleFrom_spec (p q : Nat) : ∀ fuel k,
    2 ^ 52 * q ≤ p * 2 ^ scaleFrom p q fuel k ∨ scaleFrom p q fuel k = k + fuel := by
  intro fuel
  induction fuel with
  | zero => intro k; right; rfl
  | succ fuel ih =>
    intro k
    rw [scaleFrom]
    by_cases h : 2 ^ 52 * q ≤ p * 2 ^ k
    · rw [if_pos h]; exact Or.inl h
    · rw [if_neg h]
      rcases ih (k + 1) with h1 | h1
      · exact Or.inl h1
      · right; rw [h1]; omega

/-- A number below `2 ^ e` has more than `52 - e` binary places. -/
theorem scale_gt (p q e : Nat) (h : p < 2 ^ e * q) : 52 < e + scale p q := by
  rcases scaleFrom_spec p q 1074 0 with h1 | h1
  · by_contra hc
    have hle : e + scale p q ≤ 52 := by omega
    have h2 : p * 2 ^ scale p q < 2 ^ e * q * 2 ^ scale p q :=
      Nat.mul_lt_mul_of_pos_right h (Nat.pow_pos (by decide))
    have h3 : 2 ^ e * q * 2 ^ scale p q = 2 ^ (e + scale p q) * q := by
      rw [pow_add]; ring
    have h4 : 2 ^ (e + scale p q) * q ≤ 2 ^ 52 * q :=
      Nat.mul_le_mul_right q (Nat.pow_le_pow_right (by decide) hle)
    unfold scale at *
    omega
  · unfold scale
    omega

theorem rne_le (a q C : Nat) (hq : 0 < q) (h : a ≤ C * q) : rne a q ≤ C := by
  have hd : a / q ≤ C := by
    rw [Nat.mul_comm] at h
    exact Nat.div_le_of_le_mul h
  unfold rne
  rcases Nat.lt_or_eq_of_le hd with hlt | heq
  · split
    · omega
    · split
      · omega
      · split <;> omega
  · have hr : a % q = 0 := by
      have := Nat.div_add_mod a q
      rw [heq, Nat.mul_comm] at this
      omega
    rw [hr]
    simp [hq, heq]

theorem le_rne (a q C : Nat) (hq : 0 < q) (h : C * q ≤ a) : C ≤ rne a q := by
  have hd : C ≤ a / q := (Nat.le_div_iff_mul_le hq).2 h
  unfold rne
  split
  · exact hd
  · split
    · omega
    · split <;> omega

/-- Rounding keeps a number below a bound that has no more binary places than
the result. -/
theorem round_le (p q N j : Nat) (hq : 0 < q) (hj : p ≠ 0 → j ≤ scale p q)
    (h : p * 2 ^ j ≤ N * q) :
    (round false p q).mant * 2 ^ j ≤ N * 2 ^ (round false p q).exp := by
  unfold round
  by_cases hp : p = 0
  · simp [hp]
  · rw [if_neg hp]
    simp only
    have hk := hj hp
    obtain ⟨i, hi⟩ := Nat.exists_eq_add_of_le hk
    have h1 : p * 2 ^ scale p q ≤ N * 2 ^ i * q := by
      rw [hi, pow_add]
      calc p * (2 ^ j * 2 ^ i) = p * 2 ^ j * 2 ^ i := by ring
        _ ≤ N * q * 2 ^ i := Nat.mul_le_mul_right _ h
        _ = N * 2 ^ i * q := by ring
    have h2 := rne_le _ q _ hq h1
    calc rne (p * 2 ^ scale p q) q * 2 ^ j ≤ N * 2 ^ i * 2 ^ j := Nat.mul_le_mul_right _ h2
      _ = N * 2 ^ scale p q := by rw [hi, pow_add]; ring

/-- Rounding keeps a number above a bound that has no more binary places than
the result. -/
theorem le_round (p q N j : Nat) (hq : 0 < q) (hj : p ≠ 0 → j ≤ scale p q)
    (h : N * q ≤ p * 2 ^ j) :
    N * 2 ^ (round false p q).exp ≤ (round false p q).mant * 2 ^ j := by
  unfold round
  by_cases hp : p = 0
  · subst hp
    have : N = 0 := by
      rcases Nat.eq_zero_or_pos N with h0 | h0
      · exact h0
      · have := Nat.mul_pos h0 hq
        omega
    simp [this]
  · rw [if_neg hp]
    simp only
    have hk := hj hp
    obtain ⟨i, hi⟩ := Nat.exists_eq_add_of_le hk
    have h1 : N * 2 ^ i * q ≤ p * 2 ^ scale p q := by
      rw [hi, pow_add]
      calc N * 2 ^ i * q = N * q * 2 ^ i := by ring
        _ ≤ p * 2 ^ j * 2 ^ i := Nat.mul_le_mul_right _ h
        _ = p * (2 ^ j * 2 ^ i) := by ring
    have h2 := le_rne _ q _ hq h1
    calc N * 2 ^ scale p q = N * 2 ^ i * 2 ^ j := by rw [hi, pow_add]; ring
      _ ≤ rne (p * 2 ^ scale p q) q * 2 ^ j := Nat.mul_le_mul_right _ h2

/-- An integer is converted to the `float64` of its value. -/
theorem ofInt_natCast (n : Nat) : ∃ e, ofInt (n : Int) = ⟨false, n * 2 ^ e, e⟩ := by
  unfold ofInt round
  have hneg : decide ((n : Int) < 0) = false := by simp
  rw [hneg, Int.natAbs_ofNat]
  by_cases hn : n = 0
  · exact ⟨0, by simp [hn]⟩
  · rw [if_neg hn]
    refine ⟨scale n 1, ?_⟩
    simp [rne, Nat.mod_one]

theorem add_nonneg (x y : Float64) (hx : x.neg = false) (hy : y.neg = false) :
    add x y = round false (x.mant * 2 ^ y.exp + y.mant * 2 ^ x.exp) (2 ^ (x.exp + y.exp)) := by
  unfold add num
  rw [hx, hy]
  simp only [Bool.false_eq_true, if_false]
  have h : ((x.mant : Int) * 2 ^ y.exp + (y.mant : Int) * 2 ^ x.exp)
      = ((x.mant * 2 ^ y.exp + y.mant * 2 ^ x.exp : Nat) : Int) := by push_cast; ring
  rw [h, Int.natAbs_ofNat]
  have hneg : decide (((x.mant * 2 ^ y.exp + y.mant * 2 ^ x.exp : Nat) : Int) < 0) = false :=
    decide_eq_false (not_lt.2 (Int.ofNat_nonneg _))
  rw [hneg]

/-- The quotient `float64(nsec) / 1e9` for a count of nanoseconds below one
second: it lies in `[0, 1]`, at most at `1/2 - 2 ^ -31` when `nsec` is below
half a second and at least at `1/2` otherwise. -/
theorem div_nsec (nsec : Nat) (h : nsec < 1000000000) :
    (div (ofInt (nsec : Int)) (ofInt 1000000000)).neg = false ∧
    (div (ofInt (nsec : Int)) (ofInt 1000000000)).mant
      ≤ 2 ^ (div (ofInt (nsec : Int)) (ofInt 1000000000)).exp ∧
    (nsec < 500000000 →
      (div (ofInt (nsec : Int)) (ofInt 1000000000)).mant * 2 ^ 31
        ≤ (2 ^ 30 - 1) * 2 ^ (div (ofInt (nsec : Int)) (ofInt 1000000000)).exp) ∧
    (500000000 ≤ nsec →
      1 * 2 ^ (div (ofInt (nsec : Int)) (ofInt 1000000000)).exp
        ≤ (div (ofInt (nsec : Int)) (ofInt 1000000000)).mant * 2 ^ 1) := by
  obtain ⟨e1, h1⟩ := ofInt_natCast nsec
  obtain ⟨e3, h3⟩ := ofInt_natCast 1000000000
  have h3' : ofInt 1000000000 = ⟨false, 1000000000 * 2 ^ e3, e3⟩ := h3
  rw [h1, h3']
  unfold div
  simp only [bne_self_eq_false]
  have hq : 0 < 1000000000 * 2 ^ e3 * 2 ^ e1 := by positivity
  have hc : 0 < 2 ^ e1 * 2 ^ e3 := by positivity
  have hs : 52 < 0 + scale (nsec * 2 ^ e1 * 2 ^ e3) (1000000000 * 2 ^ e3 * 2 ^ e1) := by
    apply scale_gt
    calc nsec * 2 ^ e1 * 2 ^ e3 = nsec * (2 ^ e1 * 2 ^ e3) := by ring
      _ < 1000000000 * (2 ^ e1 * 2 ^ e3) := Nat.mul_lt_mul_of_pos_right h hc
      _ = 2 ^ 0 * (1000000000 * 2 ^ e3 * 2 ^ e1) := by ring
  refine ⟨?_, ?_, ?_, ?_⟩
  · unfold round
    split <;> rfl
  · have := round_le (nsec * 2 ^ e1 * 2 ^ e3) (1000000000 * 2 ^ e3 * 2 ^ e1) 1 0 hq
      (fun _ => Nat.zero_le _)
      (by
        calc nsec * 2 ^ e1 * 2 ^ e3 * 2 ^ 0 = nsec * (2 ^ e1 * 2 ^ e3) := by ring
          _ ≤ 1000000000 * (2 ^ e1 * 2 ^ e3) := Nat.mul_le_mul_right _ (Nat.le_of_lt h)
          _ = 1 * (1000000000 * 2 ^ e3 * 2 ^ e1) := by ring)
    simpa using this
  · intro hlt
    have hb : nsec * 2 ^ 31 ≤ (2 ^ 30 - 1) * 1000000000 := by omega
    exact round_le (nsec * 2 ^ e1 * 2 ^ e3) (1000000000 * 2 ^ e3 * 2 ^ e1) (2 ^ 30 - 1) 31 hq
      (fun _ => by omega)
      (by
        calc nsec * 2 ^ e1 * 2 ^ e3 * 2 ^ 31 = nsec * 2 ^ 31 * (2 ^ e1 * 2 ^ e3) := by ring
          _ ≤ (2 ^ 30 - 1) * 1000000000 * (2 ^ e1 * 2 ^ e3) := Nat.mul_le_mul_right _ hb
          _ = (2 ^ 30 - 1) * (1000000000 * 2 ^ e3 * 2 ^ e1) := by ring)
  · intro hge
    have hb : 1 * 1000000000 ≤ nsec * 2 ^ 1 := by omega
    exact le_round (nsec * 2 ^ e1 * 2 ^ e3) (1000000000 * 2 ^ e3 * 2 ^ e1) 1 1 hq
      (fun _ => by omega)
      (by
        calc 1 * (1000000000 * 2 ^ e3 * 2 ^ e1) = 1 * 1000000000 * (2 ^ e1 * 2 ^ e3) := by ring
          _ ≤ nsec * 2 ^ 1 * (2 ^ e1 * 2 ^ e3) := Nat.mul_le_mul_right _ hb
          _ = nsec * 2 ^ e1 * 2 ^ e3 * 2 ^ 1 := by ring)

/-- The sum `float64(sec) + y` is not below `sec` when `y` is not negative. -/
theorem add_sec_ge (sec : Nat) (y : Float64) (hy : y.neg = false) :
    (add (ofInt (sec : Int)) y).neg = false ∧
    sec * 2 ^ (add (ofInt (sec : Int)) y).exp ≤ (add (ofInt (sec : Int)) y).mant := by
  obtain ⟨e1, h1⟩ := ofInt_natCast sec
  rw [h1, add_nonneg _ _ rfl hy]
  simp only
  constructor
  · unfold round
    split <;> rfl
  · have := le_round (sec * 2 ^ e1 * 2 ^ y.exp + y.mant * 2 ^ e1) (2 ^ (e1 + y.exp)) sec 0
      (by positivity) (fun _ => Nat.zero_le _)
      (by
        calc sec * 2 ^ (e1 + y.exp) = sec * 2 ^ e1 * 2 ^ y.exp := by rw [pow_add]; ring
          _ ≤ sec * 2 ^ e1 * 2 ^ y.exp + y.mant * 2 ^ e1 := Nat.le_add_right _ _
          _ = (sec * 2 ^ e1 * 2 ^ y.exp + y.mant * 2 ^ e1) * 2 ^ 0 := by ring)
    simpa using this

/-- The sum `float64(sec) + y` for `sec` below `2 ^ 20` and `y` in `[0, 1]`: it is not
above `sec + 1/2 - 2 ^ -31` when `y` is not above `1/2 - 2 ^ -31`, and it lies in
`[sec + 1/2, sec + 1]` when `y` is not below `1/2`. -/
theorem add_sec (sec : Nat) (y : Float64) (hy : y.neg = false) (hsec : sec < 2 ^ 20)
    (hy1 : y.mant ≤ 2 ^ y.exp) :
    (y.mant * 2 ^ 31 ≤ (2 ^ 30 - 1) * 2 ^ y.exp →
      (add (ofInt (sec : Int)) y).mant * 2 ^ 31
        ≤ (sec * 2 ^ 31 + (2 ^ 30 - 1)) * 2 ^ (add (ofInt (sec : Int)) y).exp) ∧
    (1 * 2 ^ y.exp ≤ y.mant * 2 ^ 1 →
      (2 * sec + 1) * 2 ^ (add (ofInt (sec : Int)) y).exp
        ≤ (add (ofInt (sec : Int)) y).mant * 2 ^ 1 ∧
      (add (ofInt (sec : Int)) y).mant * 2 ^ 0
        ≤ (sec + 1) * 2 ^ (add (ofInt (sec : Int)) y).exp) := by
  obtain ⟨e1, h1⟩ := ofInt_natCast sec
  rw [h1, add_nonneg _ _ rfl hy]
  simp only
  have hq : 0 < 2 ^ (e1 + y.exp) := by positivity
  have hQ : 2 ^ (e1 + y.exp) = 2 ^ e1 * 2 ^ y.exp := pow_add 2 e1 y.exp
  have hP : sec * 2 ^ e1 * 2 ^ y.exp + y.mant * 2 ^ e1 ≤ (sec + 1) * 2 ^ (e1 + y.exp) := by
    rw [hQ]
    calc sec * 2 ^ e1 * 2 ^ y.exp + y.mant * 2 ^ e1
        ≤ sec * 2 ^ e1 * 2 ^ y.exp + 2 ^ y.exp * 2 ^ e1 :=
          Nat.add_le_add_left (Nat.mul_le_mul_right _ hy1) _
      _ = (sec + 1) * (2 ^ e1 * 2 ^ y.exp) := by ring
  have hs : 52 < 21 + scale (sec * 2 ^ e1 * 2 ^ y.exp + y.mant * 2 ^ e1) (2 ^ (e1 + y.exp)) := by
    apply scale_gt
    calc sec * 2 ^ e1 * 2 ^ y.exp + y.mant * 2 ^ e1 ≤ (sec + 1) * 2 ^ (e1 + y.exp) := hP
      _ < 2 ^ 21 * 2 ^ (e1 + y.exp) := Nat.mul_lt_mul_of_pos_right (by omega) hq
  refine ⟨?_, ?_⟩
  · intro hle
    exact round_le _ _ (sec * 2 ^ 31 + (2 ^ 30 - 1)) 31 hq (fun _ => by omega)
      (by
        rw [hQ]
        calc (sec * 2 ^ e1 * 2 ^ y.exp + y.mant * 2 ^ e1) * 2 ^ 31
            = sec * 2 ^ 31 * (2 ^ e1 * 2 ^ y.exp) + y.mant * 2 ^ 31 * 2 ^ e1 := by ring
          _ ≤ sec * 2 ^ 31 * (2 ^ e1 * 2 ^ y.exp) + (2 ^ 30 - 1) * 2 ^ y.exp * 2 ^ e1 :=
            Nat.add_le_add_left (Nat.mul_le_mul_right _ hle) _
          _ = (sec * 2 ^ 31 + (2 ^ 30 - 1)) * (2 ^ e1 * 2 ^ y.exp) := by ring)
  · intro hge
    constructor
    · exact le_round _ _ (2 * sec + 1) 1 hq (fun _ => by omega)
        (by
          rw [hQ]
          calc (2 * sec + 1) * (2 ^ e1 * 2 ^ y.exp)
              = sec * 2 ^ e1 * 2 ^ y.exp * 2 ^ 1 + 1 * 2 ^ y.exp * 2 ^ e1 := by ring
            _ ≤ sec * 2 ^ e1 * 2 ^ y.exp * 2 ^ 1 + y.mant * 2 ^ 1 * 2 ^ e1 :=
              Nat.add_le_add_left (Nat.mul_le_mul_right _ hge) _
            _ = (sec * 2 ^ e1 * 2 ^ y.exp + y.mant * 2 ^ e1) * 2 ^ 1 := by ring)
    · exact round_le _ _ (sec + 1) 0 hq (fun _ => Nat.zero_le _) (by simpa using hP)

/-- The integer `int(math.Round(x))` for an `x` that is not negative. -/
theorem Round_toInt (x : Float64) (n : Nat) (hx : x.neg = false)
    (h1 : n * 2 ^ (x.exp + 1) ≤ 2 * x.mant + 2 ^ x.exp)
    (h2 : 2 * x.mant + 2 ^ x.exp < (n + 1) * 2 ^ (x.exp + 1)) :
    (Round x).toInt = (n : Int) := by
  unfold Round toInt
  simp only [hx, Bool.false_eq_true, if_false, pow_zero, Nat.div_one]
  rw [Nat.div_eq_of_lt_le h1 h2]

end Float64

/-- The time slice of a duration that is not negative: the duration rounded to
the nearest second, halves upwards, when it is below `2 ^ 20` seconds. -/
theorem Timeslice_natCast (a : Nat) :
    (a / 1000000000 < 2 ^ 20 →
      TimesliceParam.Timeslice (a : Int) = (((a + 500000000) / 1000000000 : Nat) : Int)) ∧
    (2 ^ 20 ≤ a / 1000000000 → (2 ^ 20 : Int) ≤ TimesliceParam.Timeslice (a : Int)) := by
  have hd : Int.tdiv (a : Int) Second = ((a / 1000000000 : Nat) : Int) := rfl
  have hm : Int.tmod (a : Int) Second = ((a % 1000000000 : Nat) : Int) := rfl
  unfold TimesliceParam.Timeslice Duration.Seconds
  rw [hd, hm]
  have hn : a % 1000000000 < 1000000000 := Nat.mod_lt _ (by decide)
  obtain ⟨y0, y1, y2, y3⟩ := Float64.div_nsec (a % 1000000000) hn
  generalize Float64.div (Float64.ofInt ((a % 1000000000 : Nat) : Int))
    (Float64.ofInt 1000000000) = y at y0 y1 y2 y3
  obtain ⟨s0, s1⟩ := Float64.add_sec_ge (a / 1000000000) y y0
  constructor
  · intro hsec
    obtain ⟨s2, s3⟩ := Float64.add_sec (a / 1000000000) y y0 hsec y1
    generalize Float64.add (Float64.ofInt ((a / 1000000000 : Nat) : Int)) y = S at s0 s1 s2 s3
    have hK : 0 < 2 ^ S.exp := by positivity
    have hK1 : 2 ^ (S.exp + 1) = 2 * 2 ^ S.exp := by rw [pow_succ]; ring
    by_cases hlt : a % 1000000000 < 500000000
    · have b := s2 (y2 hlt)
      have e1 : (a / 1000000000 * 2 ^ 31 + (2 ^ 30 - 1)) * 2 ^ S.exp
          = 2147483648 * (a / 1000000000 * 2 ^ S.exp) + 1073741823 * 2 ^ S.exp := by ring
      rw [e1] at b
      have hres : (a + 500000000) / 1000000000 = a / 1000000000 := by omega
      rw [hres]
      apply Float64.Round_toInt S _ s0
      · rw [hK1]
        have : a / 1000000000 * (2 * 2 ^ S.exp) = 2 * (a / 1000000000 * 2 ^ S.exp) := by ring
        rw [this]
        omega
      · rw [hK1]
        have : (a / 1000000000 + 1) * (2 * 2 ^ S.exp)
            = 2 * (a / 1000000000 * 2 ^ S.exp) + 2 * 2 ^ S.exp := by ring
        rw [this]
        generalize a / 1000000000 * 2 ^ S.exp = X at *
        generalize 2 ^ S.exp = K at *
        omega
    · obtain ⟨b1, b2⟩ := s3 (y3 (by omega))
      have e1 : (2 * (a / 1000000000) + 1) * 2 ^ S.exp
          = 2 * (a / 1000000000 * 2 ^ S.exp) + 2 ^ S.exp := by ring
      have e2 : (a / 1000000000 + 1) * 2 ^ S.exp
          = a / 1000000000 * 2 ^ S.exp + 2 ^ S.exp := by ring
      rw [e1] at b1
      rw [e2] at b2
      have hres : (a + 500000000) / 1000000000 = a / 1000000000 + 1 := by omega
      rw [hres]
      apply Float64.Round_toInt S _ s0
      · rw [hK1]
        have : (a / 1000000000 + 1) * (2 * 2 ^ S.exp)
            = 2 * (a / 1000000000 * 2 ^ S.exp) + 2 * 2 ^ S.exp := by ring
        rw [this]
        generalize a / 1000000000 * 2 ^ S.exp = X at *
        generalize 2 ^ S.exp = K at *
        omega
      · rw [hK1]
        have : (a / 1000000000 + 1 + 1) * (2 * 2 ^ S.exp)
            = 2 * (a / 1000000000 * 2 ^ S.exp) + 4 * 2 ^ S.exp := by ring
        rw [this]
        generalize a / 1000000000 * 2 ^ S.exp = X at *
        generalize 2 ^ S.exp = K at *
        omega
  · intro hsec
    generalize Float64.add (Float64.ofInt ((a / 1000000000 : Nat) : Int)) y = S at s0 s1
    unfold Float64.Round Float64.toInt
    simp only [s0, Bool.false_eq_true, if_false, pow_zero, Nat.div_one]
    have h1 : a / 1000000000 ≤ (2 * S.mant + 2 ^ S.exp) / 2 ^ (S.exp + 1) := by
      rw [Nat.le_div_iff_mul_le (by positivity)]
      have hK1 : 2 ^ (S.exp + 1) = 2 * 2 ^ S.exp := by rw [pow_succ]; ring
      rw [hK1]
      have : a / 1000000000 * (2 * 2 ^ S.exp) = 2 * (a / 1000000000 * 2 ^ S.exp) := by ring
      rw [this]
      omega
    have h2 : (2 ^ 20 : Nat) ≤ (2 * S.mant + 2 ^ S.exp) / 2 ^ (S.exp + 1) := le_trans hsec h1
    exact_mod_cast h2

namespace Float64

theorem round_neg (neg : Bool) (p q : Nat) : (round neg p q).neg = neg := by
  unfold round
  split <;> rfl

theorem round_zero (neg : Bool) (q : Nat) : (round neg 0 q).mant = 0 := by
  simp [round]

theorem ofInt_nonpos (i : Int) (h : i ≤ 0) : (ofInt i).neg = true ∨ (ofInt i).mant = 0 := by
  unfold ofInt
  rcases lt_or_eq_of_le h with h | h
  · left
    rw [round_neg]
    exact decide_eq_true h
  · right
    rw [h]
    exact round_zero _ _

theorem div_nonpos (x y : Float64) (hx : x.neg = true ∨ x.mant = 0) (hy : y.neg = false) :
    (div x y).neg = true ∨ (div x y).mant = 0 := by
  unfold div
  rcases hx with hx | hx
  · left
    rw [round_neg, hx, hy]
    rfl
  · right
    rw [hx, Nat.zero_mul]
    exact round_zero _ _

theorem num_nonpos (x : Float64) (hx : x.neg = true ∨ x.mant = 0) : x.num ≤ 0 := by
  unfold num
  rcases hx with hx | hx
  · rw [hx]
    simp
  · rw [hx]
    split <;> simp

theorem add_nonpos (x y : Float64) (hx : x.neg = true ∨ x.mant = 0)
    (hy : y.neg = true ∨ y.mant = 0) : (add x y).neg = true ∨ (add x y).mant = 0 := by
  have h1 := num_nonpos x hx
  have h2 := num_nonpos y hy
  have hN : x.num * 2 ^ y.exp + y.num * 2 ^ x.exp ≤ 0 := by
    have a1 : x.num * 2 ^ y.exp ≤ 0 := mul_nonpos_of_nonpos_of_nonneg h1 (by positivity)
    have a2 : y.num * 2 ^ x.exp ≤ 0 := mul_nonpos_of_nonpos_of_nonneg h2 (by positivity)
    omega
  unfold add
  rcases lt_or_eq_of_le hN with h | h
  · left
    rw [round_neg]
    exact decide_eq_true h
  · right
    rw [h]
    exact round_zero _ _

/-- The integer `int(math.Round(x))` is not positive for an `x` that is not positive. -/
theorem Round_toInt_nonpos (x : Float64) (hx : x.neg = true ∨ x.mant = 0) :
    (Round x).toInt ≤ 0 := by
  unfold Round toInt
  simp only [pow_zero, Nat.div_one]
  rcases hx with hx | hx
  · rw [hx]
    simp only [if_true]
    exact neg_nonpos.2 (Int.ofNat_nonneg _)
  · rw [hx]
    have : (2 * 0 + 2 ^ x.exp) / 2 ^ (x.exp + 1) = 0 := by
      apply Nat.div_eq_of_lt
      rw [pow_succ]
      have : 0 < 2 ^ x.exp := by positivity
      omega
    rw [this]
    split <;> simp

end Float64

/-- The time slice of a negative duration is not positive. -/
theorem Timeslice_negSucc (n : Nat) : TimesliceParam.Timeslice (Int.negSucc n) ≤ 0 := by
  have hd : Int.tdiv (Int.negSucc n) Second = -(((n + 1) / 1000000000 : Nat) : Int) := rfl
  have hm : Int.tmod (Int.negSucc n) Second = -(((n + 1) % 1000000000 : Nat) : Int) := rfl
  unfold TimesliceParam.Timeslice Duration.Seconds
  rw [hd, hm]
  apply Float64.Round_toInt_nonpos
  apply Float64.add_nonpos
  · exact Float64.ofInt_nonpos _ (by omega)
  · apply Float64.div_nonpos
    · exact Float64.ofInt_nonpos _ (by omega)
    · exact Float64.round_neg _ _ _

/-- C21 fails as stated, at the duration 59.5 s: it is none of the six time
slices, and `Validate` accepts it, because `Timeslice` rounds it to 60 seconds;
the duration 1 s is rejected. -/
theorem TimesliceParam_Validate_rounds :
    TimesliceParam.Validate 59500000000 = none ∧
    TimesliceParam.Timeslice 59500000000 = 60 ∧
    (59500000000 : Int) ∉ [60, 300, 900, 3600, 21600, 86400].map (fun n => n * Second) ∧
    TimesliceParam.Validate 1000000000 ≠ none := by
  decide

/-- C21, amended: `TimesliceParam(d).Validate()` succeeds exactly when `d` is within
half a second of one of the six time slices, `n - 0.5 s ≤ d < n + 0.5 s` for `n`
one of 60, 300, 900, 3600, 21600, 86400, that is when `d` rounded to the
nearest second is one of them; every other duration is rejected. -/
theorem TimesliceParam_Validate_iff (d : Int) :
    TimesliceParam.Validate d = none ↔
      ∃ n : Int, (n = 60 ∨ n = 300 ∨ n = 900 ∨ n = 3600 ∨ n = 21600 ∨ n = 86400) ∧
        n * 1000000000 - 500000000 ≤ d ∧ d < n * 1000000000 + 500000000 := by
  have hv : TimesliceParam.Validate d = none ↔
      (TimesliceParam.Timeslice d = 60 ∨ TimesliceParam.Timeslice d = 300 ∨
        TimesliceParam.Timeslice d = 900 ∨ TimesliceParam.Timeslice d = 3600 ∨
        TimesliceParam.Timeslice d = 21600 ∨ TimesliceParam.Timeslice d = 86400) := by
    unfold TimesliceParam.Validate Timeslice.Valid
    split
    · rename_i h; exact ⟨fun _ => h, fun _ => rfl⟩
    · rename_i h; exact ⟨fun hc => (by cases hc), fun hc => absurd hc h⟩
  rw [hv]
  cases d with
  | ofNat a =>
    obtain ⟨h1, h2⟩ := Timeslice_natCast a
    have hcast : (Int.ofNat a) = (a : Int) := rfl
    rw [hcast]
    by_cases hsec : a / 1000000000 < 2 ^ 20
    · rw [h1 hsec]
      constructor
      · intro h
        refine ⟨(((a + 500000000) / 1000000000 : Nat) : Int), h, ?_, ?_⟩ <;> omega
      · rintro ⟨n, hn, hlo, hhi⟩
        rcases hn with rfl | rfl | rfl | rfl | rfl | rfl <;> omega
    · have h3 := h2 (by omega)
      constructor
      · intro h
        norm_num at h3
        omega
      · rintro ⟨n, hn, hlo, hhi⟩
        exfalso
        norm_num at hsec
        rcases hn with rfl | rfl | rfl | rfl | rfl | rfl <;> omega
  | negSucc n =>
    have h := Timeslice_negSucc n
    constructor
    · intro h'
      omega
    · rintro ⟨m, hm, hlo, hhi⟩
      exfalso
      have : Int.negSucc n < 0 := Int.negSucc_lt_zero n
      rcases hm with rfl | rfl | rfl | rfl | rfl | rfl <;> omega

/-! ## What the commands validate -/

namespace commands

/-- With a granularity that is valid, `historicRatesCmd.Validate` returns its error
exactly when both `start` and `end` are given. -/
theorem historicRatesCmd_Validate_iff (h : historicRatesCmd)
    (hg : TimesliceParam.Validate h.Granularity = none) :
    h.Validate ≠ none ↔ (h.Start.IsZero = false ∧ h.End.IsZero = false) := by
  unfold historicRatesCmd.Validate
  cases h.Start.IsZero <;> cases h.End.IsZero <;> simp [hg]

/-- C24 at the granularity 60 s: a command that gives both `start` and `end`
is refused with the error, and a command that gives only `start` or only `end`
is accepted. -/
theorem historicRatesCmd_Validate_inverted :
    historicRatesCmd.Validate ⟨⟨60000000000, ⟨63753946500, 0, 0⟩, ⟨63753942900, 0, 0⟩⟩,
        lit "BTC-USD"⟩
      = some (.other "if \x27start\x27 or \x27end\x27 time is provided, both \x27start\x27 and \x27end\x27 times must be provided") ∧
    historicRatesCmd.Validate ⟨⟨60000000000, ⟨0, 0, 0⟩, ⟨63753942900, 0, 0⟩⟩, lit "BTC-USD"⟩
      = none ∧
    historicRatesCmd.Validate ⟨⟨60000000000, ⟨63753946500, 0, 0⟩, ⟨0, 0, 0⟩⟩, lit "BTC-USD"⟩
      = none ∧
    historicRatesCmd.Validate ⟨⟨60000000000, ⟨0, 0, 0⟩, ⟨0, 0, 0⟩⟩, lit "BTC-USD"⟩ = none := by
  decide

theorem zeroPad_ne_nil (width x : Nat) : zeroPad width x ≠ [] := by
  unfold zeroPad
  have h := (Itoa_spec x).1
  intro hc
  exact h (List.append_eq_nil.1 hc).2

theorem Time_Format_ne_nil (t : Time) : t.Format ≠ [] := by
  unfold Time.Format
  intro hc
  have h1 := (List.append_eq_nil.1 hc).1
  have h2 := (List.append_eq_nil.1 h1).2
  exact zeroPad_ne_nil _ _ h2

/-- Whatever the times are, `TimestampFilterPagination.Params` sets both cursors, so its
result never satisfies the validity rule of the pipeline. -/
theorem TimestampFilterPagination_Params_both_cursors (d : TimestampFilterPagination) :
    d.Params.After ≠ [] ∧ d.Params.Before ≠ [] ∧ ¬ validPagination d.Params ∧
    d.Params.Validate ≠ none := by
  have h1 : d.Params.After ≠ [] := Time_Format_ne_nil d.After
  have h2 : d.Params.Before ≠ [] := Time_Format_ne_nil d.Before
  refine ⟨h1, h2, fun h => h.1 ⟨h1, h2⟩, ?_⟩
  unfold PaginationParams.Validate
  rw [if_pos ⟨h1, h2⟩]
  simp

set_option maxRecDepth 100000 in
/-- C25 at the zero value, with no timestamp given: `Validate` accepts it, and
`Params` gives the text of the zero time for both cursors, which the validity
rule of the pipeline refuses; and `Validate` accepts the limit 101. -/
theorem TimestampFilterPagination_zero_value :
    TimestampFilterPagination.Validate ⟨⟨0, 0, 0⟩, ⟨0, 0, 0⟩, 0⟩ = none ∧
    TimestampFilterPagination.Params ⟨⟨0, 0, 0⟩, ⟨0, 0, 0⟩, 0⟩
      = ⟨lit "0001-01-01T00:00:00Z", lit "0001-01-01T00:00:00Z", 0⟩ ∧
    ¬ validPagination (TimestampFilterPagination.Params ⟨⟨0, 0, 0⟩, ⟨0, 0, 0⟩, 0⟩) ∧
    (TimestampFilterPagination.Params ⟨⟨0, 0, 0⟩, ⟨0, 0, 0⟩, 0⟩).Validate
      = some (.other "only one of \x27before\x27 or \x27after\x27 allowed") ∧
    TimestampFilterPagination.Validate ⟨⟨0, 0, 0⟩, ⟨0, 0, 0⟩, 101⟩ = none ∧
    (TimestampFilterPagination.Params ⟨⟨0, 0, 0⟩, ⟨0, 0, 0⟩, 101⟩).Limit = 101 := by
  decide

/-- For parameters that `Pagination.Validate` accepts, `Params` returns the same
`Before`, `After` and `Limit` without error, at most one cursor is set and the
limit is not negative. -/
theorem Pagination_Params_of_valid (p : Pagination) (h : p.Validate = none) :
    p.Params = (⟨p.After, p.Before, p.Limit⟩, none) ∧
    ¬ (p.Params.1.After ≠ [] ∧ p.Params.1.Before ≠ []) ∧ 0 ≤ p.Params.1.Limit := by
  unfold Pagination.Validate at h
  refine ⟨rfl, ?_, ?_⟩
  · intro hc
    rw [if_pos ⟨hc.2, hc.1⟩] at h
    cases h
  · by_contra hc
    split at h
    · cases h
    · have hc' : p.Limit < 0 := not_le.1 hc
      rw [if_pos hc'] at h
      cases h

/-- C26 at the limit 101 without cursors: `Pagination.Validate` accepts it, `Params`
returns it as it is, and it does not satisfy the validity rule of the
pipeline, whose `Validate` refuses it. -/
theorem Pagination_Validate_accepts_101 :
    Pagination.Validate ⟨[], [], 101⟩ = none ∧
    Pagination.Params ⟨[], [], 101⟩ = (⟨[], [], 101⟩, none) ∧
    ¬ validPagination (Pagination.Params ⟨[], [], 101⟩).1 ∧
    (Pagination.Params ⟨[], [], 101⟩).1.Validate
      = some (.other "\x27limit\x27 outside of allowed range") := by
  decide

end commands

/-! ## `DevelopmentClient.Close` -/

/-- Once the file is open, `Close` returns what closing the file returns,
whatever writing returned. -/
theorem DevelopmentClient_Close_eq (d : DevelopmentClient) (file : File) :
    d.Close (.ok file) = file.Close := rfl

/-- C27 at a file whose `Write` fails with `e` and whose `Close` returns nil:
`DevelopmentClient.Close` returns nil, where the result that keeps the error of
writing is `e`. -/
theorem DevelopmentClient_Close_drops_write_error (d : DevelopmentClient) (e : Err) :
    d.store.WriteTo (fun _ => some e) = some e ∧
    d.Close (.ok ⟨fun _ => some e, none⟩) = none ∧
    closeCapturing d (.ok ⟨fun _ => some e, none⟩) = some e :=
  ⟨rfl, rfl, rfl⟩

/-! ## Deposits and withdrawals -/

theorem keepTransfers_some (t1 t2 : GoString) (ts : List Transfer) :
    ∀ kept, keepTransfers t1 t2 (ts.map some) kept
      = .returns (kept ++ (ts.filter fun t => t.Type' = t1 ∨ t.Type' = t2).map some) := by
  induction ts with
  | nil => intro kept; simp [keepTransfers]
  | cons t rest ih =>
    intro kept
    rw [List.map_cons, keepTransfers]
    by_cases h : t.Type' = t1 ∨ t.Type' = t2
    · rw [if_pos h, ih]
      simp [List.filter_cons, h]
    · rw [if_neg h, ih]
      simp [List.filter_cons, h]

/-- When the API call succeeds and no transfer of the response is a nil
pointer, `GetDeposits` returns the transfers of the types `deposit` and
`internal_deposit` in their order, and `GetWithdrawals` those of the types
`withdraw` and `internal_withdraw` (with an empty `Pagination` as `Page` when
none is left); when the call fails, both return the empty value and the
error. -/
theorem GetDeposits_GetWithdrawals_filter (c : Client (List (Option Transfer)))
    (filter : List GoString) (pagination : PaginationParams) :
    (∀ (ts : List Transfer) page,
      c.Get (lit "/transfers/" ++ query (filter ++ pagination.Params)) (.paged [] none)
        = (.paged (ts.map some) page, none) →
      c.GetDeposits filter pagination
        = .returns ⟨[lit "/transfers/" ++ query (filter ++ pagination.Params)],
            .paged ((ts.filter fun t => t.Type' = lit "deposit" ∨
              t.Type' = lit "internal_deposit").map some)
              (if ((ts.filter fun t => t.Type' = lit "deposit" ∨
                t.Type' = lit "internal_deposit").map some).length = 0 then some ⟨[], []⟩
               else page), none⟩ ∧
      c.GetWithdrawals filter pagination
        = .returns ⟨[lit "/transfers/" ++ query (filter ++ pagination.Params)],
            .paged ((ts.filter fun t => t.Type' = lit "withdraw" ∨
              t.Type' = lit "internal_withdraw").map some)
              (if ((ts.filter fun t => t.Type' = lit "withdraw" ∨
                t.Type' = lit "internal_withdraw").map some).length = 0 then some ⟨[], []⟩
               else page), none⟩) ∧
    (∀ r err, c.Get (lit "/transfers/" ++ query (filter ++ pagination.Params)) (.paged [] none)
        = (r, some err) →
      c.GetDeposits filter pagination
        = .returns ⟨[lit "/transfers/" ++ query (filter ++ pagination.Params)],
            .paged [] none, some err⟩ ∧
      c.GetWithdrawals filter pagination
        = .returns ⟨[lit "/transfers/" ++ query (filter ++ pagination.Params)],
            .paged [] none, some err⟩) := by
  have hd : (fun t : Transfer =>
        decide (t.Type' = DepositTypeInternal ∨ t.Type' = DepositTypeDeposit))
      = fun t => decide (t.Type' = lit "deposit" ∨ t.Type' = lit "internal_deposit") := by
    funext t
    simp only [DepositTypeInternal, DepositTypeDeposit, or_comm]
  have hw : (fun t : Transfer =>
        decide (t.Type' = WithdrawalTypeInternal ∨ t.Type' = WithdrawalTypeWithdraw))
      = fun t => decide (t.Type' = lit "withdraw" ∨ t.Type' = lit "internal_withdraw") := by
    funext t
    simp only [WithdrawalTypeInternal, WithdrawalTypeWithdraw, or_comm]
  constructor
  · intro ts page h
    constructor
    · unfold Client.GetDeposits
      simp only [h, afterTransfers, keepTransfers_some, List.nil_append, hd]
    · unfold Client.GetWithdrawals
      simp only [h, afterTransfers, keepTransfers_some, List.nil_append, hw]
  · intro r err h
    constructor
    · unfold Client.GetDeposits
      simp only [h]
    · unfold Client.GetWithdrawals
      simp only [h]

/-- C23 at a response `[null]`, which is decoded into one nil pointer: the API
call succeeds, and `GetDeposits` and `GetWithdrawals` panic when they read the
`Type` of the transfer. -/
theorem GetDeposits_nil_transfer_panics :
    Client.GetDeposits ⟨fun _ _ => (.paged [none] none, none), []⟩ [] ⟨[], [], 0⟩
      = .panics "invalid memory address or nil pointer dereference" ∧
    Client.GetWithdrawals ⟨fun _ _ => (.paged [none] none, none), []⟩ [] ⟨[], [], 0⟩
      = .panics "invalid memory address or nil pointer dereference" := by
  decide

/-! ## Candles -/

theorem decodeInt64_ok (raw : GoString) (n : Int) :
    (decodeInt64 raw n).2 = none ↔ acceptsTime raw := by
  unfold decodeInt64 acceptsTime
  by_cases h : raw = lit "null"
  · simp [h]
  · rw [if_neg h]
    by_cases hs : startsNumber raw = true
    · rw [if_pos hs]
      cases hp : ParseInt raw with
      | none => simp [h]
      | some v => simp [hs]
    · rw [if_neg hs]
      simp [h, hs]

theorem decodeDecimal_ok {D : Type} (env : DecimalEnv D) (raw : GoString) (d : D) :
    (decodeDecimal env raw d).2 = none ↔ acceptsDecimal env raw := by
  unfold decodeDecimal acceptsDecimal
  by_cases h : raw = lit "null"
  · simp [h]
  · rw [if_neg h]
    cases hp : env.NewFromString (unquoteIfQuoted raw) with
    | error e => simp [h]
    | ok v => simp

theorem decodeInt64_number (raw : GoString) (n v : Int) (hs : startsNumber raw = true)
    (hp : ParseInt raw = some v) : decodeInt64 raw n = (v, none) := by
  have h : raw ≠ lit "null" := by
    intro hc
    rw [hc] at hs
    exact absurd hs (by decide)
  unfold decodeInt64
  rw [if_neg h, if_pos hs, hp]

theorem decodeDecimal_value {D : Type} (env : DecimalEnv D) (raw : GoString) (d v : D)
    (h : raw ≠ lit "null") (hp : env.NewFromString (unquoteIfQuoted raw) = .ok v) :
    decodeDecimal env raw d = (v, none) := by
  unfold decodeDecimal
  rw [if_neg h, hp]

theorem acceptsTime_of_decodeInt64 (raw : GoString) (n a : Int) (e : Option Err)
    (h : decodeInt64 raw n = (a, e)) : e = none ↔ acceptsTime raw := by
  rw [← decodeInt64_ok raw n, h]

theorem acceptsDecimal_of_decodeDecimal {D : Type} (env : DecimalEnv D) (raw : GoString)
    (d a : D) (e : Option Err) (h : decodeDecimal env raw d = (a, e)) :
    e = none ↔ acceptsDecimal env raw := by
  rw [← decodeDecimal_ok env raw d, h]

theorem Candle_UnmarshalJSON_six {D : Type} (env : DecimalEnv D) (c : Candle D)
    (t low high opened close volume : GoString) :
    (c.UnmarshalJSON env (.array [t, low, high, opened, close, volume])).2 = none ↔
      acceptsTime t ∧ acceptsDecimal env low ∧ acceptsDecimal env high ∧
      acceptsDecimal env opened ∧ acceptsDecimal env close ∧ acceptsDecimal env volume := by
  show (c.storeElements env t low high opened close volume).2 = none ↔ _
  unfold Candle.storeElements
  split
  · rename_i h
    have := acceptsTime_of_decodeInt64 _ _ _ _ h
    simp at this
    simp [this]
  · rename_i h
    have a0 := (acceptsTime_of_decodeInt64 _ _ _ _ h).1 rfl
    split
    · rename_i h
      have := acceptsDecimal_of_decodeDecimal _ _ _ _ _ h
      simp at this
      simp [this]
    · rename_i h
      have a1 := (acceptsDecimal_of_decodeDecimal _ _ _ _ _ h).1 rfl
      split
      · rename_i h
        have := acceptsDecimal_of_decodeDecimal _ _ _ _ _ h
        simp at this
        simp [this]
      · rename_i h
        have a2 := (acceptsDecimal_of_decodeDecimal _ _ _ _ _ h).1 rfl
        split
        · rename_i h
          have := acceptsDecimal_of_decodeDecimal _ _ _ _ _ h
          simp at this
          simp [this]
        · rename_i h
          have a3 := (acceptsDecimal_of_decodeDecimal _ _ _ _ _ h).1 rfl
          split
          · rename_i h
            have := acceptsDecimal_of_decodeDecimal _ _ _ _ _ h
            simp at this
            simp [this]
          · rename_i h
            have a4 := (acceptsDecimal_of_decodeDecimal _ _ _ _ _ h).1 rfl
            simp only [a0, a1, a2, a3, a4, true_and]
            exact decodeDecimal_ok env volume _

set_option maxRecDepth 100000 in
/-- C22 fails as stated, at three arrays of six elements with an element that is
no number: `null` in the place of the time is accepted and gives the Unix
second 0; `null` in the place of `low` is accepted and leaves `Low` as it was;
the string `"1.01"` in the place of `low` is accepted as the number 1.01. -/
theorem Candle_UnmarshalJSON_accepts_null :
    Candle.UnmarshalJSON testDecimal zeroCandle
        (.array [lit "null", lit "1.01", lit "2.12", lit "3.23", lit "4.34", lit "5.45"])
      = (⟨lit "4.34", lit "2.12", lit "1.01", lit "3.23", Unix 0, lit "5.45"⟩, none) ∧
    Candle.UnmarshalJSON testDecimal zeroCandle
        (.array [lit "1618349700", lit "null", lit "2.12", lit "3.23", lit "4.34", lit "5.45"])
      = (⟨lit "4.34", lit "2.12", lit "0", lit "3.23", Unix 1618349700, lit "5.45"⟩, none) ∧
    Candle.UnmarshalJSON testDecimal zeroCandle
        (.array [lit "1618349700", lit "\"1.01\"", lit "2.12", lit "3.23", lit "4.34",
          lit "5.45"])
      = (⟨lit "4.34", lit "2.12", lit "1.01", lit "3.23", Unix 1618349700, lit "5.45"⟩,
          none) := by
  decide

/-- C22, amended.  An array is accepted exactly when it has six elements, the
first is `null` or an integer in the range of `int64`, and each of the other
five is `null` or a text that `decimal.NewFromString` accepts once its quotes are
taken off; so every array whose length is not 6 is rejected.  For six
elements of which the first is an integer `n` in the range and the others
are texts, not `null`, that `NewFromString` accepts, `Time` is set to the Unix
second `n` in UTC and `Low`, `High`, `Open`, `Close`, `Volume` to the elements 1
to 5 in that order. -/
theorem Candle_UnmarshalJSON_accepts_iff {D : Type} (env : DecimalEnv D) (c : Candle D)
    (elements : List GoString) :
    ((c.UnmarshalJSON env (.array elements)).2 = none ↔
      ∃ t low high opened close volume, elements = [t, low, high, opened, close, volume] ∧
        acceptsTime t ∧ acceptsDecimal env low ∧ acceptsDecimal env high ∧
        acceptsDecimal env opened ∧ acceptsDecimal env close ∧ acceptsDecimal env volume) ∧
    (elements.length ≠ 6 → (c.UnmarshalJSON env (.array elements)).2 ≠ none) ∧
    (∀ t low high opened close volume n vl vh vo vc vv,
      elements = [t, low, high, opened, close, volume] →
      startsNumber t = true → ParseInt t = some n →
      low ≠ lit "null" → env.NewFromString (unquoteIfQuoted low) = .ok vl →
      high ≠ lit "null" → env.NewFromString (unquoteIfQuoted high) = .ok vh →
      opened ≠ lit "null" → env.NewFromString (unquoteIfQuoted opened) = .ok vo →
      close ≠ lit "null" → env.NewFromString (unquoteIfQuoted close) = .ok vc →
      volume ≠ lit "null" → env.NewFromString (unquoteIfQuoted volume) = .ok vv →
      c.UnmarshalJSON env (.array elements)
        = (⟨vc, vh, vl, vo, Unix n, vv⟩, none)) := by
  have hiff : (c.UnmarshalJSON env (.array elements)).2 = none ↔
      ∃ t low high opened close volume, elements = [t, low, high, opened, close, volume] ∧
        acceptsTime t ∧ acceptsDecimal env low ∧ acceptsDecimal env high ∧
        acceptsDecimal env opened ∧ acceptsDecimal env close ∧ acceptsDecimal env volume := by
    rcases elements with _ | ⟨t, _ | ⟨low, _ | ⟨high, _ | ⟨opened, _ | ⟨close, _ |
      ⟨volume, _ | ⟨x, rest⟩⟩⟩⟩⟩⟩⟩
    case cons.cons.cons.cons.cons.cons.nil =>
      rw [Candle_UnmarshalJSON_six]
      constructor
      · intro h
        exact ⟨t, low, high, opened, close, volume, rfl, h⟩
      · rintro ⟨t', low', high', opened', close', volume', he, h⟩
        simp only [List.cons.injEq, and_true] at he
        obtain ⟨rfl, rfl, rfl, rfl, rfl, rfl⟩ := he
        exact h
    all_goals
      simp [Candle.UnmarshalJSON]
  refine ⟨hiff, ?_, ?_⟩
  · intro hlen hc
    obtain ⟨t, low, high, opened, close, volume, he, _⟩ := hiff.1 hc
    rw [he] at hlen
    exact hlen rfl
  · intro t low high opened close volume n vl vh vo vc vv he hs hp hl1 hl2 hh1 hh2 ho1 ho2
      hc1 hc2 hv1 hv2
    rw [he]
    show c.storeElements env t low high opened close volume = _
    unfold Candle.storeElements
    simp only [decodeInt64_number t 0 n hs hp, decodeDecimal_value env low _ vl hl1 hl2,
      decodeDecimal_value env high _ vh hh1 hh2, decodeDecimal_value env opened _ vo ho1 ho2,
      decodeDecimal_value env close _ vc hc1 hc2, decodeDecimal_value env volume _ vv hv1 hv2]

set_option maxRecDepth 100000 in
/-- The amended C22 at the candle of `TestCandle`,
`[ 1618349700, 1.01, 2.12, 3.23, 4.34, 5.45 ]`. -/
theorem Candle_UnmarshalJSON_accepts_iff_witness :
    Candle.UnmarshalJSON testDecimal zeroCandle
        (.array [lit "1618349700", lit "1.01", lit "2.12", lit "3.23", lit "4.34", lit "5.45"])
      = (⟨lit "4.34", lit "2.12", lit "1.01", lit "3.23", Unix 1618349700, lit "5.45"⟩, none) ∧
    (Unix 1618349700).Format = lit "2021-04-13T21:35:00Z" :=
  ⟨(Candle_UnmarshalJSON_accepts_iff testDecimal zeroCandle
      [lit "1618349700", lit "1.01", lit "2.12", lit "3.23", lit "4.34", lit "5.45"]).2.2
      (lit "1618349700") (lit "1.01") (lit "2.12") (lit "3.23") (lit "4.34") (lit "5.45")
      1618349700 (lit "1.01") (lit "2.12") (lit "3.23") (lit "4.34") (lit "5.45")
      rfl (by decide) (by decide) (by decide) rfl (by decide) rfl (by decide) rfl
      (by decide) rfl (by decide) rfl,
   by decide⟩

end Reticule
